import Mathlib

/-!
# `cata::string_formatter` (src/string_formatter.h)

A shallow embedding of the type-safe `printf` wrapper of `src/string_formatter.h`:
the `convert` overload set, `string_formatter::get_nth_arg_as`,
`string_formatter::read_conversion`, `string_formatter::parse` and `string_format`.

Strings are lists of characters (`std::string_view` may hold any character, the
null character included).  The member functions that the header only declares
are modelled from their doc comments and from the specification; each such
definition says so.
-/

namespace cata

/-! ## Characters and decimal text -/

/-- The null character, which `consume_next_input` returns at the end of the format. -/
def NUL : Char := Char.ofNat 0

/-- The character of one decimal digit. -/
def digit_char (d : Nat) : Char := Char.ofNat (48 + d)

/-- Value of a decimal digit character (`c - '0'`). -/
def digit_value (c : Char) : Nat := c.toNat - 48

/-- Test `c >= '0' && c <= '9'`. -/
def is_digit (c : Char) : Bool := decide (48 ≤ c.toNat) && decide (c.toNat ≤ 57)

/-- Digits of `n`, most significant first, pushed in front of `acc`. -/
def nat_digits : Nat → Nat → List Char → List Char
  | 0, _, acc => acc
  | fuel + 1, n, acc =>
    if n < 10 then digit_char n :: acc
    else nat_digits fuel (n / 10) (digit_char (n % 10) :: acc)

/-- The text of `std::to_string` on an unsigned value. -/
def nat_to_string (n : Nat) : List Char := nat_digits (n + 1) n []

/-- The text of `std::to_string` on a signed integer value. -/
def to_string (i : Int) : List Char :=
  if i < 0 then '-' :: nat_to_string i.natAbs else nat_to_string i.natAbs

/-! ## Machine integers -/

/-- Conversion to `unsigned long long int`: the value modulo `2^64`. -/
def to_ull (i : Int) : Nat := (i % 18446744073709551616).toNat

/-- Conversion to `signed long long int`: the value wrapped into `[-2^63, 2^63)`. -/
def to_sll (i : Int) : Int :=
  (i + 9223372036854775808) % 18446744073709551616 - 9223372036854775808

/-- Conversion to `int`: the value wrapped into `[-2^31, 2^31)`. -/
def to_int (i : Int) : Int := (i + 2147483648) % 4294967296 - 2147483648

/-- The value of a `char` in an integer conversion.  The signedness of `char` is left to the
implementation; here `char` is a signed 8-bit type, as on x86-64, so the byte is
sign-extended: a byte of 128 or more is a negative value. -/
def char_to_int (c : Char) : Int := ((c.toNat : Int) + 128) % 256 - 128

/-- Conversion of an `int` to the `unsigned int` parameter of `get_nth_arg_as`.  It is exact on
the whole range of `int`: a negative index becomes a value of at least `2^31`. -/
def to_unsigned (i : Int) : Nat := if 0 ≤ i then i.toNat else (i + 4294967296).toNat

/-! ## Argument values -/

/-- A `double`, as the finite value `(-1)^neg * mant * 2^exp`. -/
structure Double where
  neg : Bool
  mant : Nat
  exp : Int
  deriving DecidableEq

/-- One caller-supplied argument, tagged with the category of its (decayed) C++ type. -/
inductive Arg where
  /-- A `char`. -/
  | character (c : Char)
  /-- A signed integer type (`short`, `int`, `long`, `long long`). -/
  | sint (n : Int)
  /-- An unsigned integer type. -/
  | uint (n : Nat)
  /-- A floating point type. -/
  | floating (d : Double)
  /-- An enumeration type, with its underlying value. -/
  | enumeration (n : Int)
  /-- A pointer that is not a C string, with its address. -/
  | pointer (addr : Nat)
  /-- A `const char *` or `char *`: its address and the text it points to. -/
  | cstring (addr : Nat) (text : List Char)
  /-- A `std::string`. -/
  | string (text : List Char)
  /-- A `std::string_view`. -/
  | string_view (text : List Char)
  /-- A `translation`, with the text `translated()` returns. -/
  | translation (text : List Char)
  /-- A `string_id<T>`, with the text `str()` returns. -/
  | string_id (text : List Char)
  /-- A `bool`. -/
  | boolean (b : Bool)
  deriving DecidableEq

namespace Arg

/-- `std::is_arithmetic_v<std::decay_t<T>>`. -/
def is_arithmetic : Arg → Bool
  | character _ | sint _ | uint _ | floating _ | boolean _ => true
  | _ => false

/-- `std::is_same_v<std::decay_t<T>, bool>`. -/
def is_bool : Arg → Bool
  | boolean _ => true
  | _ => false

/-- `std::is_floating_point_v<std::decay_t<T>>`. -/
def is_floating_point : Arg → Bool
  | floating _ => true
  | _ => false

/-- `is_numeric<T>`: arithmetic type, excluding `bool`. -/
def is_numeric (a : Arg) : Bool := a.is_arithmetic && !a.is_bool

/-- `is_integer<T>`: numeric and not floating point. -/
def is_integer (a : Arg) : Bool := a.is_numeric && !a.is_floating_point

/-- `is_char<T>`. -/
def is_char : Arg → Bool
  | character _ => true
  | _ => false

/-- `is_string<T>`. -/
def is_string : Arg → Bool
  | string _ => true
  | _ => false

/-- `is_string_view<T>`. -/
def is_string_view : Arg → Bool
  | string_view _ => true
  | _ => false

/-- `is_cstring<T>`. -/
def is_cstring : Arg → Bool
  | cstring _ _ => true
  | _ => false

/-- `is_translation<T>`. -/
def is_translation : Arg → Bool
  | translation _ => true
  | _ => false

/-- `is_string_id<T>`. -/
def is_string_id : Arg → Bool
  | string_id _ => true
  | _ => false

/-- `std::is_enum<std::decay_t<T>>`. -/
def is_enum : Arg → Bool
  | enumeration _ => true
  | _ => false

/-- `std::is_pointer<std::decay_t<T>>`: C strings are pointers too. -/
def is_pointer : Arg → Bool
  | pointer _ | cstring _ _ => true
  | _ => false

/-- The condition of the `static_assert` in the catch-all `convert`: the argument types that
`string_format` compiles with. -/
def printable (a : Arg) : Bool :=
  a.is_pointer || a.is_numeric || a.is_string || a.is_string_view || a.is_char ||
    a.is_enum || a.is_cstring || a.is_translation || a.is_string_id

/-- The integer value of an integer or enumeration argument, as the implicit conversion and
the `static_cast` of the integer `convert` overloads see it; a `char` is sign-extended. -/
def int_value : Arg → Int
  | character c => char_to_int c
  | sint n => n
  | uint n => (n : Int)
  | enumeration n => n
  | boolean b => if b then 1 else 0
  | _ => 0

/-- The address held by a pointer argument. -/
def address : Arg → Nat
  | pointer p => p
  | cstring p _ => p
  | _ => 0

/-- Modelled from the spec: `typeid( T ).name()` passed through `demangle` (demangle.h is not
part of the sources); the human-readable name of the category of the argument. -/
def type_name : Arg → List Char
  | character _ => "char".toList
  | sint _ => "signed integer".toList
  | uint _ => "unsigned integer".toList
  | floating _ => "double".toList
  | enumeration _ => "enum".toList
  | pointer _ => "pointer".toList
  | cstring _ _ => "char const*".toList
  | string _ => "std::string".toList
  | string_view _ => "std::string_view".toList
  | translation _ => "translation".toList
  | string_id _ => "string_id".toList
  | boolean _ => "bool".toList

end Arg

/-- The requested types `RT` that `read_conversion` and `parse` instantiate `convert` with. -/
inductive Requested where
  | int_
  | signed_long_long
  | unsigned_long_long
  | double_
  | void_ptr
  | string_view_
  deriving DecidableEq

/-- Modelled from the spec: the demangled name of `typeid( RT )`. -/
def Requested.type_name : Requested → List Char
  | .int_ => "int".toList
  | .signed_long_long => "long long".toList
  | .unsigned_long_long => "unsigned long long".toList
  | .double_ => "double".toList
  | .void_ptr => "void*".toList
  | .string_view_ => "std::string_view".toList

/-- A converted value, as handed to one of the `do_formating` overloads. -/
inductive Value where
  | int_ (v : Int)
  | signed_long_long (v : Int)
  | unsigned_long_long (v : Nat)
  | double_ (d : Double)
  | void_ptr (addr : Nat)
  | string_view_ (text : List Char)
  deriving DecidableEq

/-! ## Errors -/

/-- The exceptions of the formatter, one constructor per kind of `throw_error` call. -/
inductive FormatError where
  /-- `get_nth_arg_as` ran out of arguments. -/
  | IndexOutOfRange (requested count : Nat)
  /-- The catch-all `convert`. -/
  | UnsupportedConversion (source : Arg) (requested : Requested)
  /-- The `default` case of `read_conversion`. -/
  | InvalidSpecifier (c : Char)
  /-- The rendering primitive rejected the sub-format (modelled from the spec: the
  `do_formating` overloads are declared only). -/
  | BackendFormattingFailure (current_format : List Char)
  deriving DecidableEq

deriving instance DecidableEq for Except

/-- The message given to `throw_error`; the text for `BackendFormattingFailure` is modelled from
the spec, the other three are built in the header. -/
def FormatError.message : FormatError → List Char
  | .IndexOutOfRange requested count =>
    "Requested argument ".toList ++ nat_to_string requested ++
      " but input has only ".toList ++ nat_to_string count
  | .UnsupportedConversion source requested =>
    "Tried to convert argument of type ".toList ++ source.type_name ++ " to ".toList ++
      requested.type_name ++ ", which is not possible".toList
  | .InvalidSpecifier c => "Unsupported format conversion: ".toList ++ [c]
  | .BackendFormattingFailure current_format =>
    "Formatting failed for: ".toList ++ current_format

/-! ## The `convert` overload set -/

/-- Digits of a `%f` rendering: the magnitude of `d` rounded (half to even) to `prec` decimal
places, scaled by `10^prec`. -/
def fixed_scaled (d : Double) (prec : Nat) : Nat :=
  if 0 ≤ d.exp then d.mant * 2 ^ d.exp.toNat * 10 ^ prec
  else
    let num := d.mant * 10 ^ prec
    let den := 2 ^ (-d.exp).toNat
    let q := num / den
    let r := num % den
    if den < 2 * r || (2 * r == den && q % 2 == 1) then q + 1 else q

/-- The characters of `n` in exactly `width` decimal digits (the low ones). -/
def fixed_width_digits : Nat → Nat → List Char
  | 0, _ => []
  | width + 1, n => fixed_width_digits width (n / 10) ++ [digit_char (n % 10)]

/-- Text of the magnitude of `d` with `prec` decimal places. -/
def fixed_text (d : Double) (prec : Nat) : List Char :=
  let q := fixed_scaled d prec
  nat_to_string (q / 10 ^ prec) ++
    (if prec = 0 then [] else '.' :: fixed_width_digits prec (q % 10 ^ prec))

/-- The text of `std::to_string` on a floating point value (`%f`). -/
def double_to_string (d : Double) : List Char :=
  (if d.neg then ['-'] else []) ++ fixed_text d 6

/-- The text of `std::to_string( value )` for a numeric argument that is not a `char`. -/
def Arg.to_string : Arg → List Char
  | .floating d => double_to_string d
  | a => cata.to_string a.int_value

/-- The value of a floating point argument. -/
def Arg.double_value : Arg → Double
  | .floating d => d
  | _ => ⟨false, 0, 0⟩

/-- The text of `std::string( 1, value )` for a `char` argument. -/
def Arg.char_text : Arg → List Char
  | .character c => [c]
  | _ => []

/-- The text of a string-like argument (`value`, `value.translated()`, `value.str()`). -/
def Arg.text : Arg → List Char
  | .cstring _ t | .string t | .string_view t | .translation t | .string_id t => t
  | _ => []

/-- The value of `static_cast<RT>` for an integer `RT`. -/
def integer_cast (rt : Requested) (i : Int) : Value :=
  match rt with
  | .int_ => .int_ (to_int i)
  | .signed_long_long => .signed_long_long (to_sll i)
  | _ => .unsigned_long_long (to_ull i)

/-- `is_integer<RT>` on the requested types. -/
def Requested.is_integer : Requested → Bool
  | .int_ | .signed_long_long | .unsigned_long_long => true
  | _ => false

/-- The overloads of `convert`, in the order of the header; the last branch is the catch-all
that throws.  `temp_buffer` is `sf.temp_buffer`, which the overloads that call
`string_formatter_set_temp_buffer` replace; the new content is returned with the value. -/
def convert (rt : Requested) (temp_buffer : List Char) (value : Arg) :
    Except FormatError (Value × List Char) :=
  if rt.is_integer && value.is_integer then
    .ok (integer_cast rt value.int_value, temp_buffer)
  else if rt.is_integer && value.is_enum then
    .ok (integer_cast rt value.int_value, temp_buffer)
  else if rt = .double_ && value.is_numeric && !value.is_integer then
    .ok (.double_ value.double_value, temp_buffer)
  else if rt = .void_ptr && value.is_pointer then
    .ok (.void_ptr value.address, temp_buffer)
  else if rt = .string_view_ && value.is_string then
    .ok (.string_view_ value.text, temp_buffer)
  else if rt = .string_view_ && value.is_string_view then
    .ok (.string_view_ value.text, temp_buffer)
  else if rt = .string_view_ && value.is_cstring then
    .ok (.string_view_ value.text, temp_buffer)
  else if rt = .string_view_ && value.is_translation then
    .ok (.string_view_ value.text, value.text)
  else if rt = .string_view_ && value.is_string_id then
    .ok (.string_view_ value.text, value.text)
  else if rt = .string_view_ && value.is_numeric && !value.is_char then
    .ok (.string_view_ value.to_string, value.to_string)
  else if rt = .string_view_ && value.is_numeric && value.is_char then
    .ok (.string_view_ value.char_text, value.char_text)
  else
    .error (.UnsupportedConversion value rt)

/-- `string_formatter::get_nth_arg_as<RT, current_index>`: the recursion over the argument
pack; the empty pack is the overload that throws. -/
def get_nth_arg_as (rt : Requested) (temp_buffer : List Char) (current_index : Nat)
    (requested : Nat) : List Arg → Except FormatError (Value × List Char)
  | [] => .error (.IndexOutOfRange requested current_index)
  | head :: args =>
    if requested > current_index then
      get_nth_arg_as rt temp_buffer (current_index + 1) requested args
    else
      convert rt temp_buffer head

/-! ## The formatter -/

/-- The data members of `class string_formatter`. -/
structure string_formatter where
  /-- Complete format string. -/
  format : List Char
  /-- Index of the next character of `format` to be parsed. -/
  current_index_in_format : Nat := 0
  /-- The formatted output. -/
  output : List Char := []
  /-- The currently parsed format specifier, given to the rendering primitive. -/
  current_format : List Char := []
  /-- The index of the next argument to be formatted. -/
  current_argument_index : Int := 0
  /-- Scratch text for values printed through `%s`. -/
  temp_buffer : List Char := []
  deriving DecidableEq

/-- The rendering primitive behind the `do_formating` overloads: from the sub-format and one
converted value to the rendered text, or nothing when it rejects the sub-format. -/
abbrev Backend := List Char → Value → Option (List Char)

namespace string_formatter

/-- Modelled from the spec: `get_current_input` (declared, not defined, in the header): the next
character of `format`, the null character at the end, the position unchanged. -/
def get_current_input (sf : string_formatter) : Char :=
  sf.format.getD sf.current_index_in_format NUL

/-- Modelled from the spec: `consume_next_input` (declared, not defined, in the header): returns
the next character and increments `current_index_in_format`; at the end of the format returns
the null character and changes nothing. -/
def consume_next_input (sf : string_formatter) : Char × string_formatter :=
  if sf.current_index_in_format < sf.format.length then
    (sf.get_current_input, { sf with current_index_in_format := sf.current_index_in_format + 1 })
  else (NUL, sf)

/-- Modelled from the spec: `consume_next_input_if` (declared, not defined, in the header): when
the next character is `c` consume it and return `true`, otherwise do nothing and return
`false`. -/
def consume_next_input_if (c : Char) (sf : string_formatter) : Bool × string_formatter :=
  if c = sf.get_current_input then (true, sf.consume_next_input.2) else (false, sf)

/-- Modelled from the spec: `has_digit` (declared, not defined, in the header): whether
`get_current_input` is a decimal digit. -/
def has_digit (sf : string_formatter) : Bool := is_digit sf.get_current_input

/-- Modelled from the spec: part of a member function that the header only declares. The loop of
`parse_integer`, at most `fuel` digits. -/
def parse_integer_loop : Nat → Nat → string_formatter → Nat × string_formatter
  | 0, result, sf => (result, sf)
  | fuel + 1, result, sf =>
    if sf.has_digit then
      parse_integer_loop fuel (result * 10 + digit_value sf.consume_next_input.1)
        sf.consume_next_input.2
    else (result, sf)

/-- Modelled from the spec: `parse_integer` (declared, not defined, in the header): consumes
decimal digits and returns their value, `0` when the first character is not a digit; leaves the
format at the first non-digit character or at the end. -/
def parse_integer (sf : string_formatter) : Int × string_formatter :=
  (((parse_integer_loop (sf.format.length - sf.current_index_in_format) 0 sf).1 : Nat),
    (parse_integer_loop (sf.format.length - sf.current_index_in_format) 0 sf).2)

/-- Modelled from the spec: part of a member function that the header only declares. The flag
characters of the specification. -/
def is_flag (c : Char) : Bool :=
  c = '-' || c = '+' || c = ' ' || c = '0' || c = '#'

/-- Modelled from the spec: part of a member function that the header only declares. The loop of
`read_flags`, at most `fuel` characters. -/
def read_flags_loop : Nat → string_formatter → string_formatter
  | 0, sf => sf
  | fuel + 1, sf =>
    if is_flag sf.get_current_input then
      read_flags_loop fuel
        { sf.consume_next_input.2 with
          current_format := sf.current_format ++ [sf.consume_next_input.1] }
    else sf

/-- Modelled from the spec: `read_flags` (declared, not defined, in the header): consumes flag
characters and appends them to `current_format`; leaves the format at the first character that
is not a flag. -/
def read_flags (sf : string_formatter) : string_formatter :=
  read_flags_loop (sf.format.length - sf.current_index_in_format) sf

/-- Modelled from the spec: part of a member function that the header only declares. Forwarding of
literal digits to `current_format`, at most `fuel` characters. -/
def forward_digits_loop : Nat → string_formatter → string_formatter
  | 0, sf => sf
  | fuel + 1, sf =>
    if sf.has_digit then
      forward_digits_loop fuel
        { sf.consume_next_input.2 with
          current_format := sf.current_format ++ [sf.consume_next_input.1] }
    else sf

/-- Modelled from the spec: `read_argument_index` (declared, not defined, in the header): one or
more digits followed by `$` give the argument index, made 0-based; digits that are not followed
by `$` are left in place for the width; nothing is returned when the format names no index. -/
def read_argument_index (sf : string_formatter) : Option Int × string_formatter :=
  if sf.has_digit then
    if (consume_next_input_if '$' sf.parse_integer.2).1 then
      (some (sf.parse_integer.1 - 1), (consume_next_input_if '$' sf.parse_integer.2).2)
    else (none, sf)
  else (none, sf)

/-- Modelled from the spec: `read_number_or_argument_index` (declared, not defined, in the
header): the common part of `read_width` and `read_precision`.  Literal digits are forwarded to
`current_format` and nothing is returned; `*` returns the explicitly indexed argument when an
index follows, and otherwise the next argument, advancing `current_argument_index`. -/
def read_number_or_argument_index (sf : string_formatter) : Option Int × string_formatter :=
  if (consume_next_input_if '*' sf).1 then
    match read_argument_index (consume_next_input_if '*' sf).2 with
    | (some index, sf1) => (some index, sf1)
    | (none, sf1) =>
      (some sf1.current_argument_index,
        { sf1 with current_argument_index := sf1.current_argument_index + 1 })
  else
    (none, forward_digits_loop (sf.format.length - sf.current_index_in_format) sf)

/-- Modelled from the spec: `read_width` (declared, not defined, in the header). -/
def read_width (sf : string_formatter) : Option Int × string_formatter :=
  read_number_or_argument_index sf

/-- Modelled from the spec: `read_precision` (declared, not defined, in the header): like
`read_width`, after a `.` that is forwarded to `current_format`. -/
def read_precision (sf : string_formatter) : Option Int × string_formatter :=
  if (consume_next_input_if '.' sf).1 then
    read_number_or_argument_index
      { (consume_next_input_if '.' sf).2 with current_format := sf.current_format ++ ['.'] }
  else (none, sf)

/-- Modelled from the spec: `add_long_long_length_modifier` (declared, not defined, in the
header): puts the `ll` modifier in front of the conversion letter that ends `current_format`. -/
def add_long_long_length_modifier (sf : string_formatter) : string_formatter :=
  { sf with
    current_format := sf.current_format.dropLast ++ ['l', 'l'] ++ sf.current_format.getLast?.toList }

/-- Modelled from the spec: `discard_oct_hex_sign_flag` (declared, not defined, in the header):
drops the sign flags `+` and space from `current_format`. -/
def discard_oct_hex_sign_flag (sf : string_formatter) : string_formatter :=
  { sf with current_format := sf.current_format.filter (fun c => !(c = '+' || c = ' ')) }

/-- Modelled from the spec: the `do_formating` overloads (declared, not defined, in the header):
render `value` with `current_format` and append the text to `output`. -/
def do_formating (render : Backend) (value : Value) (sf : string_formatter) :
    Except FormatError string_formatter :=
  match render sf.current_format value with
  | some text => .ok { sf with output := sf.output ++ text }
  | none => .error (.BackendFormattingFailure sf.current_format)

/-- The expression `do_formating( get_nth_arg_as<RT, 0>( format_arg_index, args... ) )`. -/
def format_nth_arg (render : Backend) (rt : Requested) (format_arg_index : Int)
    (args : List Arg) (sf : string_formatter) : Except FormatError string_formatter :=
  match get_nth_arg_as rt sf.temp_buffer 0 (to_unsigned format_arg_index) args with
  | .ok (value, temp_buffer) => do_formating render value { sf with temp_buffer := temp_buffer }
  | .error e => .error e

/-- The removal of the length modifier at the head of `read_conversion`. -/
def skip_length_modifier (sf : string_formatter) : string_formatter :=
  if (consume_next_input_if 'l' sf).1 then
    (consume_next_input_if 'l' (consume_next_input_if 'l' sf).2).2
  else if (consume_next_input_if 'h' sf).1 then
    (consume_next_input_if 'h' (consume_next_input_if 'h' sf).2).2
  else if (consume_next_input_if 'z' sf).1 then
    (consume_next_input_if 'z' sf).2
  else if (consume_next_input_if 't' sf).1 then
    (consume_next_input_if 't' sf).2
  else sf

/-- The `switch( c )` of `read_conversion`, after `c` was pushed to `current_format`. -/
def dispatch_conversion (render : Backend) (c : Char) (format_arg_index : Int)
    (args : List Arg) (sf : string_formatter) : Except FormatError string_formatter :=
  if c = 'c' then
    format_nth_arg render .int_ format_arg_index args sf
  else if c = 'd' || c = 'i' then
    format_nth_arg render .signed_long_long format_arg_index args
      sf.add_long_long_length_modifier
  else if c = 'o' || c = 'x' || c = 'X' then
    format_nth_arg render .unsigned_long_long format_arg_index args
      sf.discard_oct_hex_sign_flag.add_long_long_length_modifier
  else if c = 'u' then
    format_nth_arg render .unsigned_long_long format_arg_index args
      sf.add_long_long_length_modifier
  else if c = 'a' || c = 'A' || c = 'g' || c = 'G' || c = 'f' || c = 'F' || c = 'e'
      || c = 'E' then
    format_nth_arg render .double_ format_arg_index args sf
  else if c = 'p' then
    format_nth_arg render .void_ptr format_arg_index args sf
  else if c = 's' then
    format_nth_arg render .string_view_ format_arg_index args sf
  else
    .error (.InvalidSpecifier c)

/-- `string_formatter::read_conversion`. -/
def read_conversion (render : Backend) (format_arg_index : Int) (args : List Arg)
    (sf : string_formatter) : Except FormatError string_formatter :=
  dispatch_conversion render sf.skip_length_modifier.consume_next_input.1 format_arg_index args
    { sf.skip_length_modifier.consume_next_input.2 with
      current_format :=
        sf.skip_length_modifier.current_format ++ [sf.skip_length_modifier.consume_next_input.1] }

/-- The integer carried by a converted value. -/
def value_int : Value → Int
  | .int_ v | .signed_long_long v => v
  | .unsigned_long_long v => (v : Int)
  | _ => 0

/-- The `if( ... = read_width() )` and `if( ... = read_precision() )` blocks of `parse`: when the
field names an argument, fetch it as `int` and append its decimal text to `current_format`. -/
def append_int_argument (field : Option Int × string_formatter) (args : List Arg) :
    Except FormatError string_formatter :=
  match field with
  | (some index, sf) =>
    match get_nth_arg_as .int_ sf.temp_buffer 0 (to_unsigned index) args with
    | .ok (w, temp_buffer) =>
      .ok { sf with
            temp_buffer := temp_buffer
            current_format := sf.current_format ++ to_string (value_int w) }
    | .error e => .error e
  | (none, sf) => .ok sf

/-- The last two statements of the loop body of `parse`: pick the explicit index or the next
sequential argument, then `read_conversion`. -/
def read_value (render : Backend) (format_arg_index : Option Int) (args : List Arg)
    (sf : string_formatter) : Except FormatError string_formatter :=
  match format_arg_index with
  | some index => read_conversion render index args sf
  | none =>
    read_conversion render sf.current_argument_index args
      { sf with current_argument_index := sf.current_argument_index + 1 }

/-- The part of the loop body of `parse` that handles one format specifier, after its `%`. -/
def parse_specifier (render : Backend) (args : List Arg) (sf : string_formatter) :
    Except FormatError string_formatter :=
  let sf0 := { sf with current_format := ['%'] }
  let index := read_argument_index sf0
  match append_int_argument (read_width (read_flags index.2)) args with
  | .error e => .error e
  | .ok sf1 =>
    match append_int_argument (read_precision sf1) args with
    | .error e => .error e
    | .ok sf2 => read_value render index.1 args sf2

/-- The `while` loop of `parse`, at most `fuel` iterations; `none` when the fuel runs out. -/
def parse_loop (render : Backend) (args : List Arg) :
    Nat → string_formatter → Option (Except FormatError string_formatter)
  | 0, _ => none
  | fuel + 1, sf =>
    if sf.consume_next_input.1 = NUL then some (.ok sf.consume_next_input.2)
    else if sf.consume_next_input.1 ≠ '%' then
      parse_loop render args fuel
        { sf.consume_next_input.2 with output := sf.output ++ [sf.consume_next_input.1] }
    else if (consume_next_input_if '%' sf.consume_next_input.2).1 then
      parse_loop render args fuel
        { (consume_next_input_if '%' sf.consume_next_input.2).2 with
          output := sf.output ++ ['%'] }
    else
      match parse_specifier render args sf.consume_next_input.2 with
      | .error e => some (.error e)
      | .ok sf2 => parse_loop render args fuel sf2

/-- `string_formatter::parse`: every iteration consumes a character, so one more iteration than
the format has characters is enough (`parse_terminates`). -/
def parse (render : Backend) (args : List Arg) (sf : string_formatter) :
    Option (Except FormatError string_formatter) :=
  parse_loop render args (sf.format.length + 1)
    { sf with output := [], current_index_in_format := 0, current_argument_index := 0 }

/-- `string_formatter::get_output`. -/
def get_output (sf : string_formatter) : List Char := sf.output

end string_formatter

/-- Modelled from the spec: `handle_string_format_error` (declared, not defined, in the header)
on the exception of `throw_error`, which contains the message and the format. -/
def handle_string_format_error (e : FormatError) (format : List Char) : List Char :=
  e.message ++ " in format string \"".toList ++ format ++ "\"".toList

/-- The strict entry point: the `try` block of `string_format`, with the exception as a
result. -/
def format_strict (render : Backend) (format : List Char) (args : List Arg) :
    Option (Except FormatError (List Char)) :=
  match string_formatter.parse render args { format := format } with
  | some (.ok formatter) => some (.ok formatter.get_output)
  | some (.error e) => some (.error e)
  | none => none

/-- `string_format`: the output of the formatter, or the text of the caught exception. -/
def string_format (render : Backend) (format : List Char) (args : List Arg) :
    Option (List Char) :=
  match string_formatter.parse render args { format := format } with
  | some (.ok formatter) => some formatter.get_output
  | some (.error e) => some (handle_string_format_error e format)
  | none => none

/-! ## A reference rendering primitive -/

/-- Modelled from the spec: part of the rendering primitive, which is not in the sources. Digits
of `n` in base 8 or 16, most significant first, pushed in front of `acc`. -/
def radix_digits (radix : Nat) (upper : Bool) : Nat → Nat → List Char → List Char
  | 0, _, acc => acc
  | fuel + 1, n, acc =>
    let d := n % radix
    let ch := if d < 10 then digit_char d
      else if upper then Char.ofNat (55 + d) else Char.ofNat (87 + d)
    if n < radix then ch :: acc else radix_digits radix upper fuel (n / radix) (ch :: acc)

/-- Modelled from the spec: part of the rendering primitive, which is not in the sources. The
parts of a sub-format `%[flags][width][.precision][ll]conversion`. -/
structure SubFormat where
  flags : List Char
  width : Nat
  precision : Option Nat
  conversion : Char
  deriving DecidableEq

/-- The value of a run of decimal digits. -/
def digits_value (ds : List Char) : Nat := ds.foldl (fun n c => n * 10 + digit_value c) 0

/-- Modelled from the spec: part of the rendering primitive, which is not in the sources. The
optional `.precision` at the head of `s`, and what follows it. -/
def split_precision (s : List Char) : Option Nat × List Char :=
  match s with
  | c :: rest =>
    if c = '.' then (some (digits_value (rest.takeWhile is_digit)), rest.dropWhile is_digit)
    else (none, s)
  | [] => (none, [])

/-- Modelled from the spec: part of the rendering primitive, which is not in the sources. The
conversion letter that must end the sub-format, after an optional `ll`. -/
def split_conversion (s : List Char) : Option Char :=
  match s with
  | [c] => some c
  | [a, b, c] => if a = 'l' ∧ b = 'l' then some c else none
  | _ => none

/-- Modelled from the spec: part of the rendering primitive, which is not in the sources. What
follows the flags and the width in the sub-format. -/
def after_width (s : List Char) : List Char :=
  (s.dropWhile string_formatter.is_flag).dropWhile is_digit

/-- Modelled from the spec: part of the rendering primitive, which is not in the sources. Split a
sub-format into its parts; nothing when it is malformed. -/
def parse_sub_format (current_format : List Char) : Option SubFormat :=
  match current_format with
  | c :: s =>
    if c = '%' then
      match split_conversion (split_precision (after_width s)).2 with
      | some conversion =>
        some ⟨s.takeWhile string_formatter.is_flag,
          digits_value ((s.dropWhile string_formatter.is_flag).takeWhile is_digit),
          (split_precision (after_width s)).1, conversion⟩
      | none => none
    else none
  | [] => none

/-- Modelled from the spec: part of the rendering primitive, which is not in the sources. Pad
`body` to the field width: to the right with spaces for the `-` flag, else to the left with
spaces, or with zeros after `lead` (sign and radix prefix) when `zero_pad` holds. -/
def pad_field (f : SubFormat) (zero_pad : Bool) (lead body : List Char) : List Char :=
  let fill := f.width - (lead.length + body.length)
  if f.flags.contains '-' then lead ++ body ++ List.replicate fill ' '
  else if zero_pad then lead ++ List.replicate fill '0' ++ body
  else List.replicate fill ' ' ++ lead ++ body

/-- Modelled from the spec: part of the rendering primitive, which is not in the sources. The
digits of an integer conversion: at least `precision` digits, and no digit at all for the value
zero with precision zero. -/
def integer_body (f : SubFormat) (is_zero : Bool) (digits : List Char) : List Char :=
  match f.precision with
  | some p => if is_zero && p = 0 then [] else List.replicate (p - digits.length) '0' ++ digits
  | none => digits

/-- Modelled from the spec: part of the rendering primitive, which is not in the sources. The sign
of a signed conversion. -/
def sign_text (f : SubFormat) (negative : Bool) : List Char :=
  if negative then ['-'] else if f.flags.contains '+' then ['+']
  else if f.flags.contains ' ' then [' '] else []

/-- Modelled from the spec: part of the rendering primitive, which is not in the sources.
Rendering of an integer conversion from its sign, radix prefix and digits. -/
def render_integer (f : SubFormat) (is_zero : Bool) (lead digits : List Char) : List Char :=
  pad_field f (f.flags.contains '0' && f.precision.isNone) lead (integer_body f is_zero digits)

/-- Modelled from the spec: part of the rendering primitive, which is not in the sources.
Rendering of `signed long long`: the conversions `d` and `i`. -/
def render_signed (f : SubFormat) (v : Int) : Option (List Char) :=
  if f.conversion = 'd' ∨ f.conversion = 'i' then
    some (render_integer f (v = 0) (sign_text f (v < 0)) (nat_to_string v.natAbs))
  else none

/-- Modelled from the spec: part of the rendering primitive, which is not in the sources. The body
of an octal conversion: with the `#` flag a leading `0` is ensured. -/
def octal_body (f : SubFormat) (v : Nat) : List Char :=
  if f.flags.contains '#' && (integer_body f (v = 0) (radix_digits 8 false (v + 1) v [])).head?
      ≠ some '0' then
    '0' :: integer_body f (v = 0) (radix_digits 8 false (v + 1) v [])
  else integer_body f (v = 0) (radix_digits 8 false (v + 1) v [])

/-- Modelled from the spec: part of the rendering primitive, which is not in the sources.
Rendering of `unsigned long long`: the conversions `u`, `o`, `x` and `X`. -/
def render_unsigned (f : SubFormat) (v : Nat) : Option (List Char) :=
  if f.conversion = 'u' then some (render_integer f (v = 0) [] (nat_to_string v))
  else if f.conversion = 'o' then
    some (pad_field f (f.flags.contains '0' && f.precision.isNone) [] (octal_body f v))
  else if f.conversion = 'x' then
    some (render_integer f (v = 0) (if f.flags.contains '#' && v ≠ 0 then ['0', 'x'] else [])
      (radix_digits 16 false (v + 1) v []))
  else if f.conversion = 'X' then
    some (render_integer f (v = 0) (if f.flags.contains '#' && v ≠ 0 then ['0', 'X'] else [])
      (radix_digits 16 true (v + 1) v []))
  else none

/-- Modelled from the spec: part of the rendering primitive, which is not in the sources.
Rendering of `double`: the conversions `f` and `F`. -/
def render_double (f : SubFormat) (d : Double) : Option (List Char) :=
  if f.conversion = 'f' ∨ f.conversion = 'F' then
    some (pad_field f (f.flags.contains '0') (sign_text f d.neg)
      (fixed_text d (f.precision.getD 6) ++
        (if f.precision.getD 6 = 0 && f.flags.contains '#' then ['.'] else [])))
  else none

/-- Modelled from the spec: part of the rendering primitive, which is not in the sources.
Rendering of a string: the conversion `s`, cut at the precision. -/
def render_string (f : SubFormat) (text : List Char) : Option (List Char) :=
  if f.conversion = 's' then
    some (pad_field f false []
      (match f.precision with
        | some p => text.take p
        | none => text))
  else none

/-- Modelled from the spec: the rendering primitive that the `do_formating` overloads delegate
to, which is not part of the sources; standard `printf` semantics of the conversions
`d i u o x X c s p f F` on one value of the type the formatter converts to.  Other sub-formats
are rejected. -/
def printf_backend : Backend := fun current_format value =>
  match parse_sub_format current_format with
  | none => none
  | some f =>
    match value with
    | .signed_long_long v => render_signed f v
    | .unsigned_long_long v => render_unsigned f v
    | .int_ v =>
      if f.conversion = 'c' then some (pad_field f false [] [Char.ofNat (v % 256).toNat])
      else none
    | .string_view_ text => render_string f text
    | .void_ptr addr =>
      if f.conversion = 'p' then
        some (pad_field f false [] ('0' :: 'x' :: radix_digits 16 false (addr + 1) addr []))
      else none
    | .double_ d => render_double f d

/-- A rendering primitive that returns the sub-format it is given, followed by the value in a
fixed notation; it shows what the formatter hands to `do_formating`. -/
def echo_backend : Backend := fun current_format value =>
  some (['<'] ++ current_format ++ [':'] ++
    (match value with
      | .int_ v => to_string v
      | .signed_long_long v => to_string v
      | .unsigned_long_long v => nat_to_string v
      | .double_ d => double_to_string d
      | .void_ptr p => nat_to_string p
      | .string_view_ t => t) ++ ['>'])

/-! ## The arguments of a specifier, after the specification -/

/-- Following the specification (`argindex := digits '$'`): the 1-based argument index at the
head of `t`, when there is one, and the text after it. -/
def strip_argument_index (t : List Char) : Option Nat × List Char :=
  if t.takeWhile is_digit ≠ [] ∧ (t.dropWhile is_digit).head? = some '$' then
    (some (digits_value (t.takeWhile is_digit)), (t.dropWhile is_digit).tail)
  else (none, t)

/-- Following the specification (`width := digits | '*' [ argindex ]`): whether the field at the
head of `t` takes the next sequential argument, and the text after the field. -/
def strip_field (t : List Char) : Bool × List Char :=
  match t with
  | c :: rest =>
    if c = '*' then ((strip_argument_index rest).1.isNone, (strip_argument_index rest).2)
    else (false, t.dropWhile is_digit)
  | [] => (false, [])

/-- Following the specification (`[ '.' precision ]`): the same for the optional precision. -/
def strip_precision_field (t : List Char) : Bool × List Char :=
  match t with
  | c :: rest => if c = '.' then strip_field rest else (false, t)
  | [] => (false, [])

/-- Following the specification (Sequential Cursor): the number of arguments that the specifier
with the text `t` after its `%` takes from the sequential cursor: one for the value unless it
has an explicit index, and one for each `*` of width and precision that has no index. -/
def sequential_arguments (t : List Char) : Nat :=
  (if (strip_argument_index t).1.isNone then 1 else 0) +
    (if (strip_field ((strip_argument_index t).2.dropWhile string_formatter.is_flag)).1
      then 1 else 0) +
    (if (strip_precision_field
        (strip_field ((strip_argument_index t).2.dropWhile string_formatter.is_flag)).2).1
      then 1 else 0)

/-- The text that one specifier contributes to the output: the argument converted to the
requested type and rendered with the finished sub-format, as in
`do_formating( get_nth_arg_as<RT, 0>( ... ) )`. -/
def render_argument (render : Backend) (rt : Requested) (current_format : List Char)
    (a : Arg) : Except FormatError (List Char) :=
  match convert rt [] a with
  | .ok (value, _) =>
    match render current_format value with
    | some text => .ok text
    | none => .error (.BackendFormattingFailure current_format)
  | .error e => .error e

/-- The text that one specifier contributes to the output when it formats the argument with
the 0-based index `requested` of `args`: `do_formating( get_nth_arg_as<RT, 0>( requested,
args... ) )` on the finished sub-format. -/
def render_nth_arg (render : Backend) (rt : Requested) (current_format : List Char)
    (requested : Nat) (args : List Arg) : Except FormatError (List Char) :=
  match get_nth_arg_as rt [] 0 requested args with
  | .ok (value, _) =>
    match render current_format value with
    | some text => .ok text
    | none => .error (.BackendFormattingFailure current_format)
  | .error e => .error e

/-- A text without the sign flags `+` and space, as `discard_oct_hex_sign_flag` leaves
`current_format`. -/
def without_sign_flags (s : List Char) : List Char :=
  s.filter (fun c => !(c = '+' || c = ' '))

/-- The conversion letters of `read_conversion`. -/
def conversion_letters : List Char :=
  ['c', 'd', 'i', 'o', 'x', 'X', 'u', 'a', 'A', 'g', 'G', 'f', 'F', 'e', 'E', 'p', 's']

/-- A character that none of the readers before the conversion letter takes: no digit, no flag,
not `*`, `.` or `$`, and not the start of a length modifier. -/
def ends_specifier (c : Char) : Bool :=
  !is_digit c && !string_formatter.is_flag c && !(c = '*') && !(c = '.') && !(c = '$') &&
    !(c = 'l') && !(c = 'h') && !(c = 'z') && !(c = 't')

/-- The length modifiers that `read_conversion` removes, and the empty one. -/
def length_modifiers : List (List Char) :=
  [[], ['h', 'h'], ['h'], ['l', 'l'], ['l'], ['z'], ['t']]

/-- The text that `do_formating` appends for one converted value: the rendering of `value`
with the sub-format, or the failure of the rendering primitive. -/
def render_value (render : Backend) (current_format : List Char) (value : Value) :
    Except FormatError (List Char) :=
  match render current_format value with
  | some text => .ok text
  | none => .error (.BackendFormattingFailure current_format)

/-- Following the specification (scanning state): a format built from single characters
(`some c`) and `%%` pairs (`none`). -/
def literal_format : List (Option Char) → List Char
  | [] => []
  | some c :: pieces => c :: literal_format pieces
  | none :: pieces => '%' :: '%' :: literal_format pieces

/-- Following the specification (scanning state): the same text with each `%%` pair replaced
by one `%`. -/
def literal_output : List (Option Char) → List Char
  | [] => []
  | some c :: pieces => c :: literal_output pieces
  | none :: pieces => '%' :: literal_output pieces

/-- Two formatters that differ at most in `temp_buffer`. -/
def same_but_temp_buffer (a b : string_formatter) : Prop :=
  a.format = b.format ∧ a.current_index_in_format = b.current_index_in_format ∧
    a.output = b.output ∧ a.current_format = b.current_format ∧
    a.current_argument_index = b.current_argument_index

/-- Two results of a step of `parse`: the same exception, or formatters that differ at most in
`temp_buffer`. -/
def same_result :
    Except FormatError string_formatter → Except FormatError string_formatter → Prop
  | .ok a, .ok b => same_but_temp_buffer a b
  | .error e, .error f => e = f
  | _, _ => False

/-- What the caller of `parse` gets: the text of `get_output`, or the exception. -/
def outcome (r : Option (Except FormatError string_formatter)) :
    Option (Except FormatError (List Char)) :=
  match r with
  | some (.ok formatter) => some (.ok formatter.get_output)
  | some (.error e) => some (.error e)
  | none => none

/-- The part of the format at and after the cursor: what is left to read. -/
def string_formatter.remaining (sf : string_formatter) : List Char :=
  sf.format.drop sf.current_index_in_format

/-- Two formatters of which the first has the same input left as the second, followed by `t`,
the output of the second after the text `s`, and the same other members. -/
def same_input (s t : List Char) (a b : string_formatter) : Prop :=
  a.remaining = b.remaining ++ t ∧ a.output = s ++ b.output ∧
    a.current_format = b.current_format ∧
    a.current_argument_index = b.current_argument_index ∧ a.temp_buffer = b.temp_buffer

/-- Two results of a step of `parse`: the same exception, or formatters related by
`same_input`. -/
def same_input_result (s t : List Char) :
    Except FormatError string_formatter → Except FormatError string_formatter → Prop
  | .ok a, .ok b => same_input s t a b
  | .error e, .error f => e = f
  | _, _ => False

/-- The result of `format_strict` with the text `s` in front of the output. -/
def with_prefix (s : List Char) :
    Option (Except FormatError (List Char)) → Option (Except FormatError (List Char))
  | some (.ok text) => some (.ok (s ++ text))
  | some (.error e) => some (.error e)
  | none => none

end cata

namespace cata
namespace string_formatter

/-! ## The format cursor only moves forward -/

/-- The formatter `sf2` has the format of `sf1` and a cursor that is not behind the one of
`sf1`, and not past the end of the format when the one of `sf1` is not. -/
def advances (sf1 sf2 : string_formatter) : Prop :=
  sf2.format = sf1.format ∧ sf1.current_index_in_format ≤ sf2.current_index_in_format ∧
    (sf1.current_index_in_format ≤ sf1.format.length →
      sf2.current_index_in_format ≤ sf1.format.length)

theorem advances_refl (sf : string_formatter) : advances sf sf :=
  ⟨rfl, le_refl _, fun h => h⟩

theorem advances_trans {sf1 sf2 sf3 : string_formatter} (h12 : advances sf1 sf2)
    (h23 : advances sf2 sf3) : advances sf1 sf3 := by
  obtain ⟨f12, i12, b12⟩ := h12
  obtain ⟨f23, i23, b23⟩ := h23
  refine ⟨f23.trans f12, le_trans i12 i23, fun h => ?_⟩
  have := b23 (by rw [f12]; exact b12 h)
  rwa [f12] at this

theorem advances_consume_next_input (sf : string_formatter) :
    advances sf sf.consume_next_input.2 := by
  unfold consume_next_input
  split
  · exact ⟨rfl, Nat.le_succ _, fun _ => by simpa using Nat.succ_le_of_lt ‹_›⟩
  · exact advances_refl sf

theorem advances_consume_next_input_if (c : Char) (sf : string_formatter) :
    advances sf (consume_next_input_if c sf).2 := by
  unfold consume_next_input_if
  split
  · exact advances_consume_next_input sf
  · exact advances_refl sf

theorem advances_congr {sf1 sf2 sf3 : string_formatter} (h : advances sf1 sf2)
    (hf : sf3.format = sf2.format)
    (hi : sf3.current_index_in_format = sf2.current_index_in_format) : advances sf1 sf3 := by
  obtain ⟨f, i, b⟩ := h
  exact ⟨hf.trans f, by rw [hi]; exact i, fun h => by rw [hi]; exact b h⟩

theorem advances_of_eq (sf1 sf3 : string_formatter) (hf : sf3.format = sf1.format)
    (hi : sf3.current_index_in_format = sf1.current_index_in_format) : advances sf1 sf3 :=
  advances_congr (advances_refl sf1) hf hi

theorem advances_congr_left {sf1 sf2 sf3 : string_formatter} (h : advances sf2 sf3)
    (hf : sf2.format = sf1.format)
    (hi : sf2.current_index_in_format = sf1.current_index_in_format) : advances sf1 sf3 := by
  obtain ⟨f, i, b⟩ := h
  rw [hf, hi] at *
  exact ⟨f, i, b⟩

theorem advances_parse_integer_loop (fuel : Nat) (result : Nat) (sf : string_formatter) :
    advances sf (parse_integer_loop fuel result sf).2 := by
  induction fuel generalizing result sf with
  | zero => exact advances_refl sf
  | succ fuel ih =>
    unfold parse_integer_loop
    split
    · exact advances_trans (advances_consume_next_input sf) (ih _ _)
    · exact advances_refl sf

theorem advances_read_flags_loop (fuel : Nat) (sf : string_formatter) :
    advances sf (read_flags_loop fuel sf) := by
  induction fuel generalizing sf with
  | zero => exact advances_refl sf
  | succ fuel ih =>
    unfold read_flags_loop
    split
    · exact advances_trans
        (advances_congr (advances_consume_next_input sf) rfl rfl) (ih _)
    · exact advances_refl sf

theorem advances_forward_digits_loop (fuel : Nat) (sf : string_formatter) :
    advances sf (forward_digits_loop fuel sf) := by
  induction fuel generalizing sf with
  | zero => exact advances_refl sf
  | succ fuel ih =>
    unfold forward_digits_loop
    split
    · exact advances_trans
        (advances_congr (advances_consume_next_input sf) rfl rfl) (ih _)
    · exact advances_refl sf

theorem advances_read_argument_index (sf : string_formatter) :
    advances sf (read_argument_index sf).2 := by
  unfold read_argument_index
  split
  · split
    · exact advances_trans (advances_parse_integer_loop _ _ sf)
        (advances_consume_next_input_if _ _)
    · exact advances_refl sf
  · exact advances_refl sf

theorem advances_read_number_or_argument_index (sf : string_formatter) :
    advances sf (read_number_or_argument_index sf).2 := by
  unfold read_number_or_argument_index
  split
  · have h := advances_trans (advances_consume_next_input_if '*' sf)
      (advances_read_argument_index (consume_next_input_if '*' sf).2)
    split
    · next index sf1 heq => rw [heq] at h; exact h
    · next sf1 heq => rw [heq] at h; exact advances_congr h rfl rfl
  · exact advances_forward_digits_loop _ sf

theorem advances_read_precision (sf : string_formatter) :
    advances sf (read_precision sf).2 := by
  unfold read_precision
  split
  · exact advances_trans
      (advances_congr (advances_consume_next_input_if '.' sf) rfl rfl)
      (advances_read_number_or_argument_index _)
  · exact advances_refl sf

theorem advances_skip_length_modifier (sf : string_formatter) :
    advances sf sf.skip_length_modifier := by
  unfold skip_length_modifier
  split
  · exact advances_trans (advances_consume_next_input_if _ sf)
      (advances_consume_next_input_if _ _)
  · split
    · exact advances_trans (advances_consume_next_input_if _ sf)
        (advances_consume_next_input_if _ _)
    · split
      · exact advances_consume_next_input_if _ sf
      · split
        · exact advances_consume_next_input_if _ sf
        · exact advances_refl sf

theorem advances_do_formating {render : Backend} {value : Value}
    {sf sf1 : string_formatter} (h : do_formating render value sf = .ok sf1) :
    advances sf sf1 := by
  unfold do_formating at h
  split at h
  · injection h with h
    subst h
    exact advances_refl sf
  · exact absurd h (by simp)

theorem advances_format_nth_arg {render : Backend} {rt : Requested} {index : Int}
    {args : List Arg} {sf sf1 : string_formatter}
    (h : format_nth_arg render rt index args sf = .ok sf1) : advances sf sf1 := by
  unfold format_nth_arg at h
  split at h
  · next value temp_buffer _ =>
    exact advances_trans
      (advances_of_eq sf { sf with temp_buffer := temp_buffer } rfl rfl)
      (advances_do_formating h)
  · exact absurd h (by simp)

theorem advances_add_long_long_length_modifier (sf : string_formatter) :
    advances sf sf.add_long_long_length_modifier :=
  advances_congr (advances_refl sf) rfl rfl

theorem advances_discard_oct_hex_sign_flag (sf : string_formatter) :
    advances sf sf.discard_oct_hex_sign_flag :=
  advances_congr (advances_refl sf) rfl rfl

theorem advances_dispatch_conversion {render : Backend} {c : Char} {index : Int}
    {args : List Arg} {sf sf1 : string_formatter}
    (h : dispatch_conversion render c index args sf = .ok sf1) : advances sf sf1 := by
  unfold dispatch_conversion at h
  split at h
  · exact advances_format_nth_arg h
  split at h
  · exact advances_trans (advances_add_long_long_length_modifier sf) (advances_format_nth_arg h)
  split at h
  · exact advances_trans (advances_discard_oct_hex_sign_flag sf)
      (advances_trans (advances_add_long_long_length_modifier _) (advances_format_nth_arg h))
  split at h
  · exact advances_trans (advances_add_long_long_length_modifier sf) (advances_format_nth_arg h)
  split at h
  · exact advances_format_nth_arg h
  split at h
  · exact advances_format_nth_arg h
  split at h
  · exact advances_format_nth_arg h
  · exact absurd h (by simp)

theorem advances_read_conversion {render : Backend} {index : Int}
    {args : List Arg} {sf sf1 : string_formatter}
    (h : read_conversion render index args sf = .ok sf1) : advances sf sf1 := by
  unfold read_conversion at h
  refine advances_trans (advances_skip_length_modifier sf)
    (advances_trans (advances_consume_next_input sf.skip_length_modifier) ?_)
  exact advances_congr_left (advances_dispatch_conversion h) rfl rfl

theorem advances_append_int_argument {field : Option Int × string_formatter}
    {args : List Arg} {sf1 : string_formatter}
    (h : append_int_argument field args = .ok sf1) : advances field.2 sf1 := by
  unfold append_int_argument at h
  split at h
  · split at h
    · injection h with h
      subst h
      exact advances_refl _
    · exact absurd h (by simp)
  · injection h with h
    subst h
    exact advances_refl _

theorem advances_read_value {render : Backend} {index : Option Int}
    {args : List Arg} {sf sf1 : string_formatter}
    (h : read_value render index args sf = .ok sf1) : advances sf sf1 := by
  unfold read_value at h
  split at h
  · exact advances_read_conversion h
  · exact advances_trans
      (advances_of_eq sf { sf with current_argument_index := sf.current_argument_index + 1 }
        rfl rfl)
      (advances_read_conversion h)

theorem advances_parse_specifier {render : Backend} {args : List Arg}
    {sf sf1 : string_formatter} (h : parse_specifier render args sf = .ok sf1) :
    advances sf sf1 := by
  unfold parse_specifier at h
  simp only at h
  split at h
  · exact absurd h (by simp)
  · next sfa ha =>
    split at h
    · exact absurd h (by simp)
    · next sfb hb =>
      have h1 : advances sf (read_argument_index { sf with current_format := ['%'] }).2 :=
        advances_trans
          (advances_of_eq sf { sf with current_format := ['%'] } rfl rfl)
          (advances_read_argument_index { sf with current_format := ['%'] })
      have h2 := advances_read_flags_loop
        ((read_argument_index { sf with current_format := ['%'] }).2.format.length -
          (read_argument_index { sf with current_format := ['%'] }).2.current_index_in_format)
        (read_argument_index { sf with current_format := ['%'] }).2
      have h3 := advances_read_number_or_argument_index
        (read_flags (read_argument_index { sf with current_format := ['%'] }).2)
      have h4 := advances_append_int_argument ha
      have h5 := advances_read_precision sfa
      have h6 := advances_append_int_argument hb
      have h7 := advances_read_value h
      exact advances_trans h1 (advances_trans h2 (advances_trans h3 (advances_trans h4
        (advances_trans h5 (advances_trans h6 h7)))))

/-- One iteration of the loop of `parse`. -/
theorem parse_loop_succ (render : Backend) (args : List Arg) (fuel : Nat)
    (sf : string_formatter) :
    parse_loop render args (fuel + 1) sf =
      if sf.consume_next_input.1 = NUL then some (.ok sf.consume_next_input.2)
      else if sf.consume_next_input.1 ≠ '%' then
        parse_loop render args fuel
          { sf.consume_next_input.2 with output := sf.output ++ [sf.consume_next_input.1] }
      else if (consume_next_input_if '%' sf.consume_next_input.2).1 then
        parse_loop render args fuel
          { (consume_next_input_if '%' sf.consume_next_input.2).2 with
            output := sf.output ++ ['%'] }
      else
        match parse_specifier render args sf.consume_next_input.2 with
        | .error e => some (.error e)
        | .ok sf2 => parse_loop render args fuel sf2 := rfl

/-- With more fuel than characters left, the loop of `parse` returns. -/
theorem parse_loop_returns (render : Backend) (args : List Arg) (fuel : Nat)
    (sf : string_formatter) (hwf : sf.current_index_in_format ≤ sf.format.length)
    (hfuel : sf.format.length - sf.current_index_in_format < fuel) :
    ∃ r, parse_loop render args fuel sf = some r := by
  induction fuel generalizing sf with
  | zero => exact absurd hfuel (Nat.not_lt_zero _)
  | succ fuel ih =>
    rw [parse_loop_succ]
    by_cases hlt : sf.current_index_in_format < sf.format.length
    · have hf : sf.consume_next_input.2.format = sf.format := by
        simp [consume_next_input, hlt]
      have hi : sf.consume_next_input.2.current_index_in_format =
          sf.current_index_in_format + 1 := by
        simp [consume_next_input, hlt]
      have key : ∀ sf2 : string_formatter, advances sf.consume_next_input.2 sf2 →
          ∃ r, parse_loop render args fuel sf2 = some r := by
        intro sf2 hadv
        obtain ⟨hf2, hi2, hb2⟩ := hadv
        rw [hf, hi] at hb2
        rw [hi] at hi2
        rw [hf] at hf2
        have hb3 := hb2 (Nat.succ_le_of_lt hlt)
        apply ih
        · rw [hf2]; exact hb3
        · rw [hf2]; omega
      by_cases h1 : sf.consume_next_input.1 = NUL
      · rw [if_pos h1]; exact ⟨_, rfl⟩
      rw [if_neg h1]
      by_cases h2 : sf.consume_next_input.1 ≠ '%'
      · rw [if_pos h2]
        exact key _ (advances_congr (advances_refl _) rfl rfl)
      rw [if_neg h2]
      by_cases h3 : (consume_next_input_if '%' sf.consume_next_input.2).1 = true
      · rw [if_pos h3]
        exact key _ (advances_congr (advances_consume_next_input_if '%' _) rfl rfl)
      rw [if_neg h3]
      cases h4 : parse_specifier render args sf.consume_next_input.2 with
      | error e => exact ⟨_, rfl⟩
      | ok sf2 => exact key sf2 (advances_parse_specifier h4)
    · have hc : sf.consume_next_input.1 = NUL := by
        simp [consume_next_input, hlt]
      rw [if_pos hc]
      exact ⟨_, rfl⟩

/-- The function `parse` returns on every format and every argument list. -/
theorem parse_terminates (render : Backend) (args : List Arg) (sf : string_formatter) :
    ∃ r, parse render args sf = some r := by
  unfold parse
  apply parse_loop_returns
  · exact Nat.zero_le _
  · simp

end string_formatter

/-! ## Argument resolution -/

theorem get_nth_arg_as_from (rt : Requested) (temp_buffer : List Char) (args : List Arg)
    (current_index offset : Nat) :
    get_nth_arg_as rt temp_buffer current_index (current_index + offset) args =
      match args[offset]? with
      | some a => convert rt temp_buffer a
      | none => .error (.IndexOutOfRange (current_index + offset) (current_index + args.length)) := by
  induction args generalizing current_index offset with
  | nil => simp [get_nth_arg_as]
  | cons head args ih =>
    cases offset with
    | zero => simp [get_nth_arg_as]
    | succ offset =>
      have h := ih (current_index + 1) offset
      have e : current_index + 1 + offset = current_index + (offset + 1) := by omega
      have e2 : current_index + 1 + args.length = current_index + (args.length + 1) := by omega
      rw [e, e2] at h
      simp [get_nth_arg_as, h]

/-- C1: `get_nth_arg_as` started at index 0 converts the element at the requested 0-based
position when there is one, and otherwise fails with `IndexOutOfRange`, whose message reports
the requested index and the number of arguments; `"%2$s"` with one argument fails so. -/
theorem C1_get_nth_arg_as (rt : Requested) (temp_buffer : List Char) (args : List Arg)
    (requested : Nat) (render : Backend) :
    (get_nth_arg_as rt temp_buffer 0 requested args =
      match args[requested]? with
      | some a => convert rt temp_buffer a
      | none => .error (.IndexOutOfRange requested args.length)) ∧
    (FormatError.IndexOutOfRange requested args.length).message =
      "Requested argument ".toList ++ nat_to_string requested ++
        " but input has only ".toList ++ nat_to_string args.length ∧
    format_strict render "%2$s".toList [.string "only-one".toList] =
      some (.error (.IndexOutOfRange 1 1)) := by
  refine ⟨?_, rfl, rfl⟩
  have h := get_nth_arg_as_from rt temp_buffer args 0 requested
  simpa using h

/-! ## Conversions -/

/-- C2: the code rejects what the claim promises: `convert` to `double` throws for a signed and
for an unsigned integer argument, so every floating point conversion letter applied to an
integer argument ends in `UnsupportedConversion`. -/
theorem C2_integer_to_double_is_rejected (render : Backend) (temp_buffer : List Char) (n : Int)
    (m : Nat) :
    convert .double_ temp_buffer (.sint n) =
      .error (.UnsupportedConversion (.sint n) .double_) ∧
    convert .double_ temp_buffer (.uint m) =
      .error (.UnsupportedConversion (.uint m) .double_) ∧
    "aAeEfFgG".toList.map (fun c => format_strict render ['%', c] [.sint n]) =
      List.replicate 8 (some (.error (.UnsupportedConversion (.sint n) .double_))) ∧
    format_strict render "%f".toList [.sint 7] =
      some (.error (.UnsupportedConversion (.sint 7) .double_)) :=
  ⟨rfl, rfl, rfl, rfl⟩

/-- The requested type of an integer conversion letter in `read_conversion`. -/
theorem integer_letter_cases {c : Char} (hc : c ∈ ['d', 'i', 'o', 'u', 'x', 'X']) :
    c = 'd' ∨ c = 'i' ∨ c = 'o' ∨ c = 'u' ∨ c = 'x' ∨ c = 'X' := by
  simpa using hc

/-- C3: for a conversion letter among `d i o u x X` and an argument that is neither an integer
nor an enumeration, `format_strict` fails with `UnsupportedConversion`, and the message of the
error names the type of the argument and the requested type. -/
theorem C3_integer_conversion_type_mismatch (render : Backend) (c : Char) (a : Arg)
    (rest : List Arg) (hc : c ∈ ['d', 'i', 'o', 'u', 'x', 'X'])
    (ha : a.is_integer = false ∧ a.is_enum = false) :
    format_strict render ['%', c] (a :: rest) =
      some (.error (.UnsupportedConversion a
        (if c = 'd' ∨ c = 'i' then .signed_long_long else .unsigned_long_long))) ∧
    ∀ rt : Requested, (FormatError.UnsupportedConversion a rt).message =
      "Tried to convert argument of type ".toList ++ a.type_name ++ " to ".toList ++
        rt.type_name ++ ", which is not possible".toList := by
  obtain ⟨h1, h2⟩ := ha
  refine ⟨?_, fun _ => rfl⟩
  rcases integer_letter_cases hc with h | h | h | h | h | h <;> subst h <;>
    cases a <;> first | rfl | exact Bool.noConfusion h1 | exact Bool.noConfusion h2

/-- C3 at `format_strict("%d", ["not-a-number"])`. -/
theorem C3_integer_conversion_type_mismatch_witness :
    ('d' ∈ ['d', 'i', 'o', 'u', 'x', 'X'] ∧
      (Arg.string "not-a-number".toList).is_integer = false ∧
      (Arg.string "not-a-number".toList).is_enum = false) ∧
    format_strict printf_backend "%d".toList [Arg.string "not-a-number".toList] =
      some (.error (.UnsupportedConversion (Arg.string "not-a-number".toList)
        .signed_long_long)) :=
  ⟨⟨by decide, by decide, by decide⟩,
    (C3_integer_conversion_type_mismatch printf_backend 'd' (.string "not-a-number".toList) []
      (by decide) ⟨by decide, by decide⟩).1⟩

/-! ## The fail-soft boundary -/

/-- C4: `string_format` always returns a string: the output of `format_strict` when that
succeeds, and otherwise the text that `handle_string_format_error` builds from the error and
the format, in which the output accumulated before the failure has no part. -/
theorem C4_string_format_fail_soft (render : Backend) (format : List Char) (args : List Arg) :
    (∃ r, format_strict render format args = some r ∧
      string_format render format args = some
        (match r with
          | .ok output => output
          | .error e => handle_string_format_error e format)) ∧
    string_format printf_backend "ab%d".toList [] =
      some (handle_string_format_error (.IndexOutOfRange 0 0) "ab%d".toList) := by
  refine ⟨?_, by decide⟩
  obtain ⟨r, hr⟩ := string_formatter.parse_terminates render args { format := format }
  cases r with
  | ok formatter => exact ⟨.ok formatter.get_output, by simp [format_strict, hr], by simp [string_format, hr]⟩
  | error e => exact ⟨.error e, by simp [format_strict, hr], by simp [string_format, hr]⟩

/-! ## Reading the format through the cursor -/

namespace string_formatter

/-- The next character is the head of the part of the format at and after the cursor. -/
theorem get_current_input_eq_headD (sf : string_formatter) :
    sf.get_current_input = (sf.format.drop sf.current_index_in_format).headD NUL := by
  unfold get_current_input
  rw [List.getD_eq_getElem?_getD, List.headD_eq_head?_getD, List.head?_drop]

theorem get_current_input_of_drop {sf : string_formatter} {c : Char} {r : List Char}
    (h : sf.format.drop sf.current_index_in_format = c :: r) : sf.get_current_input = c := by
  rw [get_current_input_eq_headD, h]; rfl

theorem get_current_input_of_drop_nil {sf : string_formatter}
    (h : sf.format.drop sf.current_index_in_format = []) : sf.get_current_input = NUL := by
  rw [get_current_input_eq_headD, h]; rfl

theorem lt_length_of_drop {sf : string_formatter} {c : Char} {r : List Char}
    (h : sf.format.drop sf.current_index_in_format = c :: r) :
    sf.current_index_in_format < sf.format.length := by
  by_contra hlt
  rw [List.drop_eq_nil_of_le (Nat.le_of_not_lt hlt)] at h
  exact List.noConfusion h

theorem drop_succ_of_drop {l : List Char} {i : Nat} {c : Char} {r : List Char}
    (h : l.drop i = c :: r) : l.drop (i + 1) = r := by
  rw [← List.tail_drop, h]; rfl

theorem drop_add_of_drop {l : List Char} {i : Nat} (s r : List Char)
    (h : l.drop i = s ++ r) : l.drop (i + s.length) = r := by
  rw [← List.drop_drop, h, List.drop_left]

theorem consume_next_input_of_drop {sf : string_formatter} {c : Char} {r : List Char}
    (h : sf.format.drop sf.current_index_in_format = c :: r) :
    sf.consume_next_input =
      (c, { sf with current_index_in_format := sf.current_index_in_format + 1 }) := by
  unfold consume_next_input
  rw [if_pos (lt_length_of_drop h), get_current_input_of_drop h]

theorem consume_next_input_of_drop_nil {sf : string_formatter}
    (h : sf.format.drop sf.current_index_in_format = []) :
    sf.consume_next_input = (NUL, sf) := by
  unfold consume_next_input
  rw [if_neg]
  intro hlt
  have := List.drop_eq_nil_iff.mp h
  omega

theorem consume_next_input_if_of_drop {sf : string_formatter} {c : Char} {r : List Char}
    (h : sf.format.drop sf.current_index_in_format = c :: r) :
    consume_next_input_if c sf =
      (true, { sf with current_index_in_format := sf.current_index_in_format + 1 }) := by
  unfold consume_next_input_if
  rw [if_pos (get_current_input_of_drop h).symm, consume_next_input_of_drop h]

theorem consume_next_input_if_of_ne {sf : string_formatter} {c : Char}
    (h : (sf.format.drop sf.current_index_in_format).headD NUL ≠ c) :
    consume_next_input_if c sf = (false, sf) := by
  unfold consume_next_input_if
  rw [if_neg]
  rw [get_current_input_eq_headD]
  exact fun e => h e.symm

end string_formatter

namespace string_formatter

/-- Literal text is copied to the output, one character per iteration of the loop. -/
theorem parse_loop_literal (render : Backend) (args : List Arg) (s r : List Char)
    (hs : ∀ c ∈ s, c ≠ '%' ∧ c ≠ NUL) (fuel : Nat) (sf : string_formatter)
    (h : sf.format.drop sf.current_index_in_format = s ++ r) :
    parse_loop render args (fuel + s.length) sf =
      parse_loop render args fuel
        { sf with
          current_index_in_format := sf.current_index_in_format + s.length
          output := sf.output ++ s } := by
  induction s generalizing sf with
  | nil => simp
  | cons c s ih =>
    have hc := hs c (List.mem_cons_self c s)
    have h1 : sf.format.drop sf.current_index_in_format = c :: (s ++ r) := h
    rw [List.length_cons, ← Nat.add_assoc, parse_loop_succ, consume_next_input_of_drop h1]
    simp only
    rw [if_neg hc.2, if_pos hc.1]
    rw [ih (fun d hd => hs d (List.mem_cons_of_mem c hd)) _ (drop_succ_of_drop h1)]
    simp [Nat.add_assoc, Nat.add_comm 1]

/-- At the end of the format the loop stops with the formatter as it is. -/
theorem parse_loop_at_end (render : Backend) (args : List Arg) (fuel : Nat)
    (sf : string_formatter) (h : sf.format.drop sf.current_index_in_format = []) :
    parse_loop render args (fuel + 1) sf = some (.ok sf) := by
  rw [parse_loop_succ, consume_next_input_of_drop_nil h]
  simp

end string_formatter

/-! ## Literal text -/

/-- C5, as the code has it: a format string without `%` and without the null character is
copied through, whatever the arguments. -/
theorem C5_copy_through (render : Backend) (s : List Char) (args : List Arg)
    (hpercent : '%' ∉ s) (hnul : NUL ∉ s) : string_format render s args = some s := by
  have hs : ∀ c ∈ s, c ≠ '%' ∧ c ≠ NUL :=
    fun c hc => ⟨fun e => hpercent (e ▸ hc), fun e => hnul (e ▸ hc)⟩
  have h := string_formatter.parse_loop_literal render args s [] hs 1
    { format := s, output := [], current_index_in_format := 0, current_argument_index := 0 }
    (by simp)
  unfold string_format string_formatter.parse
  rw [Nat.add_comm] at h
  simp only at h ⊢
  rw [h, string_formatter.parse_loop_at_end render args 0 _ (by simp)]
  simp [string_formatter.get_output]

/-- C5 at the format `"plain text"` with no argument. -/
theorem C5_copy_through_witness :
    ('%' ∉ "plain text".toList ∧ NUL ∉ "plain text".toList) ∧
      string_format printf_backend "plain text".toList [] = some "plain text".toList :=
  ⟨⟨by decide, by decide⟩,
    C5_copy_through printf_backend "plain text".toList [] (by decide) (by decide)⟩

/-- C5 as stated fails: the format `a`, null character, `b` holds no `%`, and `string_format`
returns only `a`. -/
theorem C5_counterexample_embedded_nul :
    '%' ∉ ['a', NUL, 'b'] ∧ string_format printf_backend ['a', NUL, 'b'] [] = some ['a'] ∧
      string_format printf_backend ['a', NUL, 'b'] [] ≠ some ['a', NUL, 'b'] := by
  decide

namespace string_formatter

/-! ## The helpers on a known piece of format -/

theorem read_flags_loop_of_not_flag (fuel : Nat) (sf : string_formatter)
    (h : is_flag ((sf.format.drop sf.current_index_in_format).headD NUL) = false) :
    read_flags_loop fuel sf = sf := by
  cases fuel with
  | zero => rfl
  | succ fuel =>
    unfold read_flags_loop
    rw [get_current_input_eq_headD, h]
    simp

theorem forward_digits_loop_of_not_digit (fuel : Nat) (sf : string_formatter)
    (h : is_digit ((sf.format.drop sf.current_index_in_format).headD NUL) = false) :
    forward_digits_loop fuel sf = sf := by
  cases fuel with
  | zero => rfl
  | succ fuel =>
    unfold forward_digits_loop has_digit
    rw [get_current_input_eq_headD, h]
    simp

theorem parse_integer_loop_of_not_digit (fuel result : Nat) (sf : string_formatter)
    (h : is_digit ((sf.format.drop sf.current_index_in_format).headD NUL) = false) :
    parse_integer_loop fuel result sf = (result, sf) := by
  cases fuel with
  | zero => rfl
  | succ fuel =>
    unfold parse_integer_loop has_digit
    rw [get_current_input_eq_headD, h]
    simp

/-- A run of flag characters is moved to `current_format`. -/
theorem read_flags_loop_of_drop (fl r : List Char) (hfl : ∀ c ∈ fl, is_flag c = true)
    (hr : is_flag (r.headD NUL) = false) (fuel : Nat) (sf : string_formatter)
    (h : sf.format.drop sf.current_index_in_format = fl ++ r) (hfuel : fl.length ≤ fuel) :
    read_flags_loop fuel sf =
      { sf with
        current_index_in_format := sf.current_index_in_format + fl.length
        current_format := sf.current_format ++ fl } := by
  induction fl generalizing sf fuel with
  | nil =>
    rw [read_flags_loop_of_not_flag fuel sf (by rw [h]; exact hr)]
    simp
  | cons c fl ih =>
    have h1 : sf.format.drop sf.current_index_in_format = c :: (fl ++ r) := h
    cases fuel with
    | zero => exact absurd hfuel (by simp)
    | succ fuel =>
      unfold read_flags_loop
      rw [get_current_input_of_drop h1, if_pos (hfl c (List.mem_cons_self c fl)),
        consume_next_input_of_drop h1]
      rw [ih (fun d hd => hfl d (List.mem_cons_of_mem c hd)) fuel _ (drop_succ_of_drop h1)
        (by simpa using hfuel)]
      simp [Nat.add_assoc, Nat.add_comm 1]

/-- A run of digits is moved to `current_format`. -/
theorem forward_digits_loop_of_drop (ds r : List Char) (hds : ∀ c ∈ ds, is_digit c = true)
    (hr : is_digit (r.headD NUL) = false) (fuel : Nat) (sf : string_formatter)
    (h : sf.format.drop sf.current_index_in_format = ds ++ r) (hfuel : ds.length ≤ fuel) :
    forward_digits_loop fuel sf =
      { sf with
        current_index_in_format := sf.current_index_in_format + ds.length
        current_format := sf.current_format ++ ds } := by
  induction ds generalizing sf fuel with
  | nil =>
    rw [forward_digits_loop_of_not_digit fuel sf (by rw [h]; exact hr)]
    simp
  | cons c ds ih =>
    have h1 : sf.format.drop sf.current_index_in_format = c :: (ds ++ r) := h
    cases fuel with
    | zero => exact absurd hfuel (by simp)
    | succ fuel =>
      unfold forward_digits_loop has_digit
      rw [get_current_input_of_drop h1, if_pos (hds c (List.mem_cons_self c ds)),
        consume_next_input_of_drop h1]
      rw [ih (fun d hd => hds d (List.mem_cons_of_mem c hd)) fuel _ (drop_succ_of_drop h1)
        (by simpa using hfuel)]
      simp [Nat.add_assoc, Nat.add_comm 1]

/-- A run of digits is read as a number. -/
theorem parse_integer_loop_of_drop (ds r : List Char) (hds : ∀ c ∈ ds, is_digit c = true)
    (hr : is_digit (r.headD NUL) = false) (fuel result : Nat) (sf : string_formatter)
    (h : sf.format.drop sf.current_index_in_format = ds ++ r) (hfuel : ds.length ≤ fuel) :
    parse_integer_loop fuel result sf =
      (ds.foldl (fun n c => n * 10 + digit_value c) result,
        { sf with current_index_in_format := sf.current_index_in_format + ds.length }) := by
  induction ds generalizing sf fuel result with
  | nil =>
    rw [parse_integer_loop_of_not_digit fuel result sf (by rw [h]; exact hr)]
    simp
  | cons c ds ih =>
    have h1 : sf.format.drop sf.current_index_in_format = c :: (ds ++ r) := h
    cases fuel with
    | zero => exact absurd hfuel (by simp)
    | succ fuel =>
      unfold parse_integer_loop has_digit
      rw [get_current_input_of_drop h1, if_pos (hds c (List.mem_cons_self c ds)),
        consume_next_input_of_drop h1]
      rw [ih (fun d hd => hds d (List.mem_cons_of_mem c hd)) fuel _ _ (drop_succ_of_drop h1)
        (by simpa using hfuel)]
      simp [Nat.add_assoc, Nat.add_comm 1]

/-- The fuel that the helpers take is enough for any piece at the cursor. -/
theorem length_le_fuel {sf : string_formatter} (s r : List Char)
    (h : sf.format.drop sf.current_index_in_format = s ++ r) :
    s.length ≤ sf.format.length - sf.current_index_in_format := by
  have := congrArg List.length h
  rw [List.length_drop, List.length_append] at this
  omega

/-- What is left of the format after a step that moves the cursor forward was left before. -/
theorem mem_drop_of_advances {sf1 sf2 : string_formatter} (h : advances sf1 sf2) {c : Char}
    (hc : c ∈ sf2.format.drop sf2.current_index_in_format) :
    c ∈ sf1.format.drop sf1.current_index_in_format := by
  obtain ⟨hf, hi, _⟩ := h
  rw [hf] at hc
  have e : sf2.current_index_in_format =
      sf1.current_index_in_format + (sf2.current_index_in_format - sf1.current_index_in_format) :=
    by omega
  rw [e, ← List.drop_drop] at hc
  exact List.mem_of_mem_drop hc

end string_formatter

namespace string_formatter

theorem headD_mem_or_nul (l : List Char) : l.headD NUL ∈ l ∨ l.headD NUL = NUL := by
  cases l with
  | nil => exact Or.inr rfl
  | cons c l => exact Or.inl (List.mem_cons_self c l)

/-- Without a `$` in what is left of the format, no argument index is read. -/
theorem read_argument_index_of_no_dollar (sf : string_formatter)
    (h : '$' ∉ sf.format.drop sf.current_index_in_format) :
    read_argument_index sf = (none, sf) := by
  unfold read_argument_index
  split
  · rw [consume_next_input_if_of_ne]
    · simp
    · intro e
      have hadv : advances sf sf.parse_integer.2 := advances_parse_integer_loop _ _ sf
      rcases headD_mem_or_nul
        (sf.parse_integer.2.format.drop sf.parse_integer.2.current_index_in_format) with hm | hn
      · rw [e] at hm
        exact h (mem_drop_of_advances hadv hm)
      · rw [e] at hn
        exact absurd hn (by decide)
  · rfl

/-- Digits followed by `$` are the 1-based index of the argument. -/
theorem read_argument_index_of_drop (ds r : List Char) (hds : ∀ c ∈ ds, is_digit c = true)
    (hne : ds ≠ []) (sf : string_formatter)
    (h : sf.format.drop sf.current_index_in_format = ds ++ '$' :: r) :
    read_argument_index sf =
      (some ((digits_value ds : Int) - 1),
        { sf with current_index_in_format := sf.current_index_in_format + ds.length + 1 }) := by
  have hp := parse_integer_loop_of_drop ds ('$' :: r) hds (by rfl)
    (sf.format.length - sf.current_index_in_format) 0 sf h (length_le_fuel ds _ h)
  have hd : sf.has_digit = true := by
    cases ds with
    | nil => exact absurd rfl hne
    | cons c ds =>
      unfold has_digit
      rw [get_current_input_of_drop (r := ds ++ '$' :: r) h]
      exact hds c (List.mem_cons_self c ds)
  have hrest : ({ sf with current_index_in_format :=
      sf.current_index_in_format + ds.length } : string_formatter).format.drop
      (sf.current_index_in_format + ds.length) = '$' :: r := drop_add_of_drop ds _ h
  unfold read_argument_index parse_integer
  rw [if_pos hd, hp]
  simp only
  rw [consume_next_input_if_of_drop (r := r) hrest]
  simp [digits_value]

/-- Without `*` at the cursor, the width or precision is literal digits. -/
theorem read_number_or_argument_index_of_ne (sf : string_formatter)
    (h : (sf.format.drop sf.current_index_in_format).headD NUL ≠ '*') :
    read_number_or_argument_index sf =
      (none, forward_digits_loop (sf.format.length - sf.current_index_in_format) sf) := by
  unfold read_number_or_argument_index
  rw [consume_next_input_if_of_ne h]
  simp

/-- Without `.` at the cursor there is no precision. -/
theorem read_precision_of_ne (sf : string_formatter)
    (h : (sf.format.drop sf.current_index_in_format).headD NUL ≠ '.') :
    read_precision sf = (none, sf) := by
  unfold read_precision
  rw [consume_next_input_if_of_ne h]
  simp

/-- Without a length modifier at the cursor nothing is skipped. -/
theorem skip_length_modifier_of_ne (sf : string_formatter)
    (hl : (sf.format.drop sf.current_index_in_format).headD NUL ≠ 'l')
    (hh : (sf.format.drop sf.current_index_in_format).headD NUL ≠ 'h')
    (hz : (sf.format.drop sf.current_index_in_format).headD NUL ≠ 'z')
    (ht : (sf.format.drop sf.current_index_in_format).headD NUL ≠ 't') :
    sf.skip_length_modifier = sf := by
  unfold skip_length_modifier
  rw [consume_next_input_if_of_ne hl, consume_next_input_if_of_ne hh,
    consume_next_input_if_of_ne hz, consume_next_input_if_of_ne ht]
  simp

/-- A conversion letter at the cursor, with no length modifier before it, is pushed to
`current_format` and dispatched. -/
theorem read_conversion_of_drop (render : Backend) (index : Int) (args : List Arg)
    (sf : string_formatter) (c : Char) (r : List Char)
    (h : sf.format.drop sf.current_index_in_format = c :: r)
    (hl : c ≠ 'l') (hh : c ≠ 'h') (hz : c ≠ 'z') (ht : c ≠ 't') :
    read_conversion render index args sf =
      dispatch_conversion render c index args
        { sf with
          current_index_in_format := sf.current_index_in_format + 1
          current_format := sf.current_format ++ [c] } := by
  unfold read_conversion
  rw [skip_length_modifier_of_ne sf (by rw [h]; exact hl) (by rw [h]; exact hh)
    (by rw [h]; exact hz) (by rw [h]; exact ht), consume_next_input_of_drop h]

end string_formatter

namespace string_formatter

/-! ## The helpers on a formatter given by its members -/

theorem consume_next_input_mk {fmt : List Char} {i : Nat} {c : Char} {r : List Char}
    (h : fmt.drop i = c :: r) (out cf : List Char) (ai : Int) (tb : List Char) :
    consume_next_input ⟨fmt, i, out, cf, ai, tb⟩ = (c, ⟨fmt, i + 1, out, cf, ai, tb⟩) :=
  @consume_next_input_of_drop ⟨fmt, i, out, cf, ai, tb⟩ c r h

theorem consume_next_input_mk_nil {fmt : List Char} {i : Nat} (h : fmt.drop i = [])
    (out cf : List Char) (ai : Int) (tb : List Char) :
    consume_next_input ⟨fmt, i, out, cf, ai, tb⟩ = (NUL, ⟨fmt, i, out, cf, ai, tb⟩) :=
  @consume_next_input_of_drop_nil ⟨fmt, i, out, cf, ai, tb⟩ h

theorem consume_next_input_if_mk {fmt : List Char} {i : Nat} {c : Char} {r : List Char}
    (h : fmt.drop i = c :: r) (out cf : List Char) (ai : Int) (tb : List Char) :
    consume_next_input_if c ⟨fmt, i, out, cf, ai, tb⟩ =
      (true, ⟨fmt, i + 1, out, cf, ai, tb⟩) :=
  @consume_next_input_if_of_drop ⟨fmt, i, out, cf, ai, tb⟩ c r h

theorem consume_next_input_if_mk_ne {fmt : List Char} {i : Nat} {c : Char}
    (h : (fmt.drop i).headD NUL ≠ c) (out cf : List Char) (ai : Int) (tb : List Char) :
    consume_next_input_if c ⟨fmt, i, out, cf, ai, tb⟩ =
      (false, ⟨fmt, i, out, cf, ai, tb⟩) :=
  @consume_next_input_if_of_ne ⟨fmt, i, out, cf, ai, tb⟩ c h

theorem read_argument_index_mk_none {fmt : List Char} {i : Nat} (h : '$' ∉ fmt.drop i)
    (out cf : List Char) (ai : Int) (tb : List Char) :
    read_argument_index ⟨fmt, i, out, cf, ai, tb⟩ = (none, ⟨fmt, i, out, cf, ai, tb⟩) :=
  read_argument_index_of_no_dollar ⟨fmt, i, out, cf, ai, tb⟩ h

theorem read_argument_index_mk_some {fmt : List Char} {i : Nat} (ds r : List Char)
    (hds : ∀ c ∈ ds, is_digit c = true) (hne : ds ≠ []) (h : fmt.drop i = ds ++ '$' :: r)
    (out cf : List Char) (ai : Int) (tb : List Char) :
    read_argument_index ⟨fmt, i, out, cf, ai, tb⟩ =
      (some ((digits_value ds : Int) - 1), ⟨fmt, i + ds.length + 1, out, cf, ai, tb⟩) :=
  read_argument_index_of_drop ds r hds hne ⟨fmt, i, out, cf, ai, tb⟩ h

theorem read_flags_mk {fmt : List Char} {i : Nat} (fl r : List Char)
    (hfl : ∀ c ∈ fl, is_flag c = true) (hr : is_flag (r.headD NUL) = false)
    (h : fmt.drop i = fl ++ r) (out cf : List Char) (ai : Int) (tb : List Char) :
    read_flags ⟨fmt, i, out, cf, ai, tb⟩ = ⟨fmt, i + fl.length, out, cf ++ fl, ai, tb⟩ :=
  read_flags_loop_of_drop fl r hfl hr _ ⟨fmt, i, out, cf, ai, tb⟩ h
    (@length_le_fuel ⟨fmt, i, out, cf, ai, tb⟩ fl r h)

/-- Literal digits (possibly none) as width. -/
theorem read_width_mk_digits {fmt : List Char} {i : Nat} (ds r : List Char)
    (hds : ∀ c ∈ ds, is_digit c = true) (hr : is_digit (r.headD NUL) = false)
    (hstar : r.headD NUL ≠ '*') (h : fmt.drop i = ds ++ r)
    (out cf : List Char) (ai : Int) (tb : List Char) :
    read_width ⟨fmt, i, out, cf, ai, tb⟩ =
      (none, ⟨fmt, i + ds.length, out, cf ++ ds, ai, tb⟩) := by
  have hhead : (fmt.drop i).headD NUL ≠ '*' := by
    rw [h]
    cases ds with
    | nil => exact hstar
    | cons c ds =>
      intro e
      have := hds c (List.mem_cons_self c ds)
      rw [show c = '*' from e] at this
      exact absurd this (by decide)
  unfold read_width
  rw [read_number_or_argument_index_of_ne ⟨fmt, i, out, cf, ai, tb⟩ hhead,
    forward_digits_loop_of_drop ds r hds hr _ ⟨fmt, i, out, cf, ai, tb⟩ h
      (@length_le_fuel ⟨fmt, i, out, cf, ai, tb⟩ ds r h)]

/-- A `*` without index as width or precision takes the next sequential argument. -/
theorem read_number_or_argument_index_mk_star {fmt : List Char} {i : Nat} (r : List Char)
    (hr : is_digit (r.headD NUL) = false) (h : fmt.drop i = '*' :: r)
    (out cf : List Char) (ai : Int) (tb : List Char) :
    read_number_or_argument_index ⟨fmt, i, out, cf, ai, tb⟩ =
      (some ai, ⟨fmt, i + 1, out, cf, ai + 1, tb⟩) := by
  unfold read_number_or_argument_index
  rw [consume_next_input_if_mk h]
  dsimp only
  have h1 : fmt.drop (i + 1) = r := drop_succ_of_drop h
  have h2 : read_argument_index ⟨fmt, i + 1, out, cf, ai, tb⟩ =
      (none, ⟨fmt, i + 1, out, cf, ai, tb⟩) := by
    unfold read_argument_index has_digit
    rw [get_current_input_eq_headD]
    dsimp only
    rw [h1, hr]
    simp
  rw [if_pos rfl, h2]

/-- An explicit `*n$` as width or precision names argument `n`. -/
theorem read_number_or_argument_index_mk_star_index {fmt : List Char} {i : Nat}
    (ds r : List Char) (hds : ∀ c ∈ ds, is_digit c = true) (hne : ds ≠ [])
    (h : fmt.drop i = '*' :: (ds ++ '$' :: r))
    (out cf : List Char) (ai : Int) (tb : List Char) :
    read_number_or_argument_index ⟨fmt, i, out, cf, ai, tb⟩ =
      (some ((digits_value ds : Int) - 1), ⟨fmt, i + 1 + ds.length + 1, out, cf, ai, tb⟩) := by
  unfold read_number_or_argument_index
  rw [consume_next_input_if_mk h]
  dsimp only
  rw [if_pos rfl, read_argument_index_mk_some ds r hds hne (drop_succ_of_drop h)]

theorem read_precision_mk_none {fmt : List Char} {i : Nat}
    (h : (fmt.drop i).headD NUL ≠ '.') (out cf : List Char) (ai : Int) (tb : List Char) :
    read_precision ⟨fmt, i, out, cf, ai, tb⟩ = (none, ⟨fmt, i, out, cf, ai, tb⟩) :=
  read_precision_of_ne ⟨fmt, i, out, cf, ai, tb⟩ h

/-- A `.` with literal digits (possibly none) as precision. -/
theorem read_precision_mk_digits {fmt : List Char} {i : Nat} (ds r : List Char)
    (hds : ∀ c ∈ ds, is_digit c = true) (hr : is_digit (r.headD NUL) = false)
    (hstar : r.headD NUL ≠ '*') (h : fmt.drop i = '.' :: (ds ++ r))
    (out cf : List Char) (ai : Int) (tb : List Char) :
    read_precision ⟨fmt, i, out, cf, ai, tb⟩ =
      (none, ⟨fmt, i + 1 + ds.length, out, cf ++ ['.'] ++ ds, ai, tb⟩) := by
  unfold read_precision
  rw [consume_next_input_if_mk h]
  dsimp only
  rw [if_pos rfl]
  exact read_width_mk_digits ds r hds hr hstar (drop_succ_of_drop h) out (cf ++ ['.']) ai tb

/-- A `.*` without index as precision takes the next sequential argument. -/
theorem read_precision_mk_star {fmt : List Char} {i : Nat} (r : List Char)
    (hr : is_digit (r.headD NUL) = false) (h : fmt.drop i = '.' :: '*' :: r)
    (out cf : List Char) (ai : Int) (tb : List Char) :
    read_precision ⟨fmt, i, out, cf, ai, tb⟩ =
      (some ai, ⟨fmt, i + 1 + 1, out, cf ++ ['.'], ai + 1, tb⟩) := by
  unfold read_precision
  rw [consume_next_input_if_mk h]
  dsimp only
  rw [if_pos rfl]
  exact read_number_or_argument_index_mk_star r hr (drop_succ_of_drop h) out (cf ++ ['.']) ai tb

theorem read_conversion_mk (render : Backend) (index : Int) (args : List Arg)
    {fmt : List Char} {i : Nat} (c : Char) (r : List Char) (h : fmt.drop i = c :: r)
    (hl : c ≠ 'l') (hh : c ≠ 'h') (hz : c ≠ 'z') (ht : c ≠ 't')
    (out cf : List Char) (ai : Int) (tb : List Char) :
    read_conversion render index args ⟨fmt, i, out, cf, ai, tb⟩ =
      dispatch_conversion render c index args ⟨fmt, i + 1, out, cf ++ [c], ai, tb⟩ :=
  read_conversion_of_drop render index args ⟨fmt, i, out, cf, ai, tb⟩ c r h hl hh hz ht

/-- No flag at the cursor. -/
theorem read_flags_mk_none {fmt : List Char} {i : Nat}
    (h : is_flag ((fmt.drop i).headD NUL) = false)
    (out cf : List Char) (ai : Int) (tb : List Char) :
    read_flags ⟨fmt, i, out, cf, ai, tb⟩ = ⟨fmt, i, out, cf, ai, tb⟩ :=
  read_flags_loop_of_not_flag _ ⟨fmt, i, out, cf, ai, tb⟩ h

/-- Neither `*` nor a digit at the cursor: no width. -/
theorem read_width_mk_none {fmt : List Char} {i : Nat}
    (hd : is_digit ((fmt.drop i).headD NUL) = false) (hstar : (fmt.drop i).headD NUL ≠ '*')
    (out cf : List Char) (ai : Int) (tb : List Char) :
    read_width ⟨fmt, i, out, cf, ai, tb⟩ = (none, ⟨fmt, i, out, cf, ai, tb⟩) := by
  unfold read_width
  rw [read_number_or_argument_index_of_ne ⟨fmt, i, out, cf, ai, tb⟩ hstar,
    forward_digits_loop_of_not_digit _ ⟨fmt, i, out, cf, ai, tb⟩ hd]

/-- The parts of the loop body of `parse` that handle one specifier, on a formatter given by its
members. -/
theorem parse_specifier_mk (render : Backend) (args : List Arg) (fmt : List Char) (i : Nat)
    (out cf : List Char) (ai : Int) (tb : List Char) :
    parse_specifier render args ⟨fmt, i, out, cf, ai, tb⟩ =
      match append_int_argument
          (read_width (read_flags (read_argument_index ⟨fmt, i, out, ['%'], ai, tb⟩).2))
          args with
      | .error e => .error e
      | .ok sf1 =>
        match append_int_argument (read_precision sf1) args with
        | .error e => .error e
        | .ok sf2 =>
          read_value render (read_argument_index ⟨fmt, i, out, ['%'], ai, tb⟩).1 args sf2 :=
  rfl

theorem read_value_mk_none (render : Backend) (args : List Arg) (fmt : List Char) (i : Nat)
    (out cf : List Char) (ai : Int) (tb : List Char) :
    read_value render none args ⟨fmt, i, out, cf, ai, tb⟩ =
      read_conversion render ai args ⟨fmt, i, out, cf, ai + 1, tb⟩ :=
  rfl

theorem read_value_mk_some (render : Backend) (args : List Arg) (index : Int)
    (sf : string_formatter) :
    read_value render (some index) args sf = read_conversion render index args sf :=
  rfl

theorem append_int_argument_mk_none (args : List Arg) (sf : string_formatter) :
    append_int_argument (none, sf) args = .ok sf :=
  rfl

end string_formatter

namespace string_formatter

/-- A `%` that is not followed by another `%` starts a specifier. -/
theorem parse_loop_mk_specifier (render : Backend) (args : List Arg) (fuel : Nat)
    {fmt : List Char} {i : Nat} (r : List Char) (h : fmt.drop i = '%' :: r)
    (hr : r.headD NUL ≠ '%') (out cf : List Char) (ai : Int) (tb : List Char) :
    parse_loop render args (fuel + 1) ⟨fmt, i, out, cf, ai, tb⟩ =
      match parse_specifier render args ⟨fmt, i + 1, out, cf, ai, tb⟩ with
      | .error e => some (.error e)
      | .ok sf2 => parse_loop render args fuel sf2 := by
  rw [parse_loop_succ, consume_next_input_mk h]
  dsimp only
  rw [if_neg (by decide), if_neg (by decide),
    consume_next_input_if_mk_ne (by rw [drop_succ_of_drop h]; exact hr)]
  dsimp only
  rw [if_neg (by decide)]

/-- The pair `%%` is copied as one `%`. -/
theorem parse_loop_mk_percent_percent (render : Backend) (args : List Arg) (fuel : Nat)
    {fmt : List Char} {i : Nat} (r : List Char) (h : fmt.drop i = '%' :: '%' :: r)
    (out cf : List Char) (ai : Int) (tb : List Char) :
    parse_loop render args (fuel + 1) ⟨fmt, i, out, cf, ai, tb⟩ =
      parse_loop render args fuel ⟨fmt, i + 1 + 1, out ++ ['%'], cf, ai, tb⟩ := by
  rw [parse_loop_succ, consume_next_input_mk h]
  dsimp only
  rw [if_neg (by decide), if_neg (by decide), consume_next_input_if_mk (drop_succ_of_drop h)]
  dsimp only
  rw [if_pos rfl]

/-- At the end of the format, and at a null character, the loop stops. -/
theorem parse_loop_mk_end (render : Backend) (args : List Arg) (fuel : Nat)
    {fmt : List Char} {i : Nat} (h : fmt.drop i = [])
    (out cf : List Char) (ai : Int) (tb : List Char) :
    parse_loop render args (fuel + 1) ⟨fmt, i, out, cf, ai, tb⟩ =
      some (.ok ⟨fmt, i, out, cf, ai, tb⟩) :=
  parse_loop_at_end render args fuel ⟨fmt, i, out, cf, ai, tb⟩ h

/-- A character other than `%` and the null character is copied to the output. -/
theorem parse_loop_mk_char (render : Backend) (args : List Arg) (fuel : Nat)
    {fmt : List Char} {i : Nat} (c : Char) (r : List Char) (h : fmt.drop i = c :: r)
    (hc : c ≠ '%' ∧ c ≠ NUL) (out cf : List Char) (ai : Int) (tb : List Char) :
    parse_loop render args (fuel + 1) ⟨fmt, i, out, cf, ai, tb⟩ =
      parse_loop render args fuel ⟨fmt, i + 1, out ++ [c], cf, ai, tb⟩ := by
  rw [parse_loop_succ, consume_next_input_mk h]
  dsimp only
  rw [if_neg hc.2, if_pos hc.1]

theorem is_flag_ne {c d : Char} (hc : is_flag c = true) (hd : is_flag d = false) : c ≠ d :=
  fun e => by rw [e, hd] at hc; exact Bool.noConfusion hc

/-- Flags followed by `%` at the end of the format: the `%` is read as the conversion letter
and rejected. -/
theorem parse_specifier_mk_flags_percent (render : Backend) (args : List Arg)
    (fl : List Char) (hfl : ∀ c ∈ fl, is_flag c = true) {fmt : List Char} {i : Nat}
    (h : fmt.drop i = fl ++ ['%']) (out cf : List Char) (ai : Int) (tb : List Char) :
    parse_specifier render args ⟨fmt, i, out, cf, ai, tb⟩ =
      .error (.InvalidSpecifier '%') := by
  have hnd : '$' ∉ fmt.drop i := by
    rw [h]
    intro hm
    rcases List.mem_append.mp hm with hm | hm
    · exact absurd (hfl _ hm) (by decide)
    · exact absurd hm (by decide)
  have h2 := drop_add_of_drop fl ['%'] h
  have h3 : fmt.drop (i + fl.length) = [] ++ ['%'] := h2
  rw [parse_specifier_mk, read_argument_index_mk_none hnd]
  dsimp only
  rw [read_flags_mk fl ['%'] hfl (by decide) h,
    read_width_mk_digits [] ['%'] (by simp) (by decide) (by decide) h3,
    append_int_argument_mk_none]
  dsimp only [List.length_nil, Nat.add_zero]
  rw [read_precision_mk_none (by rw [h2]; decide), append_int_argument_mk_none]
  dsimp only
  rw [read_value_mk_none, read_conversion_mk render _ args '%' [] h2 (by decide) (by decide)
    (by decide) (by decide)]
  rfl

end string_formatter

/-! ## `%` as a conversion letter -/

/-- C6, as the code has it: `"%%"` renders as a single `%`; with a non-empty run of flag
characters between the two `%` the second one is read as a conversion letter, `format_strict`
fails with `InvalidSpecifier` and `string_format` returns the text of that error. -/
theorem C6_percent_after_flags (render : Backend) (fl : List Char) (args : List Arg)
    (hne : fl ≠ []) (hfl : ∀ c ∈ fl, string_formatter.is_flag c = true) :
    string_format render "%%".toList args = some "%".toList ∧
    format_strict render ('%' :: (fl ++ ['%'])) args =
      some (.error (.InvalidSpecifier '%')) ∧
    string_format render ('%' :: (fl ++ ['%'])) args =
      some (handle_string_format_error (.InvalidSpecifier '%') ('%' :: (fl ++ ['%']))) := by
  have key : string_formatter.parse render args ⟨'%' :: (fl ++ ['%']), 0, [], [], 0, []⟩ =
      some (.error (.InvalidSpecifier '%')) := by
    unfold string_formatter.parse
    dsimp only
    have hhead : (fl ++ ['%']).headD NUL ≠ '%' := by
      cases fl with
      | nil => exact absurd rfl hne
      | cons c r =>
        exact string_formatter.is_flag_ne (hfl c (List.mem_cons_self c r)) (by decide)
    have h0 : ('%' :: (fl ++ ['%'])).drop 0 = '%' :: (fl ++ ['%']) := rfl
    have h1 : ('%' :: (fl ++ ['%'])).drop (0 + 1) = fl ++ ['%'] := rfl
    rw [string_formatter.parse_loop_mk_specifier render args _ (fl ++ ['%']) h0 hhead,
      string_formatter.parse_specifier_mk_flags_percent render args fl hfl h1]
  refine ⟨rfl, ?_, ?_⟩
  · simp only [format_strict, key]
  · simp only [string_format, key]

/-- C6 at the flag `-`. -/
theorem C6_percent_after_flags_witness :
    (['-'] ≠ [] ∧ ∀ c ∈ ['-'], string_formatter.is_flag c = true) ∧
    format_strict printf_backend "%-%".toList [] = some (.error (.InvalidSpecifier '%')) :=
  ⟨⟨by decide, by decide⟩,
    (C6_percent_after_flags printf_backend ['-'] [] (by decide) (by decide)).2.1⟩

/-- C6 as stated fails: with the flag `-` between the two `%`, `string_format` does not return
`"%"` but the text of the error. -/
theorem C6_counterexample_flag_minus :
    string_format printf_backend ("%".toList ++ ['-'] ++ "%".toList) [] ≠ some "%".toList ∧
    string_format printf_backend ("%".toList ++ ['-'] ++ "%".toList) [] =
      some (handle_string_format_error (.InvalidSpecifier '%') "%-%".toList) := by
  decide

/-! ## Decimal text -/

theorem is_digit_digit_char {d : Nat} (h : d < 10) : is_digit (digit_char d) = true := by
  interval_cases d <;> rfl

theorem digit_value_digit_char {d : Nat} (h : d < 10) : digit_value (digit_char d) = d := by
  interval_cases d <;> rfl

theorem digit_char_ne_zero {d : Nat} (h : d < 10) (h0 : 0 < d) : digit_char d ≠ '0' := by
  interval_cases d <;> decide

theorem nat_digits_eq (n : Nat) : ∀ fuel acc, n < fuel →
    nat_digits fuel n acc = nat_to_string n ++ acc := by
  induction n using Nat.strong_induction_on with
  | _ n ih =>
    intro fuel acc hfuel
    cases fuel with
    | zero => exact absurd hfuel (Nat.not_lt_zero _)
    | succ fuel =>
      unfold nat_to_string
      by_cases hn : n < 10
      · simp [nat_digits, hn]
      · have hdiv : n / 10 < n := Nat.div_lt_self (by omega) (by decide)
        have e1 : nat_digits (fuel + 1) n acc =
            nat_digits fuel (n / 10) (digit_char (n % 10) :: acc) := by
          simp [nat_digits, hn]
        have e2 : nat_digits (n + 1) n [] = nat_digits n (n / 10) [digit_char (n % 10)] := by
          simp [nat_digits, hn]
        rw [e1, e2, ih (n / 10) hdiv fuel _ (by omega), ih (n / 10) hdiv n _ hdiv]
        simp

theorem nat_to_string_of_lt {n : Nat} (h : n < 10) : nat_to_string n = [digit_char n] := by
  simp [nat_to_string, nat_digits, h]

theorem nat_to_string_of_ge {n : Nat} (h : 10 ≤ n) :
    nat_to_string n = nat_to_string (n / 10) ++ [digit_char (n % 10)] := by
  have hn : ¬ n < 10 := by omega
  have e : nat_to_string n = nat_digits n (n / 10) [digit_char (n % 10)] := by
    simp [nat_to_string, nat_digits, hn]
  rw [e, nat_digits_eq (n / 10) n _ (Nat.div_lt_self (by omega) (by decide))]

/-- The text of `std::to_string` consists of decimal digits. -/
theorem is_digit_of_mem_nat_to_string (n : Nat) : ∀ c ∈ nat_to_string n, is_digit c = true := by
  induction n using Nat.strong_induction_on with
  | _ n ih =>
    intro c hc
    by_cases hn : n < 10
    · rw [nat_to_string_of_lt hn] at hc
      rw [List.mem_singleton.mp hc]
      exact is_digit_digit_char hn
    · rw [nat_to_string_of_ge (by omega)] at hc
      rcases List.mem_append.mp hc with h | h
      · exact ih (n / 10) (Nat.div_lt_self (by omega) (by decide)) c h
      · rw [List.mem_singleton.mp h]
        exact is_digit_digit_char (Nat.mod_lt _ (by decide))

/-- Reading the text of `std::to_string` back gives the number. -/
theorem digits_value_nat_to_string (n : Nat) : digits_value (nat_to_string n) = n := by
  induction n using Nat.strong_induction_on with
  | _ n ih =>
    by_cases hn : n < 10
    · rw [nat_to_string_of_lt hn]
      simp [digits_value, digit_value_digit_char hn]
    · rw [nat_to_string_of_ge (by omega)]
      have h := ih (n / 10) (Nat.div_lt_self (by omega) (by decide))
      unfold digits_value at h ⊢
      rw [List.foldl_append, h]
      simp only [List.foldl_cons, List.foldl_nil]
      rw [digit_value_digit_char (Nat.mod_lt _ (by decide))]
      omega

/-- The text of a positive number starts with a digit that is not `0`. -/
theorem nat_to_string_head (n : Nat) (h : 0 < n) :
    ∃ c r, nat_to_string n = c :: r ∧ c ≠ '0' ∧ is_digit c = true := by
  induction n using Nat.strong_induction_on with
  | _ n ih =>
    by_cases hn : n < 10
    · exact ⟨digit_char n, [], nat_to_string_of_lt hn, digit_char_ne_zero hn h,
        is_digit_digit_char hn⟩
    · obtain ⟨c, r, e, hc, hd⟩ := ih (n / 10) (Nat.div_lt_self (by omega) (by decide))
        (Nat.div_pos (by omega) (by decide))
      exact ⟨c, r ++ [digit_char (n % 10)], by rw [nat_to_string_of_ge (by omega), e]; rfl,
        hc, hd⟩

theorem nat_to_string_ne_nil (n : Nat) : nat_to_string n ≠ [] := by
  by_cases hn : n < 10
  · rw [nat_to_string_of_lt hn]; exact List.cons_ne_nil _ _
  · rw [nat_to_string_of_ge (by omega)]
    exact fun e => List.cons_ne_nil _ _ (List.append_eq_nil.mp e).2

/-! ## Explicit argument indices -/

theorem to_unsigned_pred (k : Nat) (hk : 1 ≤ k) : to_unsigned ((k : Int) - 1) = k - 1 := by
  unfold to_unsigned
  rw [if_pos (by omega)]
  omega

/-- `get_nth_arg_as` from index 0, in terms of the list of arguments. -/
theorem get_nth_arg_as_zero (rt : Requested) (temp_buffer : List Char) (args : List Arg)
    (requested : Nat) :
    get_nth_arg_as rt temp_buffer 0 requested args =
      match args[requested]? with
      | some a => convert rt temp_buffer a
      | none => .error (.IndexOutOfRange requested args.length) := by
  have h := get_nth_arg_as_from rt temp_buffer args 0 requested
  simpa using h

theorem parse_sub_format_s : parse_sub_format ['%', 's'] = some ⟨[], 0, none, 's'⟩ := by
  decide

/-- The reference rendering of `%s` is the text itself. -/
theorem printf_backend_s (text : List Char) :
    printf_backend ['%', 's'] (.string_view_ text) = some text := by
  unfold printf_backend
  rw [parse_sub_format_s]
  simp [render_string, pad_field]

theorem convert_string (temp_buffer text : List Char) :
    convert .string_view_ temp_buffer (.string text) = .ok (.string_view_ text, temp_buffer) :=
  rfl

theorem string_format_swapped_indices :
    string_format printf_backend "%2$s %1$s".toList [.string ['a'], .string ['b']] =
      some "b a".toList :=
  rfl

/-- C7: a specifier `%k$s` with `1 <= k <= length`, wherever it stands in the format and
whatever the sequential counter is, converts argument number `k - 1` to a string and renders
it; the sequential counter is left as it was.  With the reference rendering primitive a
`std::string` argument is appended to the output as it is, and `"%2$s %1$s"` with the
arguments `a`, `b` gives `b a`. -/
theorem C7_explicit_argument_index (render : Backend) (args : List Arg) (k : Nat)
    (hk : 1 ≤ k ∧ k ≤ args.length) (fmt : List Char) (i : Nat) (r out cf : List Char)
    (ai : Int) (tb : List Char) (h : fmt.drop i = nat_to_string k ++ '$' :: 's' :: r) :
    (∃ a, args[k - 1]? = some a ∧
      string_formatter.parse_specifier render args ⟨fmt, i, out, cf, ai, tb⟩ =
        (match convert .string_view_ tb a with
          | .ok (value, tb1) =>
            string_formatter.do_formating render value
              ⟨fmt, i + (nat_to_string k).length + 1 + 1, out, ['%', 's'], ai, tb1⟩
          | .error e => .error e) ∧
      ∀ text, a = .string text →
        string_formatter.parse_specifier printf_backend args ⟨fmt, i, out, cf, ai, tb⟩ =
          .ok ⟨fmt, i + (nat_to_string k).length + 1 + 1, out ++ text, ['%', 's'], ai, tb⟩) ∧
    string_format printf_backend "%2$s %1$s".toList [.string ['a'], .string ['b']] =
      some "b a".toList := by
  refine ⟨?_, string_format_swapped_indices⟩
  obtain ⟨hk1, hk2⟩ := hk
  have hlt : k - 1 < args.length := by omega
  have ha : args[k - 1]? = some (args[k - 1]) := List.getElem?_eq_getElem hlt
  have h1 : fmt.drop (i + (nat_to_string k).length) = '$' :: 's' :: r :=
    string_formatter.drop_add_of_drop _ _ h
  have h2 : fmt.drop (i + (nat_to_string k).length + 1) = 's' :: r :=
    string_formatter.drop_succ_of_drop h1
  have step : ∀ render : Backend,
      string_formatter.parse_specifier render args ⟨fmt, i, out, cf, ai, tb⟩ =
        (match convert .string_view_ tb (args[k - 1]) with
          | .ok (value, tb1) =>
            string_formatter.do_formating render value
              ⟨fmt, i + (nat_to_string k).length + 1 + 1, out, ['%', 's'], ai, tb1⟩
          | .error e => .error e) := by
    intro render
    rw [string_formatter.parse_specifier_mk,
      string_formatter.read_argument_index_mk_some (nat_to_string k) ('s' :: r)
        (is_digit_of_mem_nat_to_string k) (nat_to_string_ne_nil k) h]
    dsimp only
    rw [string_formatter.read_flags_mk_none (by rw [h2]; rfl),
      string_formatter.read_width_mk_none (by rw [h2]; rfl)
        (by rw [h2]; show 's' ≠ '*'; decide),
      string_formatter.append_int_argument_mk_none]
    dsimp only
    rw [string_formatter.read_precision_mk_none (by rw [h2]; show 's' ≠ '.'; decide),
      string_formatter.append_int_argument_mk_none]
    dsimp only
    rw [string_formatter.read_value_mk_some,
      string_formatter.read_conversion_mk render _ args 's' r h2 (by decide) (by decide)
        (by decide) (by decide)]
    have hd : ∀ sf : string_formatter,
        string_formatter.dispatch_conversion render 's' ((digits_value (nat_to_string k) : Int) - 1)
          args sf =
        string_formatter.format_nth_arg render .string_view_
          ((digits_value (nat_to_string k) : Int) - 1) args sf := fun _ => rfl
    rw [hd]
    unfold string_formatter.format_nth_arg
    dsimp only
    rw [digits_value_nat_to_string, to_unsigned_pred k hk1, get_nth_arg_as_zero, ha]
    dsimp only
    cases convert .string_view_ tb (args[k - 1]) with
    | error e => rfl
    | ok p => rfl
  refine ⟨args[k - 1], ha, step render, ?_⟩
  intro text htext
  rw [step printf_backend, htext]
  rw [convert_string]
  dsimp only [string_formatter.do_formating]
  rw [printf_backend_s]

/-- C7 at the first specifier of `"%2$s %1$s"` with the arguments `a`, `b`. -/
theorem C7_explicit_argument_index_witness :
    ((1 ≤ 2 ∧ 2 ≤ [Arg.string ['a'], Arg.string ['b']].length) ∧
      "%2$s %1$s".toList.drop 1 = nat_to_string 2 ++ '$' :: 's' :: " %1$s".toList) ∧
    string_formatter.parse_specifier printf_backend [Arg.string ['a'], Arg.string ['b']]
      ⟨"%2$s %1$s".toList, 1, [], [], 0, []⟩ =
      .ok ⟨"%2$s %1$s".toList, 4, ['b'], ['%', 's'], 0, []⟩ := by
  refine ⟨⟨⟨by decide, by decide⟩, by decide⟩, ?_⟩
  obtain ⟨a, ha, _, h3⟩ := (C7_explicit_argument_index printf_backend
    [Arg.string ['a'], Arg.string ['b']] 2 ⟨by decide, by decide⟩ "%2$s %1$s".toList 1
    " %1$s".toList [] [] 0 [] (by decide)).1
  have hb : a = Arg.string ['b'] := by
    have e : [Arg.string ['a'], Arg.string ['b']][2 - 1]? = some (Arg.string ['b']) := rfl
    rw [e] at ha
    exact (Option.some.inj ha).symm
  exact h3 ['b'] hb

namespace string_formatter

/-! ## The helpers on any format -/

theorem headD_dropWhile (p : Char → Bool) (hp : p NUL = false) (l : List Char) :
    p ((l.dropWhile p).headD NUL) = false := by
  induction l with
  | nil => exact hp
  | cons c l ih =>
    by_cases hc : p c = true
    · rw [List.dropWhile_cons_of_pos hc]; exact ih
    · rw [List.dropWhile_cons_of_neg hc]; simpa using hc

theorem headD_ne_of_head? {l : List Char} {c : Char} (h : l.head? ≠ some c) (hc : c ≠ NUL) :
    l.headD NUL ≠ c := by
  cases l with
  | nil => exact fun e => hc e.symm
  | cons d l => exact fun e => h (by rw [show d = c from e]; rfl)

/-- What `read_argument_index` does on any format. -/
theorem read_argument_index_mk (fmt : List Char) (i : Nat) (out cf : List Char) (ai : Int)
    (tb : List Char) :
    ∃ j, read_argument_index ⟨fmt, i, out, cf, ai, tb⟩ =
        ((strip_argument_index (fmt.drop i)).1.map (fun n : Nat => (n : Int) - 1),
          ⟨fmt, j, out, cf, ai, tb⟩) ∧
      fmt.drop j = (strip_argument_index (fmt.drop i)).2 := by
  have hsplit : fmt.drop i =
      (fmt.drop i).takeWhile is_digit ++ (fmt.drop i).dropWhile is_digit :=
    (List.takeWhile_append_dropWhile _ _).symm
  have hdigits : ∀ c ∈ (fmt.drop i).takeWhile is_digit, is_digit c = true :=
    fun c hc => List.mem_takeWhile_imp hc
  have hrest : is_digit (((fmt.drop i).dropWhile is_digit).headD NUL) = false :=
    headD_dropWhile is_digit rfl _
  by_cases hcond : (fmt.drop i).takeWhile is_digit ≠ [] ∧
      ((fmt.drop i).dropWhile is_digit).head? = some '$'
  · obtain ⟨hne, hdollar⟩ := hcond
    obtain ⟨r, hr⟩ : ∃ r, (fmt.drop i).dropWhile is_digit = '$' :: r := by
      cases hd : (fmt.drop i).dropWhile is_digit with
      | nil => rw [hd] at hdollar; exact absurd hdollar (by simp)
      | cons c r =>
        rw [hd] at hdollar
        exact ⟨r, by rw [show c = '$' from Option.some.inj hdollar]⟩
    have h : fmt.drop i = (fmt.drop i).takeWhile is_digit ++ '$' :: r := by
      rw [← hr]; exact hsplit
    refine ⟨i + ((fmt.drop i).takeWhile is_digit).length + 1, ?_, ?_⟩
    · rw [read_argument_index_mk_some _ r hdigits hne h]
      simp [strip_argument_index, hne, hdollar]
    · rw [drop_succ_of_drop (drop_add_of_drop _ _ h)]
      simp [strip_argument_index, hne, hdollar, hr]
  · refine ⟨i, ?_, ?_⟩
    · have e : strip_argument_index (fmt.drop i) = (none, fmt.drop i) := by
        unfold strip_argument_index
        rw [if_neg hcond]
      rw [e]
      unfold read_argument_index
      by_cases hd : has_digit ⟨fmt, i, out, cf, ai, tb⟩ = true
      · rw [if_pos hd]
        have hp := parse_integer_loop_of_drop _ _ hdigits hrest
          (fmt.length - i) 0 ⟨fmt, i, out, cf, ai, tb⟩ hsplit
          (@length_le_fuel ⟨fmt, i, out, cf, ai, tb⟩ _ _ hsplit)
        unfold parse_integer
        dsimp only at hp ⊢
        rw [hp]
        dsimp only
        have hhead : (fmt.drop (i + ((fmt.drop i).takeWhile is_digit).length)).headD NUL
            ≠ '$' := by
          rw [drop_add_of_drop _ _ hsplit]
          by_cases hne : (fmt.drop i).takeWhile is_digit = []
          · exfalso
            have e3 : (fmt.drop i).dropWhile is_digit = fmt.drop i := by
              have := hsplit
              rw [hne, List.nil_append] at this
              exact this.symm
            rw [e3] at hrest
            unfold has_digit at hd
            rw [get_current_input_eq_headD] at hd
            dsimp only at hd
            rw [hrest] at hd
            exact Bool.noConfusion hd
          · exact headD_ne_of_head? (fun e2 => hcond ⟨hne, e2⟩) (by decide)
        rw [consume_next_input_if_mk_ne hhead]
        simp
      · rw [if_neg hd]
        rfl
    · unfold strip_argument_index
      rw [if_neg hcond]

/-- What `read_flags` does on any format. -/
theorem read_flags_mk_any (fmt : List Char) (i : Nat) (out cf : List Char) (ai : Int)
    (tb : List Char) :
    ∃ j cf1, read_flags ⟨fmt, i, out, cf, ai, tb⟩ = ⟨fmt, j, out, cf1, ai, tb⟩ ∧
      fmt.drop j = (fmt.drop i).dropWhile is_flag := by
  have hsplit : fmt.drop i =
      (fmt.drop i).takeWhile is_flag ++ (fmt.drop i).dropWhile is_flag :=
    (List.takeWhile_append_dropWhile _ _).symm
  refine ⟨_, _, read_flags_mk _ _ (fun c hc => List.mem_takeWhile_imp hc)
    (headD_dropWhile is_flag rfl _) hsplit out cf ai tb, ?_⟩
  exact drop_add_of_drop _ _ hsplit

/-- What `read_number_or_argument_index` does on any format. -/
theorem read_number_or_argument_index_mk (fmt : List Char) (i : Nat) (out cf : List Char)
    (ai : Int) (tb : List Char) :
    ∃ j cf1 index, read_number_or_argument_index ⟨fmt, i, out, cf, ai, tb⟩ =
        (index, ⟨fmt, j, out, cf1,
          ai + (if (strip_field (fmt.drop i)).1 then 1 else 0), tb⟩) ∧
      fmt.drop j = (strip_field (fmt.drop i)).2 := by
  cases ht : fmt.drop i with
  | nil =>
    refine ⟨i, cf, none, ?_, by rw [ht]; rfl⟩
    rw [read_number_or_argument_index_of_ne ⟨fmt, i, out, cf, ai, tb⟩
      (by dsimp only; rw [ht]; decide),
      forward_digits_loop_of_not_digit _ ⟨fmt, i, out, cf, ai, tb⟩
      (by dsimp only; rw [ht]; rfl)]
    simp [strip_field]
  | cons c rest =>
    by_cases hc : c = '*'
    · subst hc
      obtain ⟨j, e, hj⟩ := read_argument_index_mk fmt (i + 1) out cf ai tb
      rw [drop_succ_of_drop ht] at e hj
      unfold read_number_or_argument_index
      rw [consume_next_input_if_mk ht]
      dsimp only
      rw [if_pos rfl, e]
      cases hs : (strip_argument_index rest).1 with
      | none =>
        refine ⟨j, cf, some ai, ?_, ?_⟩
        · simp [strip_field, hs]
        · simp [strip_field, hj]
      | some n =>
        refine ⟨j, cf, some ((n : Int) - 1), ?_, ?_⟩
        · simp [strip_field, hs]
        · simp [strip_field, hj]
    · have hsplit : fmt.drop i =
          (fmt.drop i).takeWhile is_digit ++ (fmt.drop i).dropWhile is_digit :=
        (List.takeWhile_append_dropWhile _ _).symm
      refine ⟨i + ((fmt.drop i).takeWhile is_digit).length,
        cf ++ (fmt.drop i).takeWhile is_digit, none, ?_, ?_⟩
      · rw [read_number_or_argument_index_of_ne ⟨fmt, i, out, cf, ai, tb⟩
          (by dsimp only; rw [ht]; exact hc),
          forward_digits_loop_of_drop _ _ (fun d hd => List.mem_takeWhile_imp hd)
            (headD_dropWhile is_digit rfl _) _ ⟨fmt, i, out, cf, ai, tb⟩ hsplit
            (@length_le_fuel ⟨fmt, i, out, cf, ai, tb⟩ _ _ hsplit)]
        simp [strip_field, hc]
      · rw [drop_add_of_drop _ _ hsplit, ht]
        simp [strip_field, hc]

/-- What `read_precision` does on any format. -/
theorem read_precision_mk (fmt : List Char) (i : Nat) (out cf : List Char)
    (ai : Int) (tb : List Char) :
    ∃ j cf1 index, read_precision ⟨fmt, i, out, cf, ai, tb⟩ =
        (index, ⟨fmt, j, out, cf1,
          ai + (if (strip_precision_field (fmt.drop i)).1 then 1 else 0), tb⟩) ∧
      fmt.drop j = (strip_precision_field (fmt.drop i)).2 := by
  cases ht : fmt.drop i with
  | nil =>
    refine ⟨i, cf, none, ?_, by rw [ht]; rfl⟩
    rw [read_precision_mk_none (by rw [ht]; decide)]
    simp [strip_precision_field]
  | cons c rest =>
    by_cases hc : c = '.'
    · subst hc
      obtain ⟨j, cf1, index, e, hj⟩ :=
        read_number_or_argument_index_mk fmt (i + 1) out (cf ++ ['.']) ai tb
      rw [drop_succ_of_drop ht] at e hj
      refine ⟨j, cf1, index, ?_, ?_⟩
      · unfold read_precision
        rw [consume_next_input_if_mk ht]
        dsimp only
        rw [if_pos rfl, e]
        simp [strip_precision_field]
      · simp [strip_precision_field, hj]
    · refine ⟨i, cf, none, ?_, by rw [ht]; simp [strip_precision_field, hc]⟩
      rw [read_precision_mk_none (by rw [ht]; exact hc)]
      simp [strip_precision_field, hc]

end string_formatter

namespace string_formatter

/-! ## The sequential counter -/

theorem counter_consume_next_input (sf : string_formatter) :
    sf.consume_next_input.2.current_argument_index = sf.current_argument_index := by
  unfold consume_next_input
  split <;> rfl

theorem counter_consume_next_input_if (c : Char) (sf : string_formatter) :
    (consume_next_input_if c sf).2.current_argument_index = sf.current_argument_index := by
  unfold consume_next_input_if
  split
  · exact counter_consume_next_input sf
  · rfl

theorem counter_skip_length_modifier (sf : string_formatter) :
    sf.skip_length_modifier.current_argument_index = sf.current_argument_index := by
  unfold skip_length_modifier
  split
  · rw [counter_consume_next_input_if, counter_consume_next_input_if]
  · split
    · rw [counter_consume_next_input_if, counter_consume_next_input_if]
    · split
      · exact counter_consume_next_input_if _ sf
      · split
        · exact counter_consume_next_input_if _ sf
        · rfl

theorem counter_do_formating {render : Backend} {value : Value} {sf sf1 : string_formatter}
    (h : do_formating render value sf = .ok sf1) :
    sf1.current_argument_index = sf.current_argument_index := by
  unfold do_formating at h
  split at h
  · injection h with h
    subst h
    rfl
  · exact absurd h (by simp)

theorem counter_format_nth_arg {render : Backend} {rt : Requested} {index : Int}
    {args : List Arg} {sf sf1 : string_formatter}
    (h : format_nth_arg render rt index args sf = .ok sf1) :
    sf1.current_argument_index = sf.current_argument_index := by
  unfold format_nth_arg at h
  split at h
  · have h1 := counter_do_formating h
    exact h1
  · exact absurd h (by simp)

theorem counter_dispatch_conversion {render : Backend} {c : Char} {index : Int}
    {args : List Arg} {sf sf1 : string_formatter}
    (h : dispatch_conversion render c index args sf = .ok sf1) :
    sf1.current_argument_index = sf.current_argument_index := by
  unfold dispatch_conversion at h
  split at h
  · have h1 := counter_format_nth_arg h
    exact h1
  split at h
  · have h1 := counter_format_nth_arg h
    exact h1
  split at h
  · have h1 := counter_format_nth_arg h
    exact h1
  split at h
  · have h1 := counter_format_nth_arg h
    exact h1
  split at h
  · have h1 := counter_format_nth_arg h
    exact h1
  split at h
  · have h1 := counter_format_nth_arg h
    exact h1
  split at h
  · have h1 := counter_format_nth_arg h
    exact h1
  · exact absurd h (by simp)

/-- A successful `read_conversion` leaves the sequential counter as it is. -/
theorem counter_read_conversion {render : Backend} {index : Int} {args : List Arg}
    {sf sf1 : string_formatter} (h : read_conversion render index args sf = .ok sf1) :
    sf1.current_argument_index = sf.current_argument_index := by
  unfold read_conversion at h
  rw [counter_dispatch_conversion h]
  exact (counter_consume_next_input _).trans (counter_skip_length_modifier sf)

/-- A successful fetch of a width or precision argument changes `current_format` and
`temp_buffer` only. -/
theorem append_int_argument_mk {index : Option Int} {fmt : List Char} {i : Nat}
    {out cf : List Char} {ai : Int} {tb : List Char} {args : List Arg}
    {sf1 : string_formatter}
    (h : append_int_argument (index, ⟨fmt, i, out, cf, ai, tb⟩) args = .ok sf1) :
    ∃ cf1 tb1, sf1 = ⟨fmt, i, out, cf1, ai, tb1⟩ := by
  unfold append_int_argument at h
  cases index with
  | none =>
    dsimp only at h
    injection h with h
    exact ⟨cf, tb, h.symm⟩
  | some n =>
    dsimp only at h
    split at h
    · injection h with h
      exact ⟨_, _, h.symm⟩
    · exact absurd h (by simp)

end string_formatter

/-! ## The sequential counter and explicit indices -/

/-- C8: a specifier that is formatted successfully moves the sequential counter by the number
of its arguments that have no explicit index (the value, a `*` width, a `*` precision), and by
nothing else; a value with an explicit index is read with the counter untouched, a value
without one is read at the counter, which then moves by one; literal characters and `%%` leave
the counter alone; `parse` starts the counter at 0, and `"%2$s %s"` with the arguments `a`, `b`
gives `b a`. -/
theorem C8_sequential_counter (render : Backend) (args : List Arg) (fmt : List Char) (i : Nat)
    (out cf : List Char) (ai : Int) (tb : List Char) (sf1 : string_formatter)
    (h : string_formatter.parse_specifier render args ⟨fmt, i, out, cf, ai, tb⟩ = .ok sf1) :
    sf1.current_argument_index = ai + sequential_arguments (fmt.drop i) ∧
    (∀ index : Int,
      string_formatter.read_value render (some index) args ⟨fmt, i, out, cf, ai, tb⟩ =
        string_formatter.read_conversion render index args ⟨fmt, i, out, cf, ai, tb⟩) ∧
    string_formatter.read_value render none args ⟨fmt, i, out, cf, ai, tb⟩ =
      string_formatter.read_conversion render ai args ⟨fmt, i, out, cf, ai + 1, tb⟩ ∧
    (∀ fuel c r, fmt.drop i = c :: r → c ≠ '%' ∧ c ≠ NUL →
      string_formatter.parse_loop render args (fuel + 1) ⟨fmt, i, out, cf, ai, tb⟩ =
        string_formatter.parse_loop render args fuel ⟨fmt, i + 1, out ++ [c], cf, ai, tb⟩) ∧
    (∀ fuel r, fmt.drop i = '%' :: '%' :: r →
      string_formatter.parse_loop render args (fuel + 1) ⟨fmt, i, out, cf, ai, tb⟩ =
        string_formatter.parse_loop render args fuel
          ⟨fmt, i + 1 + 1, out ++ ['%'], cf, ai, tb⟩) ∧
    string_formatter.parse render args ⟨fmt, i, out, cf, ai, tb⟩ =
      string_formatter.parse_loop render args (fmt.length + 1) ⟨fmt, 0, [], cf, 0, tb⟩ ∧
    string_format printf_backend "%2$s %s".toList [.string ['a'], .string ['b']] =
      some "b a".toList := by
  refine ⟨?_, fun _ => rfl, rfl,
    fun fuel c r hd hc =>
      string_formatter.parse_loop_mk_char render args fuel c r hd hc out cf ai tb,
    fun fuel r hd =>
      string_formatter.parse_loop_mk_percent_percent render args fuel r hd out cf ai tb,
    rfl, rfl⟩
  rw [string_formatter.parse_specifier_mk] at h
  obtain ⟨j1, e1, d1⟩ := string_formatter.read_argument_index_mk fmt i out ['%'] ai tb
  rw [e1] at h
  dsimp only at h
  obtain ⟨j2, cf2, e2, d2⟩ := string_formatter.read_flags_mk_any fmt j1 out ['%'] ai tb
  rw [e2] at h
  obtain ⟨j3, cf3, index3, e3, d3⟩ :=
    string_formatter.read_number_or_argument_index_mk fmt j2 out cf2 ai tb
  unfold string_formatter.read_width at h
  rw [e3] at h
  cases hA : string_formatter.append_int_argument
      (index3, ⟨fmt, j3, out, cf3,
        ai + (if (strip_field (fmt.drop j2)).1 then 1 else 0), tb⟩) args with
  | error e => rw [hA] at h; exact absurd h (by simp)
  | ok sfa =>
    rw [hA] at h
    dsimp only at h
    obtain ⟨cfa, tba, ea⟩ := string_formatter.append_int_argument_mk hA
    subst ea
    obtain ⟨j4, cf4, index4, e4, d4⟩ := string_formatter.read_precision_mk fmt j3 out cfa
      (ai + (if (strip_field (fmt.drop j2)).1 then 1 else 0)) tba
    rw [e4] at h
    cases hB : string_formatter.append_int_argument
        (index4, ⟨fmt, j4, out, cf4,
          ai + (if (strip_field (fmt.drop j2)).1 then 1 else 0) +
            (if (strip_precision_field (fmt.drop j3)).1 then 1 else 0), tba⟩) args with
    | error e => rw [hB] at h; exact absurd h (by simp)
    | ok sfb =>
      rw [hB] at h
      dsimp only at h
      obtain ⟨cfb, tbb, eb⟩ := string_formatter.append_int_argument_mk hB
      subst eb
      rw [d2, d1] at d3
      rw [d2, d1] at h
      rw [d3] at h
      unfold sequential_arguments
      cases hs : (strip_argument_index (fmt.drop i)).1 with
      | none =>
        rw [hs] at h
        have := string_formatter.counter_read_conversion h
        rw [this]
        dsimp only
        simp only [Option.isNone_none, Option.isNone_some, ↓reduceIte, Bool.false_eq_true]
        split_ifs <;> simp <;> ring
      | some n =>
        rw [hs] at h
        have := string_formatter.counter_read_conversion h
        rw [this]
        dsimp only
        simp only [Option.isNone_none, Option.isNone_some, ↓reduceIte, Bool.false_eq_true]
        split_ifs <;> simp
        ring

/-- C8 at the first specifier of `"%2$s %s"` with the arguments `a`, `b`: the value has an
explicit index and the counter stays 0. -/
theorem C8_sequential_counter_witness :
    string_formatter.parse_specifier printf_backend [Arg.string ['a'], Arg.string ['b']]
      ⟨"%2$s %s".toList, 1, [], [], 0, []⟩ =
      .ok ⟨"%2$s %s".toList, 4, ['b'], ['%', 's'], 0, []⟩ ∧
    (0 : Int) = 0 + sequential_arguments ("%2$s %s".toList.drop 1) :=
  ⟨rfl, (C8_sequential_counter printf_backend [Arg.string ['a'], Arg.string ['b']]
    "%2$s %s".toList 1 [] [] 0 [] ⟨"%2$s %s".toList, 4, ['b'], ['%', 's'], 0, []⟩ rfl).1⟩

namespace string_formatter

/-! ## Specifiers of a known shape -/

/-- The text before a conversion letter holds no argument index when it holds no `$`. -/
theorem strip_argument_index_of_prefix (s : List Char) (c : Char) (r : List Char)
    (hs : '$' ∉ s) (hc : c ≠ '$') (hcd : is_digit c = false) :
    strip_argument_index (s ++ c :: r) = (none, s ++ c :: r) := by
  have key : ((s ++ c :: r).dropWhile is_digit).head? ≠ some '$' := by
    induction s with
    | nil =>
      rw [List.nil_append, List.dropWhile_cons_of_neg (by simp [hcd])]
      exact fun e => hc (Option.some.inj e)
    | cons a s ih =>
      by_cases ha : is_digit a = true
      · rw [List.cons_append, List.dropWhile_cons_of_pos ha]
        exact ih (fun hm => hs (List.mem_cons_of_mem a hm))
      · rw [List.cons_append, List.dropWhile_cons_of_neg ha]
        exact fun e => hs (by rw [← Option.some.inj e]; exact List.mem_cons_self a s)
  unfold strip_argument_index
  rw [if_neg (fun h => key h.2)]

theorem read_argument_index_mk_of_prefix {fmt : List Char} {i : Nat} (s : List Char) (c : Char)
    (r : List Char) (hs : '$' ∉ s) (hc : c ≠ '$') (hcd : is_digit c = false)
    (h : fmt.drop i = s ++ c :: r) (out cf : List Char) (ai : Int) (tb : List Char) :
    read_argument_index ⟨fmt, i, out, cf, ai, tb⟩ = (none, ⟨fmt, i, out, cf, ai, tb⟩) := by
  obtain ⟨j, e, _⟩ := read_argument_index_mk fmt i out cf ai tb
  rw [h, strip_argument_index_of_prefix s c r hs hc hcd] at e
  unfold read_argument_index at e ⊢
  split
  · split
    · next hd hdollar =>
      rw [if_pos hd, if_pos hdollar] at e
      exact absurd (congrArg Prod.fst e) (by simp)
    · rfl
  · rfl

theorem not_dollar_of_is_flag {c : Char} (h : is_flag c = true) : c ≠ '$' := by
  intro e
  rw [e] at h
  exact absurd h (by decide)

theorem not_dollar_of_is_digit {c : Char} (h : is_digit c = true) : c ≠ '$' := by
  intro e
  rw [e] at h
  exact absurd h (by decide)

/-- The letter that ends `current_format` gets `ll` in front. -/
theorem add_long_long_length_modifier_mk (fmt : List Char) (i : Nat) (out cf : List Char)
    (c : Char) (ai : Int) (tb : List Char) :
    add_long_long_length_modifier ⟨fmt, i, out, cf ++ [c], ai, tb⟩ =
      ⟨fmt, i, out, cf ++ ['l', 'l', c], ai, tb⟩ := by
  unfold add_long_long_length_modifier
  simp

/-- A specifier made of flags, a literal width and a conversion letter: the letter is
dispatched with the next sequential argument and the sub-format read so far. -/
theorem parse_specifier_mk_flags_width (render : Backend) (args : List Arg)
    (fl ds : List Char) (c : Char) (r : List Char) (hfl : ∀ x ∈ fl, is_flag x = true)
    (hds : ∀ x ∈ ds, is_digit x = true) (hhead : is_flag ((ds ++ [c]).headD NUL) = false)
    (hcd : is_digit c = false) (hstar : c ≠ '*') (hdot : c ≠ '.') (hdollar : c ≠ '$')
    (hl : c ≠ 'l') (hh : c ≠ 'h') (hz : c ≠ 'z') (ht : c ≠ 't')
    {fmt : List Char} {i : Nat} (h : fmt.drop i = fl ++ (ds ++ c :: r))
    (out cf : List Char) (ai : Int) (tb : List Char) :
    parse_specifier render args ⟨fmt, i, out, cf, ai, tb⟩ =
      dispatch_conversion render c ai args
        ⟨fmt, i + fl.length + ds.length + 1, out, ['%'] ++ fl ++ ds ++ [c], ai + 1, tb⟩ := by
  have hno : '$' ∉ fl ++ ds := by
    intro hm
    rcases List.mem_append.mp hm with hm | hm
    · exact not_dollar_of_is_flag (hfl _ hm) rfl
    · exact not_dollar_of_is_digit (hds _ hm) rfl
  have h0 : fmt.drop i = (fl ++ ds) ++ c :: r := by rw [h, List.append_assoc]
  have h1 : fmt.drop (i + fl.length) = ds ++ c :: r := drop_add_of_drop fl _ h
  have h2 : fmt.drop (i + fl.length + ds.length) = c :: r := drop_add_of_drop ds _ h1
  have hhead1 : is_flag ((ds ++ c :: r).headD NUL) = false := by
    cases ds with
    | nil => exact hhead
    | cons d ds => exact hhead
  rw [parse_specifier_mk, read_argument_index_mk_of_prefix (fl ++ ds) c r hno hdollar hcd h0]
  dsimp only
  rw [read_flags_mk fl (ds ++ c :: r) hfl hhead1 h,
    read_width_mk_digits ds (c :: r) hds hcd hstar h1, append_int_argument_mk_none]
  dsimp only
  rw [read_precision_mk_none (by rw [h2]; exact hdot), append_int_argument_mk_none]
  dsimp only
  rw [read_value_mk_none, read_conversion_mk render ai args c r h2 hl hh hz ht]

/-- A specifier made of a literal precision and a conversion letter. -/
theorem parse_specifier_mk_precision (render : Backend) (args : List Arg)
    (ps : List Char) (c : Char) (r : List Char) (hps : ∀ x ∈ ps, is_digit x = true)
    (hcd : is_digit c = false) (hstar : c ≠ '*') (hdollar : c ≠ '$')
    (hl : c ≠ 'l') (hh : c ≠ 'h') (hz : c ≠ 'z') (ht : c ≠ 't')
    {fmt : List Char} {i : Nat} (h : fmt.drop i = '.' :: (ps ++ c :: r))
    (out cf : List Char) (ai : Int) (tb : List Char) :
    parse_specifier render args ⟨fmt, i, out, cf, ai, tb⟩ =
      dispatch_conversion render c ai args
        ⟨fmt, i + 1 + ps.length + 1, out, ['%'] ++ ['.'] ++ ps ++ [c], ai + 1, tb⟩ := by
  have hno : '$' ∉ '.' :: ps := by
    intro hm
    rcases List.mem_cons.mp hm with hm | hm
    · exact absurd hm (by decide)
    · exact not_dollar_of_is_digit (hps _ hm) rfl
  have h0 : fmt.drop i = ('.' :: ps) ++ c :: r := h
  have h1 : fmt.drop (i + 1 + ps.length) = c :: r :=
    drop_add_of_drop ps _ (drop_succ_of_drop h)
  rw [parse_specifier_mk, read_argument_index_mk_of_prefix ('.' :: ps) c r hno hdollar hcd h0]
  dsimp only
  rw [read_flags_mk_none (by rw [h]; rfl),
    read_width_mk_none (by rw [h]; rfl) (by rw [h]; show '.' ≠ '*'; decide),
    append_int_argument_mk_none]
  dsimp only
  rw [read_precision_mk_digits ps (c :: r) hps hcd hstar h, append_int_argument_mk_none]
  dsimp only
  rw [read_value_mk_none, read_conversion_mk render ai args c r h1 hl hh hz ht]

/-- The fetch of a `*` argument, on a formatter given by its members. -/
theorem append_int_argument_mk_some (index : Int) (args : List Arg) (fmt : List Char)
    (i : Nat) (out cf : List Char) (ai : Int) (tb : List Char) :
    append_int_argument (some index, ⟨fmt, i, out, cf, ai, tb⟩) args =
      match get_nth_arg_as .int_ tb 0 (to_unsigned index) args with
      | .ok (w, tb1) => .ok ⟨fmt, i, out, cf ++ to_string (value_int w), ai, tb1⟩
      | .error e => .error e :=
  rfl

end string_formatter

namespace string_formatter

/-- A specifier `*` and a conversion letter: the width is the next sequential argument, taken
as `int`, and the value is the argument after it. -/
theorem parse_specifier_mk_star_width (render : Backend) (args : List Arg)
    (c : Char) (r : List Char) (hcd : is_digit c = false) (hdot : c ≠ '.')
    (hdollar : c ≠ '$') (hl : c ≠ 'l') (hh : c ≠ 'h') (hz : c ≠ 'z') (ht : c ≠ 't')
    {fmt : List Char} {i : Nat} (h : fmt.drop i = '*' :: c :: r)
    (out cf : List Char) (ai : Int) (tb : List Char) :
    parse_specifier render args ⟨fmt, i, out, cf, ai, tb⟩ =
      match get_nth_arg_as .int_ tb 0 (to_unsigned ai) args with
      | .ok (w, tb1) =>
        dispatch_conversion render c (ai + 1) args
          ⟨fmt, i + 1 + 1, out, ['%'] ++ to_string (value_int w) ++ [c], ai + 1 + 1, tb1⟩
      | .error e => .error e := by
  have h0 : fmt.drop i = ['*'] ++ c :: r := h
  have h1 : fmt.drop (i + 1) = c :: r := drop_succ_of_drop h
  rw [parse_specifier_mk,
    read_argument_index_mk_of_prefix ['*'] c r (by decide) hdollar hcd h0]
  dsimp only
  rw [read_flags_mk_none (by rw [h]; rfl)]
  unfold read_width
  rw [read_number_or_argument_index_mk_star (c :: r) hcd h, append_int_argument_mk_some]
  cases get_nth_arg_as .int_ tb 0 (to_unsigned ai) args with
  | error e => rfl
  | ok p =>
    dsimp only
    rw [read_precision_mk_none (by rw [h1]; exact hdot), append_int_argument_mk_none]
    dsimp only
    rw [read_value_mk_none, read_conversion_mk render (ai + 1) args c r h1 hl hh hz ht]

/-- A specifier `.*` and a conversion letter: the precision is the next sequential argument,
taken as `int`, and the value is the argument after it. -/
theorem parse_specifier_mk_star_precision (render : Backend) (args : List Arg)
    (c : Char) (r : List Char) (hcd : is_digit c = false)
    (hdollar : c ≠ '$') (hl : c ≠ 'l') (hh : c ≠ 'h') (hz : c ≠ 'z') (ht : c ≠ 't')
    {fmt : List Char} {i : Nat} (h : fmt.drop i = '.' :: '*' :: c :: r)
    (out cf : List Char) (ai : Int) (tb : List Char) :
    parse_specifier render args ⟨fmt, i, out, cf, ai, tb⟩ =
      match get_nth_arg_as .int_ tb 0 (to_unsigned ai) args with
      | .ok (p, tb1) =>
        dispatch_conversion render c (ai + 1) args
          ⟨fmt, i + 1 + 1 + 1, out, ['%'] ++ ['.'] ++ to_string (value_int p) ++ [c],
            ai + 1 + 1, tb1⟩
      | .error e => .error e := by
  have h0 : fmt.drop i = ['.', '*'] ++ c :: r := h
  have h2 : fmt.drop (i + 1 + 1) = c :: r := drop_succ_of_drop (drop_succ_of_drop h)
  rw [parse_specifier_mk,
    read_argument_index_mk_of_prefix ['.', '*'] c r (by decide) hdollar hcd h0]
  dsimp only
  rw [read_flags_mk_none (by rw [h]; rfl),
    read_width_mk_none (by rw [h]; rfl) (by rw [h]; show '.' ≠ '*'; decide),
    append_int_argument_mk_none]
  dsimp only
  rw [read_precision_mk_star (c :: r) hcd h, append_int_argument_mk_some]
  cases get_nth_arg_as .int_ tb 0 (to_unsigned ai) args with
  | error e => rfl
  | ok p =>
    dsimp only
    rw [read_value_mk_none, read_conversion_mk render (ai + 1) args c r h2 hl hh hz ht]

end string_formatter

namespace string_formatter

/-! ## Formats that hold one specifier -/

theorem format_nth_arg_mk (render : Backend) (rt : Requested) (index : Int) (args : List Arg)
    (fmt : List Char) (i : Nat) (out cf : List Char) (ai : Int) (tb : List Char) :
    format_nth_arg render rt index args ⟨fmt, i, out, cf, ai, tb⟩ =
      match get_nth_arg_as rt tb 0 (to_unsigned index) args with
      | .ok (value, tb1) =>
        match render cf value with
        | some text => .ok ⟨fmt, i, out ++ text, cf, ai, tb1⟩
        | none => .error (.BackendFormattingFailure cf)
      | .error e => .error e := by
  unfold format_nth_arg do_formating
  cases get_nth_arg_as rt tb 0 (to_unsigned index) args with
  | error e => rfl
  | ok p => rfl

theorem dispatch_conversion_d (render : Backend) (index : Int) (args : List Arg)
    (fmt : List Char) (i : Nat) (out cf : List Char) (ai : Int) (tb : List Char) :
    dispatch_conversion render 'd' index args ⟨fmt, i, out, cf ++ ['d'], ai, tb⟩ =
      format_nth_arg render .signed_long_long index args
        ⟨fmt, i, out, cf ++ ['l', 'l', 'd'], ai, tb⟩ := by
  have e : dispatch_conversion render 'd' index args ⟨fmt, i, out, cf ++ ['d'], ai, tb⟩ =
      format_nth_arg render .signed_long_long index args
        (add_long_long_length_modifier ⟨fmt, i, out, cf ++ ['d'], ai, tb⟩) := rfl
  rw [e, add_long_long_length_modifier_mk]

theorem dispatch_conversion_f (render : Backend) (index : Int) (args : List Arg)
    (sf : string_formatter) :
    dispatch_conversion render 'f' index args sf =
      format_nth_arg render .double_ index args sf :=
  rfl

end string_formatter

/-- A format that is one specifier, which ends in formatting one argument: the result of
`format_strict` is the rendering of that argument. -/
theorem format_strict_single (render : Backend) (args : List Arg) (t : List Char)
    (rt : Requested) (index : Int) (j : Nat) (cf : List Char) (ai : Int) (a : Arg)
    (hhead : t.headD NUL ≠ '%')
    (hspec : string_formatter.parse_specifier render args ⟨'%' :: t, 0 + 1, [], [], 0, []⟩ =
      string_formatter.format_nth_arg render rt index args ⟨'%' :: t, j, [], cf, ai, []⟩)
    (hj : ('%' :: t).drop j = [])
    (hget : get_nth_arg_as rt [] 0 (to_unsigned index) args = convert rt [] a) :
    format_strict render ('%' :: t) args = some (render_argument render rt cf a) := by
  have h0 : ('%' :: t).drop 0 = '%' :: t := rfl
  unfold format_strict string_formatter.parse
  dsimp only
  rw [string_formatter.parse_loop_mk_specifier render args _ t h0 hhead, hspec,
    string_formatter.format_nth_arg_mk, hget]
  unfold render_argument
  cases convert rt [] a with
  | error e => rfl
  | ok p =>
    dsimp only
    cases render cf p.1 with
    | none => rfl
    | some text =>
      dsimp only
      rw [List.length_cons, string_formatter.parse_loop_mk_end render args _ hj]
      simp [string_formatter.get_output]

/-- `string_format` in terms of `format_strict`. -/
theorem string_format_eq (render : Backend) (format : List Char) (args : List Arg) :
    string_format render format args =
      (format_strict render format args).map (fun r =>
        match r with
        | .ok output => output
        | .error e => handle_string_format_error e format) := by
  unfold string_format format_strict
  cases string_formatter.parse render args { format := format } with
  | none => rfl
  | some r =>
    cases r with
    | error e => rfl
    | ok formatter => rfl

theorem is_flag_of_is_digit {c : Char} (hd : is_digit c = true) (h0 : c ≠ '0') :
    string_formatter.is_flag c = false := by
  by_contra hf
  have hf1 : string_formatter.is_flag c = true := by simpa using hf
  unfold string_formatter.is_flag at hf1
  simp only [Bool.or_eq_true, decide_eq_true_eq] at hf1
  rcases hf1 with (((h | h) | h) | h) | h
  · rw [h] at hd; exact absurd hd (by decide)
  · rw [h] at hd; exact absurd hd (by decide)
  · rw [h] at hd; exact absurd hd (by decide)
  · exact h0 h
  · rw [h] at hd; exact absurd hd (by decide)

/-- The decimal text of an integer is a run of flags (`-`, or the `0` of zero) followed by a
run of digits that does not start with a flag. -/
theorem to_string_split (w : Int) :
    ∃ fl ds, to_string w = fl ++ ds ∧ (∀ x ∈ fl, string_formatter.is_flag x = true) ∧
      (∀ x ∈ ds, is_digit x = true) ∧
      ∀ c, string_formatter.is_flag c = false →
        string_formatter.is_flag ((ds ++ [c]).headD NUL) = false := by
  by_cases hneg : w < 0
  · obtain ⟨c0, r0, e0, hc0, hd0⟩ := nat_to_string_head w.natAbs (by omega)
    refine ⟨['-'], nat_to_string w.natAbs, by simp [to_string, hneg], by decide,
      is_digit_of_mem_nat_to_string _, fun c _ => ?_⟩
    rw [e0]
    exact is_flag_of_is_digit hd0 hc0
  · by_cases hzero : w = 0
    · subst hzero
      exact ⟨['0'], [], by decide, by decide, by simp, fun c hc => hc⟩
    · obtain ⟨c0, r0, e0, hc0, hd0⟩ := nat_to_string_head w.natAbs (by omega)
      refine ⟨[], nat_to_string w.natAbs, by simp [to_string, hneg], by simp,
        is_digit_of_mem_nat_to_string _, fun c _ => ?_⟩
      rw [e0]
      exact is_flag_of_is_digit hd0 hc0

/-- The format `%`, a literal width `w`, `d`: the sub-format given to the rendering primitive
is `%`, the width, `lld`, and the value is the first argument. -/
theorem format_strict_literal_width (render : Backend) (w : Int) (a : Arg) (rest : List Arg) :
    format_strict render ('%' :: (to_string w ++ ['d'])) (a :: rest) =
      some (render_argument render .signed_long_long
        ('%' :: (to_string w ++ ['l', 'l', 'd'])) a) := by
  obtain ⟨fl, ds, hsplit, hfl, hds, hhead⟩ := to_string_split w
  have hd : ('%' :: (to_string w ++ ['d'])).drop (0 + 1) = fl ++ (ds ++ 'd' :: []) := by
    simp [hsplit]
  have hspec := string_formatter.parse_specifier_mk_flags_width render (a :: rest) fl ds 'd' []
    hfl hds (hhead 'd' (by decide)) (by decide) (by decide) (by decide) (by decide) (by decide)
    (by decide) (by decide) (by decide) hd [] [] 0 []
  have hcf : ['%'] ++ fl ++ ds ++ ['d'] = ('%' :: to_string w) ++ ['d'] := by simp [hsplit]
  rw [hcf, string_formatter.dispatch_conversion_d] at hspec
  have hcf2 : ('%' :: to_string w) ++ ['l', 'l', 'd'] = '%' :: (to_string w ++ ['l', 'l', 'd']) :=
    rfl
  rw [hcf2] at hspec
  refine format_strict_single render (a :: rest) (to_string w ++ ['d']) .signed_long_long 0
    (0 + 1 + fl.length + ds.length + 1) _ (0 + 1) a ?_ hspec ?_ rfl
  · rw [hsplit]
    cases fl with
    | nil =>
      have := hhead 'd' (by decide)
      rw [List.nil_append]
      cases ds with
      | nil => decide
      | cons x ds =>
        intro e
        have e1 : x = '%' := e
        rw [e1] at hds
        exact absurd (hds '%' (List.mem_cons_self _ _)) (by decide)
    | cons x fl =>
      intro e
      have e1 : x = '%' := e
      rw [e1] at hfl
      exact absurd (hfl '%' (List.mem_cons_self _ _)) (by decide)
  · rw [List.drop_eq_nil_iff]
    simp [hsplit]
    omega

/-- The format `%*d`: the sub-format given to the rendering primitive is `%`, the decimal text
of the first argument narrowed to `int`, `lld`, and the value is the second argument. -/
theorem format_strict_star_width (render : Backend) (wa a : Arg) (rest : List Arg)
    (hwa : wa.is_integer = true ∨ wa.is_enum = true) :
    format_strict render "%*d".toList (wa :: a :: rest) =
      some (render_argument render .signed_long_long
        ('%' :: (to_string (to_int wa.int_value) ++ ['l', 'l', 'd'])) a) := by
  have hconv : convert .int_ [] wa = .ok (.int_ (to_int wa.int_value), []) := by
    rcases hwa with h | h
    · simp [convert, Requested.is_integer, integer_cast, h]
    · simp [convert, Requested.is_integer, integer_cast, h]
  have hd : "%*d".toList.drop (0 + 1) = '*' :: 'd' :: [] := rfl
  have hspec := string_formatter.parse_specifier_mk_star_width render (wa :: a :: rest) 'd' []
    (by decide) (by decide) (by decide) (by decide) (by decide) (by decide) (by decide)
    hd [] [] 0 []
  have hget : get_nth_arg_as .int_ [] 0 (to_unsigned 0) (wa :: a :: rest) =
      .ok (.int_ (to_int wa.int_value), []) := hconv
  rw [hget] at hspec
  dsimp only [string_formatter.value_int] at hspec
  rw [string_formatter.dispatch_conversion_d] at hspec
  exact format_strict_single render (wa :: a :: rest) "*d".toList .signed_long_long (0 + 1)
    (0 + 1 + 1 + 1) _ (0 + 1 + 1) a (by decide) hspec rfl rfl

/-! ## The reference rendering of `%lld` with a width -/

/-- The parts of the sub-format `%`, flags, width digits, `lld`. -/
theorem parse_sub_format_lld (fl ds : List Char) (hfl : ∀ x ∈ fl, string_formatter.is_flag x = true)
    (hds : ∀ x ∈ ds, is_digit x = true)
    (hhead : string_formatter.is_flag ((ds ++ ['l']).headD NUL) = false) :
    parse_sub_format ('%' :: (fl ++ ds ++ ['l', 'l', 'd'])) =
      some ⟨fl, digits_value ds, none, 'd'⟩ := by
  have hrest : (ds ++ ['l', 'l', 'd']).takeWhile string_formatter.is_flag = [] ∧
      (ds ++ ['l', 'l', 'd']).dropWhile string_formatter.is_flag = ds ++ ['l', 'l', 'd'] := by
    cases ds with
    | nil => exact ⟨rfl, rfl⟩
    | cons x ds =>
      have hx : ¬ string_formatter.is_flag x = true := by
        have : string_formatter.is_flag x = false := hhead
        simp [this]
      exact ⟨List.takeWhile_cons_of_neg hx, List.dropWhile_cons_of_neg hx⟩
  have h1 : (fl ++ ds ++ ['l', 'l', 'd']).takeWhile string_formatter.is_flag = fl := by
    rw [List.append_assoc, List.takeWhile_append_of_pos hfl, hrest.1, List.append_nil]
  have h2 : (fl ++ ds ++ ['l', 'l', 'd']).dropWhile string_formatter.is_flag =
      ds ++ ['l', 'l', 'd'] := by
    rw [List.append_assoc, List.dropWhile_append_of_pos hfl, hrest.2]
  have h3 : (ds ++ ['l', 'l', 'd']).takeWhile is_digit = ds := by
    rw [List.takeWhile_append_of_pos hds]
    simp [List.takeWhile, is_digit]
  have h4 : (ds ++ ['l', 'l', 'd']).dropWhile is_digit = ['l', 'l', 'd'] := by
    rw [List.dropWhile_append_of_pos hds]
    simp [List.dropWhile, is_digit]
  unfold parse_sub_format
  dsimp only
  rw [if_pos rfl]
  unfold after_width
  rw [h1, h2, h3, h4]
  rfl

/-- The reference rendering of a `signed long long` with the width `w` from the decimal text of
`w`: right-justified for `w >= 0`, left-justified in `-w` characters for `w < 0`. -/
theorem printf_backend_lld_width (w x : Int) :
    printf_backend ('%' :: (to_string w ++ ['l', 'l', 'd'])) (.signed_long_long x) =
      some (if w < 0 then to_string x ++ List.replicate (w.natAbs - (to_string x).length) ' '
        else List.replicate (w.natAbs - (to_string x).length) ' ' ++ to_string x) := by
  have hsign : ∀ f : SubFormat, '+' ∉ f.flags → ' ' ∉ f.flags →
      sign_text f (decide (x < 0)) ++ nat_to_string x.natAbs = to_string x := by
    intro f h1 h2
    unfold sign_text to_string
    by_cases hx : x < 0
    · simp [hx]
    · simp [hx, h1, h2]
  have hlen : ∀ f : SubFormat, '+' ∉ f.flags → ' ' ∉ f.flags →
      (sign_text f (decide (x < 0))).length + (nat_to_string x.natAbs).length =
        (to_string x).length := by
    intro f h1 h2
    rw [← hsign f h1 h2, List.length_append]
  unfold printf_backend
  by_cases hneg : w < 0
  · have e : '%' :: (to_string w ++ ['l', 'l', 'd']) =
        '%' :: (['-'] ++ nat_to_string w.natAbs ++ ['l', 'l', 'd']) := by
      simp [to_string, hneg]
    obtain ⟨c0, r0, e0, hc0, hd0⟩ := nat_to_string_head w.natAbs (by omega)
    rw [e, parse_sub_format_lld ['-'] (nat_to_string w.natAbs) (by decide)
      (is_digit_of_mem_nat_to_string _) (by rw [e0]; exact is_flag_of_is_digit hd0 hc0)]
    dsimp only
    rw [if_pos hneg, digits_value_nat_to_string]
    unfold render_signed render_integer pad_field integer_body
    have h1 := hsign ⟨['-'], w.natAbs, none, 'd'⟩ (by simp) (by simp)
    have h2 := hlen ⟨['-'], w.natAbs, none, 'd'⟩ (by simp) (by simp)
    simp [h1, h2]
  · by_cases hzero : w = 0
    · subst hzero
      have e : '%' :: (to_string 0 ++ ['l', 'l', 'd']) = '%' :: (['0'] ++ [] ++ ['l', 'l', 'd']) :=
        by decide
      have e2 : digits_value [] = 0 := rfl
      rw [e, parse_sub_format_lld ['0'] [] (by decide) (by simp) (by decide), e2]
      dsimp only
      rw [if_neg hneg]
      unfold render_signed render_integer pad_field integer_body
      have h1 := hsign ⟨['0'], 0, none, 'd'⟩ (by simp) (by simp)
      simp [h1]
    · have e : '%' :: (to_string w ++ ['l', 'l', 'd']) =
          '%' :: ([] ++ nat_to_string w.natAbs ++ ['l', 'l', 'd']) := by
        simp [to_string, hneg]
      obtain ⟨c0, r0, e0, hc0, hd0⟩ := nat_to_string_head w.natAbs (by omega)
      rw [e, parse_sub_format_lld [] (nat_to_string w.natAbs) (by simp)
        (is_digit_of_mem_nat_to_string _) (by rw [e0]; exact is_flag_of_is_digit hd0 hc0)]
      dsimp only
      rw [if_neg hneg, digits_value_nat_to_string]
      unfold render_signed render_integer pad_field integer_body
      have h1 := hsign ⟨[], w.natAbs, none, 'd'⟩ (by simp) (by simp)
      have h2 := hlen ⟨[], w.natAbs, none, 'd'⟩ (by simp) (by simp)
      simp [h1, h2]

/-! ## Width and precision from an argument -/

theorem to_int_of_range {w : Int} (h1 : -2147483648 ≤ w) (h2 : w < 2147483648) :
    to_int w = w := by
  unfold to_int
  omega

theorem render_argument_lld_width (w v : Int) :
    render_argument printf_backend .signed_long_long ('%' :: (to_string w ++ ['l', 'l', 'd']))
        (.sint v) =
      .ok (if w < 0 then
          to_string (to_sll v) ++ List.replicate (w.natAbs - (to_string (to_sll v)).length) ' '
        else
          List.replicate (w.natAbs - (to_string (to_sll v)).length) ' ' ++ to_string (to_sll v)) := by
  have hc : convert .signed_long_long [] (.sint v) = .ok (.signed_long_long (to_sll v), []) :=
    rfl
  unfold render_argument
  rw [hc]
  dsimp only
  rw [printf_backend_lld_width]

/-- The reference rendering of `%`, a literal width, `d` on a signed integer argument. -/
theorem string_format_literal_width (w v : Int) :
    string_format printf_backend ('%' :: (to_string w ++ ['d'])) [.sint v] =
      some (if w < 0 then
          to_string (to_sll v) ++ List.replicate (w.natAbs - (to_string (to_sll v)).length) ' '
        else
          List.replicate (w.natAbs - (to_string (to_sll v)).length) ' ' ++ to_string (to_sll v)) := by
  rw [string_format_eq, format_strict_literal_width, render_argument_lld_width]
  rfl

/-- The reference rendering of `%*d` on an integer width and a signed integer value. -/
theorem string_format_star_width (wa : Arg) (v : Int)
    (hwa : wa.is_integer = true ∨ wa.is_enum = true) :
    string_format printf_backend "%*d".toList [wa, .sint v] =
      some (if to_int wa.int_value < 0 then
          to_string (to_sll v) ++
            List.replicate ((to_int wa.int_value).natAbs - (to_string (to_sll v)).length) ' '
        else
          List.replicate ((to_int wa.int_value).natAbs - (to_string (to_sll v)).length) ' ' ++
            to_string (to_sll v)) := by
  rw [string_format_eq, format_strict_star_width printf_backend wa (.sint v) [] hwa,
    render_argument_lld_width]
  rfl

/-- C9, as the code has it: for a width argument in the range of `int`, `"%*d"` gives the
rendering primitive the same sub-format (`%`, the decimal text of the width, `lld`) and the same
value as the format with the width written out, so `format_strict` gives the same result; with
the reference rendering primitive and an integer value `string_format` gives the same text,
which for a width `w >= 0` is the value right-justified in `w` characters; `"%*d"` with 5 and 3
gives four spaces and `3`.  A `char` as width argument counts with its sign-extended value:
the byte 200 gives the sub-format `%-56lld`. -/
theorem C9_star_width (render : Backend) (wa a : Arg)
    (hwa : (wa.is_integer = true ∨ wa.is_enum = true) ∧
      -2147483648 ≤ wa.int_value ∧ wa.int_value < 2147483648) :
    format_strict render "%*d".toList [wa, a] =
      format_strict render ('%' :: (to_string wa.int_value ++ ['d'])) [a] ∧
    format_strict render "%*d".toList [wa, a] =
      some (render_argument render .signed_long_long
        ('%' :: (to_string wa.int_value ++ ['l', 'l', 'd'])) a) ∧
    (∀ v : Int, string_format printf_backend "%*d".toList [wa, .sint v] =
      string_format printf_backend ('%' :: (to_string wa.int_value ++ ['d'])) [.sint v]) ∧
    (0 ≤ wa.int_value → ∀ v : Int,
      string_format printf_backend "%*d".toList [wa, .sint v] =
        some (List.replicate (wa.int_value.toNat - (to_string (to_sll v)).length) ' ' ++
          to_string (to_sll v))) ∧
    string_format printf_backend "%*d".toList [.sint 5, .sint 3] = some "    3".toList ∧
    format_strict echo_backend "%*d".toList [.character (Char.ofNat 200), .sint 3] =
      some (.ok "<%-56lld:3>".toList) := by
  obtain ⟨hint, h1, h2⟩ := hwa
  have hw := to_int_of_range h1 h2
  have hl := format_strict_star_width render wa a [] hint
  rw [hw] at hl
  refine ⟨?_, hl, ?_, ?_, rfl, rfl⟩
  · rw [hl, format_strict_literal_width]
  · intro v
    rw [string_format_star_width wa v hint, string_format_literal_width, hw]
  · intro h0 v
    rw [string_format_star_width wa v hint, hw, if_neg (by omega)]
    have e : wa.int_value.natAbs = wa.int_value.toNat := by omega
    rw [e]

/-- C9 at the width 5 and the value 3. -/
theorem C9_star_width_witness :
    (((Arg.sint 5).is_integer = true ∨ (Arg.sint 5).is_enum = true) ∧
      -2147483648 ≤ (Arg.sint 5).int_value ∧ (Arg.sint 5).int_value < 2147483648) ∧
    format_strict printf_backend "%*d".toList [.sint 5, .sint 3] =
      format_strict printf_backend "%5d".toList [.sint 3] :=
  ⟨⟨Or.inl rfl, by decide, by decide⟩,
    (C9_star_width printf_backend (.sint 5) (.sint 3)
      ⟨Or.inl rfl, by decide, by decide⟩).1⟩

/-- C9 as stated fails for a width outside the range of `int`: the width argument
`4294967301` is narrowed to 5, so `"%*d"` gives four spaces and `3`, while the format with the
width written out gives a field of 4294967301 characters. -/
theorem C9_counterexample_wide_width :
    string_format printf_backend "%*d".toList [.sint 4294967301, .sint 3] =
      some "    3".toList ∧
    "%4294967301d".toList = '%' :: (to_string 4294967301 ++ ['d']) ∧
    string_format printf_backend "%4294967301d".toList [.sint 3] ≠
      string_format printf_backend "%*d".toList [.sint 4294967301, .sint 3] := by
  have hl : string_format printf_backend "%*d".toList [.sint 4294967301, .sint 3] =
      some "    3".toList := rfl
  have he : "%4294967301d".toList = '%' :: (to_string 4294967301 ++ ['d']) := by decide
  refine ⟨hl, he, ?_⟩
  rw [hl, he, string_format_literal_width, if_neg (by decide)]
  intro h
  have hlen := congrArg List.length (Option.some.inj h)
  rw [List.length_append, List.length_replicate] at hlen
  have e1 : (to_string (to_sll 3)).length = 1 := by decide
  have e2 : (4294967301 : Int).natAbs = 4294967301 := by decide
  have e3 : "    3".toList.length = 5 := by decide
  rw [e1, e2, e3] at hlen
  omega

/-- The format `%.`, a literal precision `p`, `f`: the sub-format given to the rendering
primitive is the format itself, and the value is the first argument. -/
theorem format_strict_literal_precision (render : Backend) (p : Nat) (a : Arg)
    (rest : List Arg) :
    format_strict render ('%' :: '.' :: (nat_to_string p ++ ['f'])) (a :: rest) =
      some (render_argument render .double_ ('%' :: '.' :: (nat_to_string p ++ ['f'])) a) := by
  have hd : ('%' :: '.' :: (nat_to_string p ++ ['f'])).drop (0 + 1) =
      '.' :: (nat_to_string p ++ 'f' :: []) := rfl
  have hspec := string_formatter.parse_specifier_mk_precision render (a :: rest)
    (nat_to_string p) 'f' [] (is_digit_of_mem_nat_to_string p) (by decide) (by decide)
    (by decide) (by decide) (by decide) (by decide) (by decide) hd [] [] 0 []
  rw [string_formatter.dispatch_conversion_f] at hspec
  have hcf : ['%'] ++ ['.'] ++ nat_to_string p ++ ['f'] =
      '%' :: '.' :: (nat_to_string p ++ ['f']) := by simp
  rw [hcf] at hspec
  refine format_strict_single render (a :: rest) ('.' :: (nat_to_string p ++ ['f'])) .double_ 0
    (0 + 1 + 1 + (nat_to_string p).length + 1) _ (0 + 1) a (by show '.' ≠ '%'; decide) hspec
    ?_ rfl
  rw [List.drop_eq_nil_iff]
  simp
  omega

/-- The format `%.*f`: the sub-format given to the rendering primitive is `%.`, the decimal
text of the first argument narrowed to `int`, `f`, and the value is the second argument. -/
theorem format_strict_star_precision (render : Backend) (pa a : Arg) (rest : List Arg)
    (hpa : pa.is_integer = true ∨ pa.is_enum = true) :
    format_strict render "%.*f".toList (pa :: a :: rest) =
      some (render_argument render .double_
        ('%' :: '.' :: (to_string (to_int pa.int_value) ++ ['f'])) a) := by
  have hconv : convert .int_ [] pa = .ok (.int_ (to_int pa.int_value), []) := by
    rcases hpa with h | h
    · simp [convert, Requested.is_integer, integer_cast, h]
    · simp [convert, Requested.is_integer, integer_cast, h]
  have hd : "%.*f".toList.drop (0 + 1) = '.' :: '*' :: 'f' :: [] := rfl
  have hspec := string_formatter.parse_specifier_mk_star_precision render (pa :: a :: rest)
    'f' [] (by decide) (by decide) (by decide) (by decide) (by decide) (by decide)
    hd [] [] 0 []
  have hget : get_nth_arg_as .int_ [] 0 (to_unsigned 0) (pa :: a :: rest) =
      .ok (.int_ (to_int pa.int_value), []) := hconv
  rw [hget] at hspec
  dsimp only [string_formatter.value_int] at hspec
  rw [string_formatter.dispatch_conversion_f] at hspec
  exact format_strict_single render (pa :: a :: rest) ".*f".toList .double_ (0 + 1)
    (0 + 1 + 1 + 1 + 1) _ (0 + 1 + 1) a (by decide) hspec rfl rfl

theorem to_string_of_nonneg {p : Int} (h : 0 ≤ p) : to_string p = nat_to_string p.toNat := by
  unfold to_string
  rw [if_neg (by omega)]
  congr 1
  omega

/-- C10, as the code has it: for a precision argument with `0 <= p < 2^31`, `"%.*f"` gives
the rendering primitive the same sub-format (`%.`, the decimal text of `p`, `f`) and the same
value, the second argument converted to `double`, as the format with the precision written
out; a floating point argument is handed over as it is; `"%.*f"` with 2 and 3.14159 gives
`3.14` with the reference rendering primitive.  A `char` as precision argument counts with
its sign-extended value, so the byte 200 is outside this range: it gives the sub-format
`%.-56f`. -/
theorem C10_star_precision (render : Backend) (pa a : Arg)
    (hpa : (pa.is_integer = true ∨ pa.is_enum = true) ∧
      0 ≤ pa.int_value ∧ pa.int_value < 2147483648) :
    format_strict render "%.*f".toList [pa, a] =
      format_strict render ('%' :: '.' :: (nat_to_string pa.int_value.toNat ++ ['f'])) [a] ∧
    format_strict render "%.*f".toList [pa, a] =
      some (render_argument render .double_
        ('%' :: '.' :: (nat_to_string pa.int_value.toNat ++ ['f'])) a) ∧
    (∀ d : Double, convert .double_ [] (.floating d) = .ok (.double_ d, [])) ∧
    string_format printf_backend "%.*f".toList
        [.sint 2, .floating ⟨false, 7074231776675438, -51⟩] = some "3.14".toList ∧
    format_strict echo_backend "%.*f".toList
        [.character (Char.ofNat 200), .floating ⟨false, 3, -1⟩] =
      some (.ok "<%.-56f:1.500000>".toList) := by
  obtain ⟨hint, h1, h2⟩ := hpa
  have hl := format_strict_star_precision render pa a [] hint
  rw [to_int_of_range (by omega) h2, to_string_of_nonneg h1] at hl
  refine ⟨?_, hl, fun _ => rfl, rfl, rfl⟩
  rw [hl, format_strict_literal_precision]

/-- C10 at the precision 2 and the value 3.14159 (the double `7074231776675438 * 2^-51`). -/
theorem C10_star_precision_witness :
    (((Arg.sint 2).is_integer = true ∨ (Arg.sint 2).is_enum = true) ∧
      0 ≤ (Arg.sint 2).int_value ∧ (Arg.sint 2).int_value < 2147483648) ∧
    format_strict printf_backend "%.*f".toList
        [.sint 2, .floating ⟨false, 7074231776675438, -51⟩] =
      format_strict printf_backend "%.2f".toList
        [.floating ⟨false, 7074231776675438, -51⟩] :=
  ⟨⟨Or.inl rfl, by decide, by decide⟩,
    (C10_star_precision printf_backend (.sint 2) (.floating ⟨false, 7074231776675438, -51⟩)
      ⟨Or.inl rfl, by decide, by decide⟩).1⟩

/-- C10 as stated fails for a precision outside the range of `int`: the precision argument
`2147483648` is narrowed to `-2147483648`, so `"%.*f"` hands the sub-format `%.-2147483648f`
to the rendering primitive, while the format with the precision written out hands over
`%.2147483648f`; the rendering primitive that echoes its input shows both. -/
theorem C10_counterexample_wide_precision :
    format_strict echo_backend "%.*f".toList [.sint 2147483648, .floating ⟨false, 3, -1⟩] =
      some (.ok "<%.-2147483648f:1.500000>".toList) ∧
    format_strict echo_backend ("%.".toList ++ to_string 2147483648 ++ "f".toList)
        [.floating ⟨false, 3, -1⟩] =
      some (.ok "<%.2147483648f:1.500000>".toList) ∧
    format_strict echo_backend "%.*f".toList [.sint 2147483648, .floating ⟨false, 3, -1⟩] ≠
      format_strict echo_backend ("%.".toList ++ to_string 2147483648 ++ "f".toList)
        [.floating ⟨false, 3, -1⟩] := by
  have h1 : format_strict echo_backend "%.*f".toList
      [.sint 2147483648, .floating ⟨false, 3, -1⟩] =
      some (.ok "<%.-2147483648f:1.500000>".toList) := rfl
  have h2 : format_strict echo_backend ("%.".toList ++ to_string 2147483648 ++ "f".toList)
      [.floating ⟨false, 3, -1⟩] = some (.ok "<%.2147483648f:1.500000>".toList) := rfl
  refine ⟨h1, h2, ?_⟩
  rw [h1, h2]
  decide

namespace string_formatter

/-! ## The `switch` of `read_conversion`, letter by letter -/

theorem dispatch_conversion_signed (render : Backend) (c : Char) (hc : c = 'd' ∨ c = 'i')
    (index : Int) (args : List Arg) (fmt : List Char) (i : Nat) (out cf : List Char)
    (ai : Int) (tb : List Char) :
    dispatch_conversion render c index args ⟨fmt, i, out, cf ++ [c], ai, tb⟩ =
      format_nth_arg render .signed_long_long index args
        ⟨fmt, i, out, cf ++ ['l', 'l', c], ai, tb⟩ := by
  have e : dispatch_conversion render c index args ⟨fmt, i, out, cf ++ [c], ai, tb⟩ =
      format_nth_arg render .signed_long_long index args
        (add_long_long_length_modifier ⟨fmt, i, out, cf ++ [c], ai, tb⟩) := by
    rcases hc with h | h <;> subst h <;> rfl
  rw [e, add_long_long_length_modifier_mk]

theorem dispatch_conversion_u (render : Backend) (index : Int) (args : List Arg)
    (fmt : List Char) (i : Nat) (out cf : List Char) (ai : Int) (tb : List Char) :
    dispatch_conversion render 'u' index args ⟨fmt, i, out, cf ++ ['u'], ai, tb⟩ =
      format_nth_arg render .unsigned_long_long index args
        ⟨fmt, i, out, cf ++ ['l', 'l', 'u'], ai, tb⟩ := by
  have e : dispatch_conversion render 'u' index args ⟨fmt, i, out, cf ++ ['u'], ai, tb⟩ =
      format_nth_arg render .unsigned_long_long index args
        (add_long_long_length_modifier ⟨fmt, i, out, cf ++ ['u'], ai, tb⟩) := rfl
  rw [e, add_long_long_length_modifier_mk]

theorem without_sign_flags_append (s t : List Char) :
    without_sign_flags (s ++ t) = without_sign_flags s ++ without_sign_flags t := by
  unfold without_sign_flags
  exact List.filter_append s t

theorem without_sign_flags_of_not_mem (s : List Char) (h1 : '+' ∉ s) (h2 : ' ' ∉ s) :
    without_sign_flags s = s := by
  unfold without_sign_flags
  rw [List.filter_eq_self]
  intro c hc
  have e1 : c ≠ '+' := fun e => h1 (e ▸ hc)
  have e2 : c ≠ ' ' := fun e => h2 (e ▸ hc)
  simp [e1, e2]

theorem dispatch_conversion_oct_hex (render : Backend) (c : Char)
    (hc : c = 'o' ∨ c = 'x' ∨ c = 'X') (index : Int) (args : List Arg) (fmt : List Char)
    (i : Nat) (out cf : List Char) (ai : Int) (tb : List Char) :
    dispatch_conversion render c index args ⟨fmt, i, out, cf ++ [c], ai, tb⟩ =
      format_nth_arg render .unsigned_long_long index args
        ⟨fmt, i, out, without_sign_flags cf ++ ['l', 'l', c], ai, tb⟩ := by
  have e : dispatch_conversion render c index args ⟨fmt, i, out, cf ++ [c], ai, tb⟩ =
      format_nth_arg render .unsigned_long_long index args
        (add_long_long_length_modifier
          ⟨fmt, i, out, without_sign_flags (cf ++ [c]), ai, tb⟩) := by
    rcases hc with h | h | h <;> subst h <;> rfl
  have e2 : without_sign_flags [c] = [c] := by
    rcases hc with h | h | h <;> subst h <;> rfl
  rw [e, without_sign_flags_append, e2, add_long_long_length_modifier_mk]

theorem dispatch_conversion_double (render : Backend) (c : Char)
    (hc : c ∈ ['a', 'A', 'g', 'G', 'f', 'F', 'e', 'E']) (index : Int) (args : List Arg)
    (sf : string_formatter) :
    dispatch_conversion render c index args sf =
      format_nth_arg render .double_ index args sf := by
  simp only [List.mem_cons, List.mem_singleton, List.mem_nil_iff, or_false] at hc
  rcases hc with h | h | h | h | h | h | h | h <;> subst h <;> rfl

theorem dispatch_conversion_c (render : Backend) (index : Int) (args : List Arg)
    (sf : string_formatter) :
    dispatch_conversion render 'c' index args sf = format_nth_arg render .int_ index args sf :=
  rfl

theorem dispatch_conversion_p (render : Backend) (index : Int) (args : List Arg)
    (sf : string_formatter) :
    dispatch_conversion render 'p' index args sf =
      format_nth_arg render .void_ptr index args sf :=
  rfl

theorem dispatch_conversion_s (render : Backend) (index : Int) (args : List Arg)
    (sf : string_formatter) :
    dispatch_conversion render 's' index args sf =
      format_nth_arg render .string_view_ index args sf :=
  rfl

/-- A character that is no conversion letter ends in the `default` case. -/
theorem dispatch_conversion_invalid (render : Backend) (c : Char)
    (hc : c ∉ conversion_letters) (index : Int) (args : List Arg) (sf : string_formatter) :
    dispatch_conversion render c index args sf = .error (.InvalidSpecifier c) := by
  unfold conversion_letters at hc
  simp only [List.mem_cons, List.mem_singleton, List.mem_nil_iff, or_false, not_or] at hc
  obtain ⟨h1, h2, h3, h4, h5, h6, h7, h8, h9, h10, h11, h12, h13, h14, h15, h16, h17⟩ := hc
  unfold dispatch_conversion
  simp [h1, h2, h3, h4, h5, h6, h7, h8, h9, h10, h11, h12, h13, h14, h15, h16, h17]

end string_formatter

/-- A format that is one specifier, which ends in formatting one argument: the result of
`format_strict` is the rendering of that argument. -/
theorem format_strict_one (render : Backend) (args : List Arg) (t : List Char)
    (rt : Requested) (index : Int) (j : Nat) (cf : List Char) (ai : Int)
    (hhead : t.headD NUL ≠ '%')
    (hspec : string_formatter.parse_specifier render args ⟨'%' :: t, 0 + 1, [], [], 0, []⟩ =
      string_formatter.format_nth_arg render rt index args ⟨'%' :: t, j, [], cf, ai, []⟩)
    (hj : ('%' :: t).drop j = []) :
    format_strict render ('%' :: t) args =
      some (render_nth_arg render rt cf (to_unsigned index) args) := by
  have h0 : ('%' :: t).drop 0 = '%' :: t := rfl
  unfold format_strict string_formatter.parse
  dsimp only
  rw [string_formatter.parse_loop_mk_specifier render args _ t h0 hhead, hspec,
    string_formatter.format_nth_arg_mk]
  unfold render_nth_arg
  cases get_nth_arg_as rt [] 0 (to_unsigned index) args with
  | error e => rfl
  | ok p =>
    dsimp only
    cases render cf p.1 with
    | none => rfl
    | some text =>
      dsimp only
      rw [List.length_cons, string_formatter.parse_loop_mk_end render args _ hj]
      simp [string_formatter.get_output]

/-- A format that is one specifier, which fails: `format_strict` fails the same way. -/
theorem format_strict_one_error (render : Backend) (args : List Arg) (t : List Char)
    (e : FormatError) (hhead : t.headD NUL ≠ '%')
    (hspec : string_formatter.parse_specifier render args ⟨'%' :: t, 0 + 1, [], [], 0, []⟩ =
      .error e) :
    format_strict render ('%' :: t) args = some (.error e) := by
  have h0 : ('%' :: t).drop 0 = '%' :: t := rfl
  unfold format_strict string_formatter.parse
  dsimp only
  rw [string_formatter.parse_loop_mk_specifier render args _ t h0 hhead, hspec]

theorem render_nth_arg_cons (render : Backend) (rt : Requested) (cf : List Char) (a : Arg)
    (rest : List Arg) :
    render_nth_arg render rt cf 0 (a :: rest) = render_argument render rt cf a :=
  rfl

namespace string_formatter

/-! ## Specifiers with literal flags, width and precision -/

/-- A text without `$` before the first character that is neither a digit nor `$` holds no
argument index. -/
theorem strip_argument_index_of_no_dollar (s rest : List Char) (hs : '$' ∉ s)
    (hrd : is_digit (rest.headD NUL) = false) (hdollar : rest.headD NUL ≠ '$') :
    strip_argument_index (s ++ rest) = (none, s ++ rest) := by
  have key : ((s ++ rest).dropWhile is_digit).head? ≠ some '$' := by
    induction s with
    | nil =>
      rw [List.nil_append]
      cases rest with
      | nil => simp
      | cons c r =>
        rw [List.dropWhile_cons_of_neg (by simpa using hrd)]
        exact fun e => hdollar (Option.some.inj e)
    | cons a s ih =>
      by_cases ha : is_digit a = true
      · rw [List.cons_append, List.dropWhile_cons_of_pos ha]
        exact ih (fun hm => hs (List.mem_cons_of_mem a hm))
      · rw [List.cons_append, List.dropWhile_cons_of_neg ha]
        exact fun e => hs (by rw [← Option.some.inj e]; exact List.mem_cons_self a s)
  unfold strip_argument_index
  rw [if_neg (fun h => key h.2)]

theorem read_argument_index_mk_of_no_dollar {fmt : List Char} {i : Nat} (s rest : List Char)
    (hs : '$' ∉ s) (hrd : is_digit (rest.headD NUL) = false) (hdollar : rest.headD NUL ≠ '$')
    (h : fmt.drop i = s ++ rest) (out cf : List Char) (ai : Int) (tb : List Char) :
    read_argument_index ⟨fmt, i, out, cf, ai, tb⟩ = (none, ⟨fmt, i, out, cf, ai, tb⟩) := by
  obtain ⟨j, e, _⟩ := read_argument_index_mk fmt i out cf ai tb
  rw [h, strip_argument_index_of_no_dollar s rest hs hrd hdollar] at e
  unfold read_argument_index at e ⊢
  split
  · split
    · next hd hdl =>
      rw [if_pos hd, if_pos hdl] at e
      exact absurd (congrArg Prod.fst e) (by simp)
    · rfl
  · rfl

/-- A specifier with literal flags and width and no precision, up to the length modifier:
nothing is taken from the arguments, the sub-format is `%`, the flags and the width, and the
value will come from the sequential counter. -/
theorem parse_specifier_mk_literal (render : Backend) (args : List Arg)
    (fl ds rest : List Char) (hfl : ∀ x ∈ fl, is_flag x = true)
    (hds : ∀ x ∈ ds, is_digit x = true) (hhead : is_flag ((ds ++ rest).headD NUL) = false)
    (hrd : is_digit (rest.headD NUL) = false) (hstar : rest.headD NUL ≠ '*')
    (hdot : rest.headD NUL ≠ '.') (hdollar : rest.headD NUL ≠ '$')
    {fmt : List Char} {i : Nat} (h : fmt.drop i = fl ++ (ds ++ rest))
    (out cf : List Char) (ai : Int) (tb : List Char) :
    parse_specifier render args ⟨fmt, i, out, cf, ai, tb⟩ =
      read_conversion render ai args
        ⟨fmt, i + fl.length + ds.length, out, ['%'] ++ fl ++ ds, ai + 1, tb⟩ := by
  have hno : '$' ∉ fl ++ ds := by
    intro hm
    rcases List.mem_append.mp hm with hm | hm
    · exact not_dollar_of_is_flag (hfl _ hm) rfl
    · exact not_dollar_of_is_digit (hds _ hm) rfl
  have h0 : fmt.drop i = (fl ++ ds) ++ rest := by rw [h, List.append_assoc]
  have h1 : fmt.drop (i + fl.length) = ds ++ rest := drop_add_of_drop fl _ h
  have h2 : fmt.drop (i + fl.length + ds.length) = rest := drop_add_of_drop ds _ h1
  rw [parse_specifier_mk, read_argument_index_mk_of_no_dollar (fl ++ ds) rest hno hrd hdollar h0]
  dsimp only
  rw [read_flags_mk fl (ds ++ rest) hfl hhead h,
    read_width_mk_digits ds rest hds hrd hstar h1, append_int_argument_mk_none]
  dsimp only
  rw [read_precision_mk_none (by rw [h2]; exact hdot), append_int_argument_mk_none]
  dsimp only
  rw [read_value_mk_none]

/-- A specifier with literal flags, width and precision, up to the length modifier. -/
theorem parse_specifier_mk_literal_precision (render : Backend) (args : List Arg)
    (fl ds ps rest : List Char) (hfl : ∀ x ∈ fl, is_flag x = true)
    (hds : ∀ x ∈ ds, is_digit x = true) (hps : ∀ x ∈ ps, is_digit x = true)
    (hhead : is_flag ((ds ++ ['.']).headD NUL) = false)
    (hrd : is_digit (rest.headD NUL) = false) (hstar : rest.headD NUL ≠ '*')
    {fmt : List Char} {i : Nat} (h : fmt.drop i = fl ++ (ds ++ ('.' :: (ps ++ rest))))
    (out cf : List Char) (ai : Int) (tb : List Char) :
    parse_specifier render args ⟨fmt, i, out, cf, ai, tb⟩ =
      read_conversion render ai args
        ⟨fmt, i + fl.length + ds.length + 1 + ps.length, out,
          ['%'] ++ fl ++ ds ++ ['.'] ++ ps, ai + 1, tb⟩ := by
  have hno : '$' ∉ fl ++ ds := by
    intro hm
    rcases List.mem_append.mp hm with hm | hm
    · exact not_dollar_of_is_flag (hfl _ hm) rfl
    · exact not_dollar_of_is_digit (hds _ hm) rfl
  have h0 : fmt.drop i = (fl ++ ds) ++ ('.' :: (ps ++ rest)) := by
    rw [h, List.append_assoc]
  have h1 : fmt.drop (i + fl.length) = ds ++ ('.' :: (ps ++ rest)) := drop_add_of_drop fl _ h
  have h2 : fmt.drop (i + fl.length + ds.length) = '.' :: (ps ++ rest) :=
    drop_add_of_drop ds _ h1
  have hhead1 : is_flag ((ds ++ ('.' :: (ps ++ rest))).headD NUL) = false := by
    cases ds with
    | nil => rfl
    | cons d ds => exact hhead
  rw [parse_specifier_mk,
    read_argument_index_mk_of_no_dollar (fl ++ ds) ('.' :: (ps ++ rest)) hno rfl
      (by show '.' ≠ '$'; decide) h0]
  dsimp only
  rw [read_flags_mk fl _ hfl hhead1 h,
    read_width_mk_digits ds ('.' :: (ps ++ rest)) hds rfl (by show '.' ≠ '*'; decide) h1,
    append_int_argument_mk_none]
  dsimp only
  rw [read_precision_mk_digits ps rest hps hrd hstar h2, append_int_argument_mk_none]
  dsimp only
  rw [read_value_mk_none]

/-- The length modifiers that `read_conversion` removes. -/
theorem skip_length_modifier_mk (m rest : List Char)
    (hm : m ∈ [[], ['h', 'h'], ['h'], ['l', 'l'], ['l'], ['z'], ['t']])
    (hl : rest.headD NUL ≠ 'l') (hh : rest.headD NUL ≠ 'h') (hz : rest.headD NUL ≠ 'z')
    (ht : rest.headD NUL ≠ 't') {fmt : List Char} {i : Nat} (h : fmt.drop i = m ++ rest)
    (out cf : List Char) (ai : Int) (tb : List Char) :
    skip_length_modifier ⟨fmt, i, out, cf, ai, tb⟩ = ⟨fmt, i + m.length, out, cf, ai, tb⟩ := by
  simp only [List.mem_cons, List.mem_singleton, List.mem_nil_iff, or_false] at hm
  rcases hm with e | e | e | e | e | e | e <;> subst e
  · exact skip_length_modifier_of_ne ⟨fmt, i, out, cf, ai, tb⟩ (by rw [h]; exact hl)
      (by rw [h]; exact hh) (by rw [h]; exact hz) (by rw [h]; exact ht)
  · have h1 : fmt.drop i = 'h' :: 'h' :: rest := h
    have e1 : consume_next_input_if 'l' ⟨fmt, i, out, cf, ai, tb⟩ =
        (false, ⟨fmt, i, out, cf, ai, tb⟩) :=
      consume_next_input_if_mk_ne (by rw [h1]; show 'h' ≠ 'l'; decide) out cf ai tb
    have e2 : consume_next_input_if 'h' ⟨fmt, i, out, cf, ai, tb⟩ =
        (true, ⟨fmt, i + 1, out, cf, ai, tb⟩) := consume_next_input_if_mk h1 out cf ai tb
    have e3 : consume_next_input_if 'h' ⟨fmt, i + 1, out, cf, ai, tb⟩ =
        (true, ⟨fmt, i + 1 + 1, out, cf, ai, tb⟩) :=
      consume_next_input_if_mk (drop_succ_of_drop h1) out cf ai tb
    unfold skip_length_modifier
    simp [e1, e2, e3]
  · have h1 : fmt.drop i = 'h' :: rest := h
    have e1 : consume_next_input_if 'l' ⟨fmt, i, out, cf, ai, tb⟩ =
        (false, ⟨fmt, i, out, cf, ai, tb⟩) :=
      consume_next_input_if_mk_ne (by rw [h1]; show 'h' ≠ 'l'; decide) out cf ai tb
    have e2 : consume_next_input_if 'h' ⟨fmt, i, out, cf, ai, tb⟩ =
        (true, ⟨fmt, i + 1, out, cf, ai, tb⟩) := consume_next_input_if_mk h1 out cf ai tb
    have e3 : consume_next_input_if 'h' ⟨fmt, i + 1, out, cf, ai, tb⟩ =
        (false, ⟨fmt, i + 1, out, cf, ai, tb⟩) :=
      consume_next_input_if_mk_ne (by rw [drop_succ_of_drop h1]; exact hh) out cf ai tb
    unfold skip_length_modifier
    simp [e1, e2, e3]
  · have h1 : fmt.drop i = 'l' :: 'l' :: rest := h
    have e1 : consume_next_input_if 'l' ⟨fmt, i, out, cf, ai, tb⟩ =
        (true, ⟨fmt, i + 1, out, cf, ai, tb⟩) := consume_next_input_if_mk h1 out cf ai tb
    have e2 : consume_next_input_if 'l' ⟨fmt, i + 1, out, cf, ai, tb⟩ =
        (true, ⟨fmt, i + 1 + 1, out, cf, ai, tb⟩) :=
      consume_next_input_if_mk (drop_succ_of_drop h1) out cf ai tb
    unfold skip_length_modifier
    simp [e1, e2]
  · have h1 : fmt.drop i = 'l' :: rest := h
    have e1 : consume_next_input_if 'l' ⟨fmt, i, out, cf, ai, tb⟩ =
        (true, ⟨fmt, i + 1, out, cf, ai, tb⟩) := consume_next_input_if_mk h1 out cf ai tb
    have e2 : consume_next_input_if 'l' ⟨fmt, i + 1, out, cf, ai, tb⟩ =
        (false, ⟨fmt, i + 1, out, cf, ai, tb⟩) :=
      consume_next_input_if_mk_ne (by rw [drop_succ_of_drop h1]; exact hl) out cf ai tb
    unfold skip_length_modifier
    simp [e1, e2]
  · have h1 : fmt.drop i = 'z' :: rest := h
    have e1 : consume_next_input_if 'l' ⟨fmt, i, out, cf, ai, tb⟩ =
        (false, ⟨fmt, i, out, cf, ai, tb⟩) :=
      consume_next_input_if_mk_ne (by rw [h1]; show 'z' ≠ 'l'; decide) out cf ai tb
    have e2 : consume_next_input_if 'h' ⟨fmt, i, out, cf, ai, tb⟩ =
        (false, ⟨fmt, i, out, cf, ai, tb⟩) :=
      consume_next_input_if_mk_ne (by rw [h1]; show 'z' ≠ 'h'; decide) out cf ai tb
    have e3 : consume_next_input_if 'z' ⟨fmt, i, out, cf, ai, tb⟩ =
        (true, ⟨fmt, i + 1, out, cf, ai, tb⟩) := consume_next_input_if_mk h1 out cf ai tb
    unfold skip_length_modifier
    simp [e1, e2, e3]
  · have h1 : fmt.drop i = 't' :: rest := h
    have e1 : consume_next_input_if 'l' ⟨fmt, i, out, cf, ai, tb⟩ =
        (false, ⟨fmt, i, out, cf, ai, tb⟩) :=
      consume_next_input_if_mk_ne (by rw [h1]; show 't' ≠ 'l'; decide) out cf ai tb
    have e2 : consume_next_input_if 'h' ⟨fmt, i, out, cf, ai, tb⟩ =
        (false, ⟨fmt, i, out, cf, ai, tb⟩) :=
      consume_next_input_if_mk_ne (by rw [h1]; show 't' ≠ 'h'; decide) out cf ai tb
    have e3 : consume_next_input_if 'z' ⟨fmt, i, out, cf, ai, tb⟩ =
        (false, ⟨fmt, i, out, cf, ai, tb⟩) :=
      consume_next_input_if_mk_ne (by rw [h1]; show 't' ≠ 'z'; decide) out cf ai tb
    have e4 : consume_next_input_if 't' ⟨fmt, i, out, cf, ai, tb⟩ =
        (true, ⟨fmt, i + 1, out, cf, ai, tb⟩) := consume_next_input_if_mk h1 out cf ai tb
    unfold skip_length_modifier
    simp [e1, e2, e3, e4]

/-- After an optional length modifier, the next character is pushed to `current_format` and
dispatched; the modifier leaves no trace. -/
theorem read_conversion_mk_modifier (render : Backend) (index : Int) (args : List Arg)
    (m : List Char) (c : Char) (r : List Char)
    (hm : m ∈ [[], ['h', 'h'], ['h'], ['l', 'l'], ['l'], ['z'], ['t']])
    (hl : c ≠ 'l') (hh : c ≠ 'h') (hz : c ≠ 'z') (ht : c ≠ 't')
    {fmt : List Char} {i : Nat} (h : fmt.drop i = m ++ c :: r)
    (out cf : List Char) (ai : Int) (tb : List Char) :
    read_conversion render index args ⟨fmt, i, out, cf, ai, tb⟩ =
      dispatch_conversion render c index args
        ⟨fmt, i + m.length + 1, out, cf ++ [c], ai, tb⟩ := by
  unfold read_conversion
  rw [skip_length_modifier_mk m (c :: r) hm hl hh hz ht h,
    consume_next_input_mk (drop_add_of_drop m _ h)]

/-- At the end of the format, after an optional length modifier, the null character is read
as the conversion letter and rejected. -/
theorem read_conversion_mk_end (render : Backend) (index : Int) (args : List Arg)
    (m : List Char) (hm : m ∈ [[], ['h', 'h'], ['h'], ['l', 'l'], ['l'], ['z'], ['t']])
    {fmt : List Char} {i : Nat} (h : fmt.drop i = m ++ [])
    (out cf : List Char) (ai : Int) (tb : List Char) :
    read_conversion render index args ⟨fmt, i, out, cf, ai, tb⟩ =
      .error (.InvalidSpecifier NUL) := by
  unfold read_conversion
  rw [skip_length_modifier_mk m [] hm (by decide) (by decide) (by decide) (by decide) h,
    consume_next_input_mk_nil (drop_add_of_drop m _ h)]
  exact dispatch_conversion_invalid render NUL (by decide) index args _

end string_formatter

namespace string_formatter

/-! ## Whole specifiers -/

theorem ends_specifier_iff {c : Char} (h : ends_specifier c = true) :
    is_digit c = false ∧ is_flag c = false ∧ c ≠ '*' ∧ c ≠ '.' ∧ c ≠ '$' ∧ c ≠ 'l' ∧
      c ≠ 'h' ∧ c ≠ 'z' ∧ c ≠ 't' := by
  unfold ends_specifier at h
  simp only [Bool.and_eq_true, Bool.not_eq_true', decide_eq_false_iff_not] at h
  obtain ⟨⟨⟨⟨⟨⟨⟨⟨h1, h2⟩, h3⟩, h4⟩, h5⟩, h6⟩, h7⟩, h8⟩, h9⟩ := h
  exact ⟨h1, h2, h3, h4, h5, h6, h7, h8, h9⟩

theorem ends_specifier_of_letter : ∀ c ∈ conversion_letters, ends_specifier c = true := by
  decide

/-- The head of a length modifier followed by a character that ends a specifier is no digit,
no flag, and not `*`, `.` or `$`. -/
theorem head_modifier (m : List Char) (hm : m ∈ length_modifiers) (rest : List Char)
    (hrest : is_digit (rest.headD NUL) = false ∧ is_flag (rest.headD NUL) = false ∧
      rest.headD NUL ≠ '*' ∧ rest.headD NUL ≠ '.' ∧ rest.headD NUL ≠ '$') :
    is_digit ((m ++ rest).headD NUL) = false ∧ is_flag ((m ++ rest).headD NUL) = false ∧
      (m ++ rest).headD NUL ≠ '*' ∧ (m ++ rest).headD NUL ≠ '.' ∧
      (m ++ rest).headD NUL ≠ '$' := by
  unfold length_modifiers at hm
  simp only [List.mem_cons, List.mem_singleton, List.mem_nil_iff, or_false] at hm
  rcases hm with e | e | e | e | e | e | e <;> subst e
  · exact hrest
  all_goals exact ⟨rfl, rfl, by simp, by simp, by simp⟩

/-- A specifier with literal flags, width and optional precision and an optional length
modifier, up to the character at the conversion position: that character is dispatched with the
sub-format `%`, flags, width, precision and the character itself; the length modifier is not in
it. -/
theorem parse_specifier_mk_shape (render : Backend) (args : List Arg)
    (fl ds pp m : List Char) (c : Char) (r : List Char)
    (hfl : ∀ x ∈ fl, is_flag x = true) (hds : ∀ x ∈ ds, is_digit x = true)
    (hw : is_flag (ds.headD 'd') = false)
    (hpp : pp = [] ∨ ∃ ps, pp = '.' :: ps ∧ ∀ x ∈ ps, is_digit x = true)
    (hm : m ∈ length_modifiers) (hc : ends_specifier c = true)
    {fmt : List Char} {i : Nat} (h : fmt.drop i = fl ++ (ds ++ (pp ++ (m ++ c :: r))))
    (out cf : List Char) (ai : Int) (tb : List Char) :
    parse_specifier render args ⟨fmt, i, out, cf, ai, tb⟩ =
      dispatch_conversion render c ai args
        ⟨fmt, i + fl.length + ds.length + pp.length + m.length + 1, out,
          ['%'] ++ fl ++ ds ++ pp ++ [c], ai + 1, tb⟩ := by
  obtain ⟨c1, c2, c3, c4, c5, c6, c7, c8, c9⟩ := ends_specifier_iff hc
  obtain ⟨r1, r2, r3, r4, r5⟩ := head_modifier m hm (c :: r) ⟨c1, c2, c3, c4, c5⟩
  rcases hpp with e | ⟨ps, e, hps⟩
  · subst e
    have h' : fmt.drop i = fl ++ (ds ++ (m ++ c :: r)) := h
    have hhead : is_flag ((ds ++ (m ++ c :: r)).headD NUL) = false := by
      cases ds with
      | nil => exact r2
      | cons x ds => exact hw
    rw [parse_specifier_mk_literal render args fl ds (m ++ c :: r) hfl hds hhead r1 r3 r4 r5 h',
      read_conversion_mk_modifier render ai args m c r hm c6 c7 c8 c9
        (drop_add_of_drop ds _ (drop_add_of_drop fl _ h'))]
    simp
  · subst e
    have h' : fmt.drop i = fl ++ (ds ++ ('.' :: (ps ++ (m ++ c :: r)))) := h
    have hhead : is_flag ((ds ++ ['.']).headD NUL) = false := by
      cases ds with
      | nil => rfl
      | cons x ds => exact hw
    have h3 : fmt.drop (i + fl.length + ds.length + 1 + ps.length) = m ++ c :: r :=
      drop_add_of_drop ps _ (drop_succ_of_drop
        (drop_add_of_drop ds _ (drop_add_of_drop fl _ h')))
    rw [parse_specifier_mk_literal_precision render args fl ds ps (m ++ c :: r) hfl hds hps
      hhead r1 r3 h', read_conversion_mk_modifier render ai args m c r hm c6 c7 c8 c9 h3]
    simp [Nat.add_assoc, Nat.add_comm 1]

/-- The same specifier cut off before the conversion letter: the end of the format is read as
the null character and rejected. -/
theorem parse_specifier_mk_shape_end (render : Backend) (args : List Arg)
    (fl ds pp m : List Char)
    (hfl : ∀ x ∈ fl, is_flag x = true) (hds : ∀ x ∈ ds, is_digit x = true)
    (hw : is_flag (ds.headD 'd') = false)
    (hpp : pp = [] ∨ ∃ ps, pp = '.' :: ps ∧ ∀ x ∈ ps, is_digit x = true)
    (hm : m ∈ length_modifiers)
    {fmt : List Char} {i : Nat} (h : fmt.drop i = fl ++ (ds ++ (pp ++ (m ++ []))))
    (out cf : List Char) (ai : Int) (tb : List Char) :
    parse_specifier render args ⟨fmt, i, out, cf, ai, tb⟩ =
      .error (.InvalidSpecifier NUL) := by
  obtain ⟨r1, r2, r3, r4, r5⟩ := head_modifier m hm []
    ⟨rfl, rfl, by decide, by decide, by decide⟩
  rcases hpp with e | ⟨ps, e, hps⟩
  · subst e
    have h' : fmt.drop i = fl ++ (ds ++ (m ++ [])) := h
    have hhead : is_flag ((ds ++ (m ++ [])).headD NUL) = false := by
      cases ds with
      | nil => exact r2
      | cons x ds => exact hw
    rw [parse_specifier_mk_literal render args fl ds (m ++ []) hfl hds hhead r1 r3 r4 r5 h',
      read_conversion_mk_end render ai args m hm
        (drop_add_of_drop ds _ (drop_add_of_drop fl _ h'))]
  · subst e
    have h' : fmt.drop i = fl ++ (ds ++ ('.' :: (ps ++ (m ++ [])))) := h
    have hhead : is_flag ((ds ++ ['.']).headD NUL) = false := by
      cases ds with
      | nil => rfl
      | cons x ds => exact hw
    have h3 : fmt.drop (i + fl.length + ds.length + 1 + ps.length) = m ++ [] :=
      drop_add_of_drop ps _ (drop_succ_of_drop
        (drop_add_of_drop ds _ (drop_add_of_drop fl _ h')))
    rw [parse_specifier_mk_literal_precision render args fl ds ps (m ++ []) hfl hds hps
      hhead r1 r3 h', read_conversion_mk_end render ai args m hm h3]

end string_formatter

theorem head_shape_ne_percent (fl ds pp m : List Char) (c : Char)
    (hfl : ∀ x ∈ fl, string_formatter.is_flag x = true) (hds : ∀ x ∈ ds, is_digit x = true)
    (hpp : pp = [] ∨ ∃ ps, pp = '.' :: ps ∧ ∀ x ∈ ps, is_digit x = true)
    (hm : m ∈ length_modifiers) (hc : c ≠ '%') :
    (fl ++ (ds ++ (pp ++ (m ++ [c])))).headD NUL ≠ '%' := by
  cases fl with
  | cons x fl =>
    intro e
    have e1 : x = '%' := e
    rw [e1] at hfl
    exact absurd (hfl '%' (List.mem_cons_self _ _)) (by decide)
  | nil =>
    cases ds with
    | cons x ds =>
      intro e
      have e1 : x = '%' := e
      rw [e1] at hds
      exact absurd (hds '%' (List.mem_cons_self _ _)) (by decide)
    | nil =>
      rcases hpp with e | ⟨ps, e, _⟩
      · subst e
        unfold length_modifiers at hm
        simp only [List.mem_cons, List.mem_singleton, List.mem_nil_iff, or_false] at hm
        rcases hm with e | e | e | e | e | e | e <;> subst e
        · exact hc
        all_goals simp
      · subst e
        simp

theorem length_shape (fl ds pp m : List Char) (c : Char) :
    ('%' :: (fl ++ (ds ++ (pp ++ (m ++ [c]))))).drop
      (0 + 1 + fl.length + ds.length + pp.length + m.length + 1) = [] := by
  rw [List.drop_eq_nil_iff]
  simp
  omega

/-- A format that is one specifier of literal flags, width, precision, length modifier and
conversion letter, when the letter formats an argument: the result of `format_strict` is the
rendering of the first argument with the sub-format that the `switch` of `read_conversion`
finishes. -/
theorem format_strict_shape (render : Backend) (args : List Arg)
    (fl ds pp m : List Char) (c : Char) (rt : Requested) (cf1 : List Char)
    (hfl : ∀ x ∈ fl, string_formatter.is_flag x = true) (hds : ∀ x ∈ ds, is_digit x = true)
    (hw : string_formatter.is_flag (ds.headD 'd') = false)
    (hpp : pp = [] ∨ ∃ ps, pp = '.' :: ps ∧ ∀ x ∈ ps, is_digit x = true)
    (hm : m ∈ length_modifiers) (hc : ends_specifier c = true) (hcp : c ≠ '%')
    (hdisp : ∀ (fmt : List Char) (j : Nat),
      string_formatter.dispatch_conversion render c 0 args
          ⟨fmt, j, [], ['%'] ++ fl ++ ds ++ pp ++ [c], 0 + 1, []⟩ =
        string_formatter.format_nth_arg render rt 0 args ⟨fmt, j, [], cf1, 0 + 1, []⟩) :
    format_strict render ('%' :: (fl ++ (ds ++ (pp ++ (m ++ [c]))))) args =
      some (render_nth_arg render rt cf1 0 args) := by
  have hd : ('%' :: (fl ++ (ds ++ (pp ++ (m ++ [c]))))).drop (0 + 1) =
      fl ++ (ds ++ (pp ++ (m ++ c :: []))) := rfl
  have hspec := string_formatter.parse_specifier_mk_shape render args fl ds pp m c []
    hfl hds hw hpp hm hc hd [] [] 0 []
  rw [hdisp] at hspec
  exact format_strict_one render args _ rt 0 _ cf1 (0 + 1)
    (head_shape_ne_percent fl ds pp m c hfl hds hpp hm hcp) hspec (length_shape fl ds pp m c)

/-- The same when the character at the conversion position is rejected. -/
theorem format_strict_shape_error (render : Backend) (args : List Arg)
    (fl ds pp m : List Char) (c : Char) (r : List Char) (e : FormatError)
    (hfl : ∀ x ∈ fl, string_formatter.is_flag x = true) (hds : ∀ x ∈ ds, is_digit x = true)
    (hw : string_formatter.is_flag (ds.headD 'd') = false)
    (hpp : pp = [] ∨ ∃ ps, pp = '.' :: ps ∧ ∀ x ∈ ps, is_digit x = true)
    (hm : m ∈ length_modifiers) (hc : ends_specifier c = true)
    (hhead : (fl ++ (ds ++ (pp ++ (m ++ c :: r)))).headD NUL ≠ '%')
    (hdisp : ∀ (fmt : List Char) (j : Nat),
      string_formatter.dispatch_conversion render c 0 args
          ⟨fmt, j, [], ['%'] ++ fl ++ ds ++ pp ++ [c], 0 + 1, []⟩ = .error e) :
    format_strict render ('%' :: (fl ++ (ds ++ (pp ++ (m ++ c :: r))))) args =
      some (.error e) := by
  have hd : ('%' :: (fl ++ (ds ++ (pp ++ (m ++ c :: r))))).drop (0 + 1) =
      fl ++ (ds ++ (pp ++ (m ++ c :: r))) := rfl
  have hspec := string_formatter.parse_specifier_mk_shape render args fl ds pp m c r
    hfl hds hw hpp hm hc hd [] [] 0 []
  rw [hdisp] at hspec
  exact format_strict_one_error render args _ e hhead hspec

/-! ## Sign flags and length modifiers -/

theorem string_format_of_ok {render : Backend} {format : List Char} {args : List Arg}
    {text : List Char} (h : format_strict render format args = some (.ok text)) :
    string_format render format args = some text := by
  rw [string_format_eq, h]
  rfl

theorem not_sign_of_is_digit {s : List Char} (h : ∀ x ∈ s, is_digit x = true) :
    '+' ∉ s ∧ ' ' ∉ s :=
  ⟨fun hm => absurd (h _ hm) (by decide), fun hm => absurd (h _ hm) (by decide)⟩

/-- The sub-format `%`, flags, width and precision without its sign flags: only the flags
change. -/
theorem without_sign_flags_shape (fl ds pp : List Char) (hds : ∀ x ∈ ds, is_digit x = true)
    (hpp : pp = [] ∨ ∃ ps, pp = '.' :: ps ∧ ∀ x ∈ ps, is_digit x = true) :
    without_sign_flags (['%'] ++ fl ++ ds ++ pp) =
      ['%'] ++ without_sign_flags fl ++ ds ++ pp := by
  have hpp1 : without_sign_flags pp = pp := by
    rcases hpp with e | ⟨ps, e, hps⟩
    · subst e; rfl
    · subst e
      have e2 : '.' :: ps = ['.'] ++ ps := rfl
      rw [e2, string_formatter.without_sign_flags_append,
        string_formatter.without_sign_flags_of_not_mem ps (not_sign_of_is_digit hps).1
          (not_sign_of_is_digit hps).2]
      rfl
  rw [string_formatter.without_sign_flags_append, string_formatter.without_sign_flags_append,
    string_formatter.without_sign_flags_append, hpp1,
    string_formatter.without_sign_flags_of_not_mem ds (not_sign_of_is_digit hds).1
      (not_sign_of_is_digit hds).2]
  rfl

theorem without_sign_flags_is_flag (fl : List Char)
    (hfl : ∀ x ∈ fl, string_formatter.is_flag x = true) :
    ∀ x ∈ without_sign_flags fl, string_formatter.is_flag x = true := by
  intro x hx
  unfold without_sign_flags at hx
  exact hfl x (List.mem_filter.mp hx).1

/-- An octal or hexadecimal specifier with literal flags, width and precision: the sub-format
handed over has lost the sign flags and nothing else, and has gained `ll`. -/
theorem format_strict_oct_hex (render : Backend) (args : List Arg) (fl ds pp : List Char)
    (c : Char) (hfl : ∀ x ∈ fl, string_formatter.is_flag x = true)
    (hds : ∀ x ∈ ds, is_digit x = true)
    (hw : string_formatter.is_flag (ds.headD 'd') = false)
    (hpp : pp = [] ∨ ∃ ps, pp = '.' :: ps ∧ ∀ x ∈ ps, is_digit x = true)
    (hc : c = 'o' ∨ c = 'x' ∨ c = 'X') :
    format_strict render ('%' :: (fl ++ (ds ++ (pp ++ [c])))) args =
      some (render_nth_arg render .unsigned_long_long
        (['%'] ++ without_sign_flags fl ++ ds ++ pp ++ ['l', 'l', c]) 0 args) := by
  have hce : ends_specifier c = true ∧ c ≠ '%' := by
    rcases hc with h | h | h <;> subst h <;> exact ⟨rfl, by decide⟩
  refine format_strict_shape render args fl ds pp [] c .unsigned_long_long _ hfl hds hw hpp
    (by decide) hce.1 hce.2 ?_
  intro fmt j
  rw [string_formatter.dispatch_conversion_oct_hex render c hc,
    without_sign_flags_shape fl ds pp hds hpp]

/-- A decimal specifier with literal flags, width and precision: the sub-format handed over
keeps every flag and has gained `ll`. -/
theorem format_strict_signed (render : Backend) (args : List Arg) (fl ds pp m : List Char)
    (c : Char) (hfl : ∀ x ∈ fl, string_formatter.is_flag x = true)
    (hds : ∀ x ∈ ds, is_digit x = true)
    (hw : string_formatter.is_flag (ds.headD 'd') = false)
    (hpp : pp = [] ∨ ∃ ps, pp = '.' :: ps ∧ ∀ x ∈ ps, is_digit x = true)
    (hm : m ∈ length_modifiers) (hc : c = 'd' ∨ c = 'i') :
    format_strict render ('%' :: (fl ++ (ds ++ (pp ++ (m ++ [c]))))) args =
      some (render_nth_arg render .signed_long_long
        (['%'] ++ fl ++ ds ++ pp ++ ['l', 'l', c]) 0 args) := by
  have hce : ends_specifier c = true ∧ c ≠ '%' := by
    rcases hc with h | h <;> subst h <;> exact ⟨rfl, by decide⟩
  refine format_strict_shape render args fl ds pp m c .signed_long_long _ hfl hds hw hpp
    hm hce.1 hce.2 ?_
  intro fmt j
  rw [string_formatter.dispatch_conversion_signed render c hc]

theorem printf_backend_llx (x : Nat) :
    ∃ text, printf_backend ['%', 'l', 'l', 'x'] (.unsigned_long_long x) = some text := by
  have e : parse_sub_format ['%', 'l', 'l', 'x'] = some ⟨[], 0, none, 'x'⟩ := by decide
  unfold printf_backend
  rw [e]
  exact ⟨_, rfl⟩

/-- C11: for an octal or hexadecimal conversion letter the sign flags `+` and space are taken
out of the sub-format before rendering, and the other flags, the width and the precision are
kept, so the format without these flags gives the same result; `%+x`, `% x` and `%x` agree;
for `d` and `i` every flag is kept; `%+x` of 10 is `a` and `%+d` of 10 is `+10`. -/
theorem C11_sign_flag_quirk (render : Backend) (args : List Arg) (fl ds pp : List Char)
    (c : Char) (hfl : ∀ x ∈ fl, string_formatter.is_flag x = true)
    (hds : ∀ x ∈ ds, is_digit x = true)
    (hw : string_formatter.is_flag (ds.headD 'd') = false)
    (hpp : pp = [] ∨ ∃ ps, pp = '.' :: ps ∧ ∀ x ∈ ps, is_digit x = true)
    (hc : c = 'o' ∨ c = 'x' ∨ c = 'X') :
    format_strict render ('%' :: (fl ++ (ds ++ (pp ++ [c])))) args =
      some (render_nth_arg render .unsigned_long_long
        (['%'] ++ without_sign_flags fl ++ ds ++ pp ++ ['l', 'l', c]) 0 args) ∧
    format_strict render ('%' :: (fl ++ (ds ++ (pp ++ [c])))) args =
      format_strict render ('%' :: (without_sign_flags fl ++ (ds ++ (pp ++ [c])))) args ∧
    (∀ c1, c1 = 'd' ∨ c1 = 'i' →
      format_strict render ('%' :: (fl ++ (ds ++ (pp ++ [c1])))) args =
        some (render_nth_arg render .signed_long_long
          (['%'] ++ fl ++ ds ++ pp ++ ['l', 'l', c1]) 0 args)) ∧
    (format_strict render "%+x".toList args = format_strict render "%x".toList args ∧
      format_strict render "% x".toList args = format_strict render "%x".toList args) ∧
    (∀ v : Int,
      string_format printf_backend "%+x".toList [.sint v] =
        string_format printf_backend "%x".toList [.sint v] ∧
      string_format printf_backend "% x".toList [.sint v] =
        string_format printf_backend "%x".toList [.sint v]) ∧
    string_format printf_backend "%+x".toList [.sint 10] = some "a".toList ∧
    string_format printf_backend "%+d".toList [.sint 10] = some "+10".toList := by
  have h1 := format_strict_oct_hex render args fl ds pp c hfl hds hw hpp hc
  have h2 := format_strict_oct_hex render args (without_sign_flags fl) ds pp c
    (without_sign_flags_is_flag fl hfl) hds hw hpp hc
  have hidem : without_sign_flags (without_sign_flags fl) = without_sign_flags fl := by
    unfold without_sign_flags
    rw [List.filter_filter]
    simp
  rw [hidem] at h2
  have hx : ∀ (render : Backend) (args : List Arg) (fl : List Char),
      (∀ x ∈ fl, string_formatter.is_flag x = true) → without_sign_flags fl = [] →
      format_strict render ('%' :: (fl ++ ['x'])) args =
        some (render_nth_arg render .unsigned_long_long ['%', 'l', 'l', 'x'] 0 args) := by
    intro render args fl hfl1 he
    have := format_strict_oct_hex render args fl [] [] 'x' hfl1 (by simp) rfl (Or.inl rfl)
      (Or.inr (Or.inl rfl))
    rw [he] at this
    exact this
  have hplus := fun (render : Backend) (args : List Arg) =>
    hx render args ['+'] (by decide) rfl
  have hspace := fun (render : Backend) (args : List Arg) =>
    hx render args [' '] (by decide) rfl
  have hnone := fun (render : Backend) (args : List Arg) =>
    hx render args [] (by simp) rfl
  refine ⟨h1, by rw [h1, h2], ?_, ⟨?_, ?_⟩, ?_, rfl, rfl⟩
  · intro c1 hc1
    exact format_strict_signed render args fl ds pp [] c1 hfl hds hw hpp (by decide) hc1
  · exact (hplus render args).trans (hnone render args).symm
  · exact (hspace render args).trans (hnone render args).symm
  · intro v
    obtain ⟨text, ht⟩ := printf_backend_llx (to_ull v)
    have hr : render_nth_arg printf_backend .unsigned_long_long ['%', 'l', 'l', 'x'] 0
        [.sint v] = .ok text := by
      have hconv : get_nth_arg_as .unsigned_long_long [] 0 0 [Arg.sint v] =
          .ok (.unsigned_long_long (to_ull v), []) := rfl
      unfold render_nth_arg
      rw [hconv]
      dsimp only
      rw [ht]
    have e1 := hplus printf_backend [.sint v]
    have e2 := hspace printf_backend [.sint v]
    have e3 := hnone printf_backend [.sint v]
    rw [hr] at e1 e2 e3
    exact ⟨(string_format_of_ok e1).trans (string_format_of_ok e3).symm,
      (string_format_of_ok e2).trans (string_format_of_ok e3).symm⟩

/-- C11 at the flags `+`, `#`, the width 8, the precision 4 and the letter `x`. -/
theorem C11_sign_flag_quirk_witness :
    ((∀ x ∈ ['+', '#'], string_formatter.is_flag x = true) ∧
      (∀ x ∈ ['8'], is_digit x = true) ∧
      string_formatter.is_flag (['8'].headD 'd') = false ∧
      (['.', '4'] = [] ∨ ∃ ps, ['.', '4'] = '.' :: ps ∧ ∀ x ∈ ps, is_digit x = true) ∧
      ('x' = 'o' ∨ 'x' = 'x' ∨ 'x' = 'X')) ∧
    format_strict printf_backend "%+#8.4x".toList [.sint 255] =
      format_strict printf_backend "%#8.4x".toList [.sint 255] :=
  ⟨⟨by decide, by decide, rfl, Or.inr ⟨['4'], rfl, by decide⟩, Or.inr (Or.inl rfl)⟩,
    (C11_sign_flag_quirk printf_backend [.sint 255] ['+', '#'] ['8'] ['.', '4'] 'x'
      (by decide) (by decide) rfl (Or.inr ⟨['4'], rfl, by decide⟩) (Or.inr (Or.inl rfl))).2.1⟩

/-- The requested type and the finished sub-format of an integer conversion letter. -/
theorem format_strict_integer (render : Backend) (args : List Arg) (fl ds pp m : List Char)
    (c : Char) (hfl : ∀ x ∈ fl, string_formatter.is_flag x = true)
    (hds : ∀ x ∈ ds, is_digit x = true)
    (hw : string_formatter.is_flag (ds.headD 'd') = false)
    (hpp : pp = [] ∨ ∃ ps, pp = '.' :: ps ∧ ∀ x ∈ ps, is_digit x = true)
    (hm : m ∈ length_modifiers) (hc : c ∈ ['d', 'i', 'o', 'u', 'x', 'X']) :
    format_strict render ('%' :: (fl ++ (ds ++ (pp ++ (m ++ [c]))))) args =
      some (render_nth_arg render
        (if c = 'd' ∨ c = 'i' then .signed_long_long else .unsigned_long_long)
        (['%'] ++ (if c = 'o' ∨ c = 'x' ∨ c = 'X' then without_sign_flags fl else fl) ++ ds ++
          pp ++ ['l', 'l', c]) 0 args) := by
  rcases integer_letter_cases hc with h | h | h | h | h | h <;> subst h
  · exact format_strict_signed render args fl ds pp m 'd' hfl hds hw hpp hm (Or.inl rfl)
  · exact format_strict_signed render args fl ds pp m 'i' hfl hds hw hpp hm (Or.inr rfl)
  · refine format_strict_shape render args fl ds pp m 'o' .unsigned_long_long _ hfl hds hw hpp
      hm rfl (by decide) ?_
    intro fmt j
    rw [string_formatter.dispatch_conversion_oct_hex render 'o' (Or.inl rfl),
      without_sign_flags_shape fl ds pp hds hpp]
    rfl
  · refine format_strict_shape render args fl ds pp m 'u' .unsigned_long_long _ hfl hds hw hpp
      hm rfl (by decide) ?_
    intro fmt j
    rw [string_formatter.dispatch_conversion_u]
    rfl
  · refine format_strict_shape render args fl ds pp m 'x' .unsigned_long_long _ hfl hds hw hpp
      hm rfl (by decide) ?_
    intro fmt j
    rw [string_formatter.dispatch_conversion_oct_hex render 'x' (Or.inr (Or.inl rfl)),
      without_sign_flags_shape fl ds pp hds hpp]
    rfl
  · refine format_strict_shape render args fl ds pp m 'X' .unsigned_long_long _ hfl hds hw hpp
      hm rfl (by decide) ?_
    intro fmt j
    rw [string_formatter.dispatch_conversion_oct_hex render 'X' (Or.inr (Or.inr rfl)),
      without_sign_flags_shape fl ds pp hds hpp]
    rfl

/-- C12: a length modifier in front of an integer conversion letter changes nothing: at any
state `read_conversion` dispatches the letter with the same sub-format, in which the modifier
does not appear, as it does without the modifier; a format of literal flags, width and
precision gives the same result, output or error, with and without the modifier, for every
argument list, and the sub-format handed to the rendering primitive holds the one `ll` that
the formatter adds. -/
theorem C12_length_modifier_discarded (render : Backend) (args : List Arg)
    (fl ds pp m : List Char) (c : Char)
    (hfl : ∀ x ∈ fl, string_formatter.is_flag x = true) (hds : ∀ x ∈ ds, is_digit x = true)
    (hw : string_formatter.is_flag (ds.headD 'd') = false)
    (hpp : pp = [] ∨ ∃ ps, pp = '.' :: ps ∧ ∀ x ∈ ps, is_digit x = true)
    (hm : m ∈ [['h', 'h'], ['h'], ['l', 'l'], ['l'], ['z'], ['t']])
    (hc : c ∈ ['d', 'i', 'o', 'u', 'x', 'X']) :
    format_strict render ('%' :: (fl ++ (ds ++ (pp ++ (m ++ [c]))))) args =
      format_strict render ('%' :: (fl ++ (ds ++ (pp ++ [c])))) args ∧
    format_strict render ('%' :: (fl ++ (ds ++ (pp ++ (m ++ [c]))))) args =
      some (render_nth_arg render
        (if c = 'd' ∨ c = 'i' then .signed_long_long else .unsigned_long_long)
        (['%'] ++ (if c = 'o' ∨ c = 'x' ∨ c = 'X' then without_sign_flags fl else fl) ++ ds ++
          pp ++ ['l', 'l', c]) 0 args) ∧
    (∀ (fmt fmt1 : List Char) (i i1 : Nat) (r out cf tb : List Char) (ai index : Int),
      fmt.drop i = m ++ c :: r → fmt1.drop i1 = c :: r →
      string_formatter.read_conversion render index args ⟨fmt, i, out, cf, ai, tb⟩ =
        string_formatter.dispatch_conversion render c index args
          ⟨fmt, i + m.length + 1, out, cf ++ [c], ai, tb⟩ ∧
      string_formatter.read_conversion render index args ⟨fmt1, i1, out, cf, ai, tb⟩ =
        string_formatter.dispatch_conversion render c index args
          ⟨fmt1, i1 + 1, out, cf ++ [c], ai, tb⟩) := by
  have hm1 : m ∈ length_modifiers := List.mem_cons_of_mem _ hm
  have hce : c ≠ 'l' ∧ c ≠ 'h' ∧ c ≠ 'z' ∧ c ≠ 't' := by
    rcases integer_letter_cases hc with h | h | h | h | h | h <;> subst h <;> decide
  have h1 := format_strict_integer render args fl ds pp m c hfl hds hw hpp hm1 hc
  have h2 := format_strict_integer render args fl ds pp [] c hfl hds hw hpp (by decide) hc
  refine ⟨h1.trans h2.symm, h1, ?_⟩
  intro fmt fmt1 i i1 r out cf tb ai index hd hd1
  exact ⟨string_formatter.read_conversion_mk_modifier render index args m c r hm1 hce.1 hce.2.1
      hce.2.2.1 hce.2.2.2 hd out cf ai tb,
    string_formatter.read_conversion_mk render index args c r hd1 hce.1 hce.2.1 hce.2.2.1
      hce.2.2.2 out cf ai tb⟩

/-- C12 at `%-5hhd` and `%-5d`. -/
theorem C12_length_modifier_discarded_witness :
    ((∀ x ∈ ['-'], string_formatter.is_flag x = true) ∧ (∀ x ∈ ['5'], is_digit x = true) ∧
      string_formatter.is_flag (['5'].headD 'd') = false ∧
      (([] : List Char) = [] ∨ ∃ ps, [] = '.' :: ps ∧ ∀ x ∈ ps, is_digit x = true) ∧
      ['h', 'h'] ∈ [['h', 'h'], ['h'], ['l', 'l'], ['l'], ['z'], ['t']] ∧
      'd' ∈ ['d', 'i', 'o', 'u', 'x', 'X']) ∧
    format_strict printf_backend "%-5hhd".toList [.sint 300] =
      format_strict printf_backend "%-5d".toList [.sint 300] ∧
    format_strict printf_backend "%-5hhd".toList [.sint 300] = some (.ok "300  ".toList) :=
  ⟨⟨by decide, by decide, rfl, Or.inl rfl, by decide, by decide⟩,
    (C12_length_modifier_discarded printf_backend [.sint 300] ['-'] ['5'] [] ['h', 'h'] 'd'
      (by decide) (by decide) rfl (Or.inl rfl) (by decide) (by decide)).1, rfl⟩

/-! ## Invalid specifiers -/

namespace string_formatter

/-- The loop after a literal prefix of the format. -/
theorem parse_after_literal (render : Backend) (args : List Arg) (lit t : List Char)
    (hlit : ∀ c ∈ lit, c ≠ '%' ∧ c ≠ NUL) :
    parse render args ⟨lit ++ t, 0, [], [], 0, []⟩ =
      parse_loop render args (t.length + 1) ⟨lit ++ t, lit.length, lit, [], 0, []⟩ := by
  have h := parse_loop_literal render args lit t hlit (t.length + 1)
    ⟨lit ++ t, 0, [], [], 0, []⟩ (by simp)
  have hfuel : (lit ++ t).length + 1 = t.length + 1 + lit.length := by
    rw [List.length_append]; omega
  unfold parse
  dsimp only at h ⊢
  rw [hfuel, h]
  simp

/-- The character at the conversion position, when it is no conversion letter, is rejected
before any argument is looked at. -/
theorem read_conversion_invalid (render : Backend) (index : Int) (args : List Arg)
    (sf : string_formatter)
    (hc : sf.skip_length_modifier.consume_next_input.1 ∉ conversion_letters) :
    read_conversion render index args sf =
      .error (.InvalidSpecifier sf.skip_length_modifier.consume_next_input.1) := by
  unfold read_conversion
  exact dispatch_conversion_invalid render _ hc index args _

/-- A specifier of literal flags, width and precision whose conversion position holds no
conversion letter stops the loop with `InvalidSpecifier`. -/
theorem parse_loop_mk_invalid (render : Backend) (args : List Arg) (fuel : Nat)
    (fl ds pp m : List Char) (c : Char) (r : List Char)
    (hfl : ∀ x ∈ fl, is_flag x = true) (hds : ∀ x ∈ ds, is_digit x = true)
    (hw : is_flag (ds.headD 'd') = false)
    (hpp : pp = [] ∨ ∃ ps, pp = '.' :: ps ∧ ∀ x ∈ ps, is_digit x = true)
    (hm : m ∈ length_modifiers) (hc : ends_specifier c = true)
    (hinv : c ∉ conversion_letters)
    (hhead : (fl ++ (ds ++ (pp ++ (m ++ c :: r)))).headD NUL ≠ '%')
    {fmt : List Char} {i : Nat} (h : fmt.drop i = '%' :: (fl ++ (ds ++ (pp ++ (m ++ c :: r)))))
    (out cf : List Char) (ai : Int) (tb : List Char) :
    parse_loop render args (fuel + 1) ⟨fmt, i, out, cf, ai, tb⟩ =
      some (.error (.InvalidSpecifier c)) := by
  rw [parse_loop_mk_specifier render args fuel _ h hhead,
    parse_specifier_mk_shape render args fl ds pp m c r hfl hds hw hpp hm hc
      (drop_succ_of_drop h), dispatch_conversion_invalid render c hinv]

/-- The same when the format ends before the conversion letter. -/
theorem parse_loop_mk_cut (render : Backend) (args : List Arg) (fuel : Nat)
    (fl ds pp m : List Char)
    (hfl : ∀ x ∈ fl, is_flag x = true) (hds : ∀ x ∈ ds, is_digit x = true)
    (hw : is_flag (ds.headD 'd') = false)
    (hpp : pp = [] ∨ ∃ ps, pp = '.' :: ps ∧ ∀ x ∈ ps, is_digit x = true)
    (hm : m ∈ length_modifiers)
    {fmt : List Char} {i : Nat} (h : fmt.drop i = '%' :: (fl ++ (ds ++ (pp ++ (m ++ [])))))
    (out cf : List Char) (ai : Int) (tb : List Char) :
    parse_loop render args (fuel + 1) ⟨fmt, i, out, cf, ai, tb⟩ =
      some (.error (.InvalidSpecifier NUL)) := by
  have hhead : (fl ++ (ds ++ (pp ++ (m ++ [])))).headD NUL ≠ '%' := by
    cases fl with
    | cons x fl =>
      intro e
      have e1 : x = '%' := e
      rw [e1] at hfl
      exact absurd (hfl '%' (List.mem_cons_self _ _)) (by decide)
    | nil =>
      cases ds with
      | cons x ds =>
        intro e
        have e1 : x = '%' := e
        rw [e1] at hds
        exact absurd (hds '%' (List.mem_cons_self _ _)) (by decide)
      | nil =>
        rcases hpp with e | ⟨ps, e, _⟩
        · subst e
          unfold length_modifiers at hm
          simp only [List.mem_cons, List.mem_singleton, List.mem_nil_iff, or_false] at hm
          rcases hm with e | e | e | e | e | e | e <;> subst e <;> simp [NUL]
        · subst e
          simp
  rw [parse_loop_mk_specifier render args fuel _ h hhead,
    parse_specifier_mk_shape_end render args fl ds pp m hfl hds hw hpp hm
      (drop_succ_of_drop h)]

end string_formatter

/-- A format whose first specifier has literal flags, width and precision and no conversion
letter at its conversion position fails with `InvalidSpecifier`. -/
theorem format_strict_invalid (render : Backend) (args : List Arg)
    (lit fl ds pp m : List Char) (c : Char) (r : List Char)
    (hlit : ∀ x ∈ lit, x ≠ '%' ∧ x ≠ NUL)
    (hfl : ∀ x ∈ fl, string_formatter.is_flag x = true) (hds : ∀ x ∈ ds, is_digit x = true)
    (hw : string_formatter.is_flag (ds.headD 'd') = false)
    (hpp : pp = [] ∨ ∃ ps, pp = '.' :: ps ∧ ∀ x ∈ ps, is_digit x = true)
    (hm : m ∈ length_modifiers) (hc : ends_specifier c = true)
    (hinv : c ∉ conversion_letters)
    (hhead : (fl ++ (ds ++ (pp ++ (m ++ c :: r)))).headD NUL ≠ '%') :
    format_strict render (lit ++ '%' :: (fl ++ (ds ++ (pp ++ (m ++ c :: r))))) args =
      some (.error (.InvalidSpecifier c)) := by
  unfold format_strict
  rw [string_formatter.parse_after_literal render args lit _ hlit, List.length_cons,
    string_formatter.parse_loop_mk_invalid render args _ fl ds pp m c r hfl hds hw hpp hm hc
      hinv hhead (List.drop_left _ _)]

/-- A format that ends inside its first specifier, before the conversion letter, fails with
`InvalidSpecifier`. -/
theorem format_strict_cut (render : Backend) (args : List Arg)
    (lit fl ds pp m : List Char)
    (hlit : ∀ x ∈ lit, x ≠ '%' ∧ x ≠ NUL)
    (hfl : ∀ x ∈ fl, string_formatter.is_flag x = true) (hds : ∀ x ∈ ds, is_digit x = true)
    (hw : string_formatter.is_flag (ds.headD 'd') = false)
    (hpp : pp = [] ∨ ∃ ps, pp = '.' :: ps ∧ ∀ x ∈ ps, is_digit x = true)
    (hm : m ∈ length_modifiers) :
    format_strict render (lit ++ '%' :: (fl ++ (ds ++ (pp ++ (m ++ []))))) args =
      some (.error (.InvalidSpecifier NUL)) := by
  unfold format_strict
  rw [string_formatter.parse_after_literal render args lit _ hlit, List.length_cons,
    string_formatter.parse_loop_mk_cut render args _ fl ds pp m hfl hds hw hpp hm
      (List.drop_left _ _)]

/-- C13 as stated fails: in `%*y` the conversion position holds `y`, which is no conversion
letter, but the `*` width is resolved first: without arguments the failure is
`IndexOutOfRange`, and with a string argument a conversion is attempted and the failure is
`UnsupportedConversion`. -/
theorem C13_counterexample_star_width :
    'y' ∉ conversion_letters ∧
    format_strict printf_backend "%*y".toList [] = some (.error (.IndexOutOfRange 0 0)) ∧
    format_strict printf_backend "%*y".toList [.string ['a']] =
      some (.error (.UnsupportedConversion (.string ['a']) .int_)) ∧
    format_strict printf_backend "%d%y".toList [] = some (.error (.IndexOutOfRange 0 0)) := by
  decide

/-- C13, as the code has it: a specifier without `*` whose conversion position holds a
character that is no conversion letter, or which is cut off by the end of the format, makes
`format_strict` fail with `InvalidSpecifier`, for every argument list, when only literal text
precedes it; at any state `read_conversion` rejects such a character without looking at the
arguments, and the loop stops there; a `*` width that resolves to an integer leaves the
failure the same. -/
theorem C13_invalid_specifier (render : Backend) (args : List Arg)
    (lit fl ds pp m r : List Char)
    (hlit : ∀ x ∈ lit, x ≠ '%' ∧ x ≠ NUL)
    (hfl : ∀ x ∈ fl, string_formatter.is_flag x = true) (hds : ∀ x ∈ ds, is_digit x = true)
    (hw : string_formatter.is_flag (ds.headD 'd') = false)
    (hpp : pp = [] ∨ ∃ ps, pp = '.' :: ps ∧ ∀ x ∈ ps, is_digit x = true)
    (hm : m ∈ length_modifiers) :
    (∀ c : Char, ends_specifier c = true → c ∉ conversion_letters →
      (fl ++ (ds ++ (pp ++ (m ++ c :: r)))).headD NUL ≠ '%' →
      format_strict render (lit ++ '%' :: (fl ++ (ds ++ (pp ++ (m ++ c :: r))))) args =
        some (.error (.InvalidSpecifier c))) ∧
    format_strict render (lit ++ '%' :: (fl ++ (ds ++ (pp ++ (m ++ []))))) args =
      some (.error (.InvalidSpecifier NUL)) ∧
    (∀ (index : Int) (sf : string_formatter),
      sf.skip_length_modifier.consume_next_input.1 ∉ conversion_letters →
      string_formatter.read_conversion render index args sf =
        .error (.InvalidSpecifier sf.skip_length_modifier.consume_next_input.1)) ∧
    (∀ (c : Char) (fuel : Nat) (fmt : List Char) (i : Nat) (out cf tb : List Char) (ai : Int),
      ends_specifier c = true → c ∉ conversion_letters →
      (fl ++ (ds ++ (pp ++ (m ++ c :: r)))).headD NUL ≠ '%' →
      fmt.drop i = '%' :: (fl ++ (ds ++ (pp ++ (m ++ c :: r)))) →
      string_formatter.parse_loop render args (fuel + 1) ⟨fmt, i, out, cf, ai, tb⟩ =
        some (.error (.InvalidSpecifier c))) ∧
    format_strict render "%".toList args = some (.error (.InvalidSpecifier NUL)) ∧
    format_strict render "%5".toList args = some (.error (.InvalidSpecifier NUL)) ∧
    format_strict render "%-".toList args = some (.error (.InvalidSpecifier NUL)) ∧
    format_strict render "%y".toList args = some (.error (.InvalidSpecifier 'y')) ∧
    (∀ (w : Int) (rest : List Arg),
      format_strict render "%*y".toList (.sint w :: rest) =
        some (.error (.InvalidSpecifier 'y'))) := by
  refine ⟨fun c hc hinv hhead =>
      format_strict_invalid render args lit fl ds pp m c r hlit hfl hds hw hpp hm hc hinv hhead,
    format_strict_cut render args lit fl ds pp m hlit hfl hds hw hpp hm,
    fun index sf h => string_formatter.read_conversion_invalid render index args sf h,
    fun c fuel fmt i out cf tb ai hc hinv hhead h =>
      string_formatter.parse_loop_mk_invalid render args fuel fl ds pp m c r hfl hds hw hpp hm
        hc hinv hhead h out cf ai tb,
    format_strict_cut render args [] [] [] [] [] (by simp) (by simp) (by simp) rfl
      (Or.inl rfl) (by decide),
    format_strict_cut render args [] [] ['5'] [] [] (by simp) (by simp) (by decide) rfl
      (Or.inl rfl) (by decide),
    format_strict_cut render args [] ['-'] [] [] [] (by simp) (by decide) (by simp) rfl
      (Or.inl rfl) (by decide),
    format_strict_invalid render args [] [] [] [] [] 'y' [] (by simp) (by simp) (by simp) rfl
      (Or.inl rfl) (by decide) rfl (by decide) (by decide),
    fun w rest => rfl⟩

/-- C13 at the format `ab%-5ly!` with one argument. -/
theorem C13_invalid_specifier_witness :
    ((∀ x ∈ ['a', 'b'], x ≠ '%' ∧ x ≠ NUL) ∧
      (∀ x ∈ ['-'], string_formatter.is_flag x = true) ∧ (∀ x ∈ ['5'], is_digit x = true) ∧
      string_formatter.is_flag (['5'].headD 'd') = false ∧
      (([] : List Char) = [] ∨ ∃ ps, [] = '.' :: ps ∧ ∀ x ∈ ps, is_digit x = true) ∧
      ['l'] ∈ length_modifiers) ∧
    format_strict printf_backend "ab%-5ly!".toList [.sint 7] =
      some (.error (.InvalidSpecifier 'y')) :=
  ⟨⟨by decide, by decide, by decide, rfl, Or.inl rfl, by decide⟩,
    (C13_invalid_specifier printf_backend [.sint 7] ['a', 'b'] ['-'] ['5'] [] ['l'] ['!']
      (by decide) (by decide) (by decide) rfl (Or.inl rfl) (by decide)).1 'y' rfl (by decide)
      (by decide)⟩

/-! ## The conversion `s` -/

/-- The format `%s` asks for the first argument as a string and renders it with the
sub-format `%s`. -/
theorem format_strict_s (render : Backend) (args : List Arg) :
    format_strict render ['%', 's'] args =
      some (render_nth_arg render .string_view_ ['%', 's'] 0 args) :=
  format_strict_shape render args [] [] [] [] 's' .string_view_ ['%', 's'] (by simp) (by simp)
    rfl (Or.inl rfl) (by decide) rfl (by decide) (fun _ _ => rfl)

/-- With the reference rendering primitive, `%s` gives the text the first argument converts
to. -/
theorem string_format_s_of_convert (a : Arg) (rest : List Arg) (text buffer : List Char)
    (h : convert .string_view_ [] a = .ok (.string_view_ text, buffer)) :
    string_format printf_backend ['%', 's'] (a :: rest) = some text := by
  have hget : get_nth_arg_as .string_view_ [] 0 0 (a :: rest) =
      .ok (.string_view_ text, buffer) := h
  have hr : render_nth_arg printf_backend .string_view_ ['%', 's'] 0 (a :: rest) =
      .ok text := by
    unfold render_nth_arg
    rw [hget]
    dsimp only
    rw [printf_backend_s]
  have e := format_strict_s printf_backend (a :: rest)
  rw [hr] at e
  exact string_format_of_ok e

/-- C14: the format `%s` asks for its argument as a string, and `convert` gives a `std::string`,
`std::string_view` or C string as it is, an integer as its decimal text, and a `char` as
the one-character string; with the reference rendering primitive `format("%s", [t])` is `t`,
`format("%s", [n])` is the decimal text of `n` (a `-` for a negative value, then the digits of
which `n` is the value), and `format("%s", [ch])` is the string of the one character `ch`. -/
theorem C14_string_conversion (render : Backend) (t : List Char) (n : Int) (u : Nat)
    (ch : Char) (addr : Nat) (rest : List Arg) :
    (∀ args : List Arg, format_strict render "%s".toList args =
      some (render_nth_arg render .string_view_ ['%', 's'] 0 args)) ∧
    (convert .string_view_ [] (.string t) = .ok (.string_view_ t, []) ∧
      convert .string_view_ [] (.string_view t) = .ok (.string_view_ t, []) ∧
      convert .string_view_ [] (.cstring addr t) = .ok (.string_view_ t, []) ∧
      convert .string_view_ [] (.sint n) = .ok (.string_view_ (to_string n), to_string n) ∧
      convert .string_view_ [] (.uint u) =
        .ok (.string_view_ (nat_to_string u), nat_to_string u) ∧
      convert .string_view_ [] (.character ch) = .ok (.string_view_ [ch], [ch])) ∧
    (string_format printf_backend "%s".toList (.string t :: rest) = some t ∧
      string_format printf_backend "%s".toList (.string_view t :: rest) = some t ∧
      string_format printf_backend "%s".toList (.cstring addr t :: rest) = some t ∧
      string_format printf_backend "%s".toList (.sint n :: rest) = some (to_string n) ∧
      string_format printf_backend "%s".toList (.uint u :: rest) = some (nat_to_string u) ∧
      string_format printf_backend "%s".toList (.character ch :: rest) = some [ch]) ∧
    (to_string n = (if n < 0 then ['-'] else []) ++ nat_to_string n.natAbs ∧
      digits_value (nat_to_string n.natAbs) = n.natAbs ∧
      digits_value (nat_to_string u) = u ∧
      (∀ c ∈ nat_to_string u, is_digit c = true)) ∧
    string_format printf_backend "%s".toList [.sint (-42)] = some "-42".toList ∧
    string_format printf_backend "%s".toList [.character 'A'] = some "A".toList ∧
    string_format printf_backend "%s".toList [.character 'A'] ≠ some "65".toList := by
  have hu : convert .string_view_ [] (.uint u) =
      .ok (.string_view_ (nat_to_string u), nat_to_string u) := by
    have e : to_string (u : Int) = nat_to_string u := by
      rw [to_string_of_nonneg (Int.ofNat_nonneg u)]
      rfl
    have e1 : convert .string_view_ [] (.uint u) =
        .ok (.string_view_ (to_string (u : Int)), to_string (u : Int)) := rfl
    rw [e1, e]
  refine ⟨fun args => format_strict_s render args, ⟨rfl, rfl, rfl, rfl, hu, rfl⟩,
    ⟨string_format_s_of_convert _ rest t [] rfl, string_format_s_of_convert _ rest t [] rfl,
      string_format_s_of_convert _ rest t [] rfl,
      string_format_s_of_convert _ rest (to_string n) (to_string n) rfl,
      string_format_s_of_convert _ rest (nat_to_string u) (nat_to_string u) hu,
      string_format_s_of_convert _ rest [ch] [ch] rfl⟩,
    ⟨?_, digits_value_nat_to_string _, digits_value_nat_to_string _,
      is_digit_of_mem_nat_to_string _⟩, rfl, rfl, by decide⟩
  unfold to_string
  split <;> rfl

/-! ## Integer arguments are cast to 64 bits -/

theorem render_nth_arg_of_get (render : Backend) (rt : Requested) (cf : List Char) (k : Nat)
    (args : List Arg) (value : Value) (buffer : List Char)
    (h : get_nth_arg_as rt [] 0 k args = .ok (value, buffer)) :
    render_nth_arg render rt cf k args = render_value render cf value := by
  unfold render_nth_arg render_value
  rw [h]

theorem to_ull_of_range {n : Int} (h1 : -9223372036854775808 ≤ n)
    (h2 : n < 9223372036854775808) :
    to_ull n = if n < 0 then (n + 18446744073709551616).toNat else n.toNat := by
  unfold to_ull
  split <;> omega

theorem to_sll_of_nat {u : Nat} (h : u < 18446744073709551616) :
    to_sll (u : Int) =
      if u < 9223372036854775808 then (u : Int) else (u : Int) - 18446744073709551616 := by
  unfold to_sll
  split <;> omega

/-- A bare integer conversion letter: the requested type and the sub-format. -/
theorem format_strict_plain_integer (render : Backend) (args : List Arg) (c : Char)
    (hc : c ∈ ['d', 'i', 'o', 'u', 'x', 'X']) :
    format_strict render ['%', c] args =
      some (render_nth_arg render
        (if c = 'd' ∨ c = 'i' then .signed_long_long else .unsigned_long_long)
        ['%', 'l', 'l', c] 0 args) := by
  have h := format_strict_integer render args [] [] [] [] c (by simp) (by simp) rfl
    (Or.inl rfl) (by decide) hc
  rcases integer_letter_cases hc with e | e | e | e | e | e <;> subst e <;> exact h

/-- C17: an integer argument is cast to the 64-bit type of the conversion letter and the cast
cannot fail.  For a signed 64-bit `n` the letters `u`, `o`, `x`, `X` hand `n` modulo `2^64` to
the rendering primitive, and for an unsigned 64-bit `u` the letters `d`, `i` hand over `u` when
`u < 2^63` and `u - 2^64` otherwise; for every integer argument and every integer conversion
letter the formatter reaches the rendering primitive with the cast value.  With the reference
rendering primitive `%u` of `-1` is `18446744073709551615` and `%x` of `-1` is
`ffffffffffffffff`.  A `char` enters the cast with its sign-extended value, between -128 and
127: the byte 200 is handed over as -56 for `d` and as `2^64 - 56` for `u`. -/
theorem C17_integer_cast (render : Backend) (n : Int) (u : Nat) (a : Arg) (rest : List Arg)
    (hn : -9223372036854775808 ≤ n ∧ n < 9223372036854775808)
    (hu : u < 18446744073709551616) (ha : a.is_integer = true) :
    (∀ c ∈ ['u', 'o', 'x', 'X'],
      format_strict render ['%', c] (.sint n :: rest) =
        some (render_value render ['%', 'l', 'l', c]
          (.unsigned_long_long (n % 18446744073709551616).toNat))) ∧
    ((n % 18446744073709551616).toNat =
      if n < 0 then (n + 18446744073709551616).toNat else n.toNat) ∧
    (∀ c ∈ ['d', 'i'],
      format_strict render ['%', c] (.uint u :: rest) =
        some (render_value render ['%', 'l', 'l', c]
          (.signed_long_long
            (if u < 9223372036854775808 then (u : Int)
              else (u : Int) - 18446744073709551616)))) ∧
    (∀ rt : Requested, rt.is_integer = true →
      convert rt [] a = .ok (integer_cast rt a.int_value, [])) ∧
    (∀ c ∈ ['d', 'i', 'o', 'u', 'x', 'X'],
      format_strict render ['%', c] (a :: rest) =
        some (render_value render ['%', 'l', 'l', c]
          (if c = 'd' ∨ c = 'i' then .signed_long_long (to_sll a.int_value)
            else .unsigned_long_long (to_ull a.int_value)))) ∧
    string_format printf_backend "%u".toList [.sint (-1)] =
      some "18446744073709551615".toList ∧
    string_format printf_backend "%x".toList [.sint (-1)] = some "ffffffffffffffff".toList ∧
    string_format printf_backend "%d".toList [.uint 18446744073709551615] =
      some "-1".toList ∧
    (∀ ch : Char, -128 ≤ (Arg.character ch).int_value ∧ (Arg.character ch).int_value < 128 ∧
      ((Arg.character ch).int_value - (ch.toNat : Int)) % 256 = 0) ∧
    format_strict echo_backend "%d".toList [.character (Char.ofNat 200)] =
      some (.ok "<%lld:-56>".toList) ∧
    format_strict echo_backend "%u".toList [.character (Char.ofNat 200)] =
      some (.ok "<%llu:18446744073709551560>".toList) := by
  have hchar : ∀ ch : Char, -128 ≤ (Arg.character ch).int_value ∧
      (Arg.character ch).int_value < 128 ∧
      ((Arg.character ch).int_value - (ch.toNat : Int)) % 256 = 0 := by
    intro ch
    show -128 ≤ char_to_int ch ∧ char_to_int ch < 128 ∧
      (char_to_int ch - (ch.toNat : Int)) % 256 = 0
    unfold char_to_int
    omega
  have hconv : ∀ rt : Requested, rt.is_integer = true →
      convert rt [] a = .ok (integer_cast rt a.int_value, []) := by
    intro rt hrt
    unfold convert
    rw [hrt, ha]
    rfl
  have hall : ∀ (b : Arg), b.is_integer = true → ∀ c ∈ ['d', 'i', 'o', 'u', 'x', 'X'],
      format_strict render ['%', c] (b :: rest) =
        some (render_value render ['%', 'l', 'l', c]
          (if c = 'd' ∨ c = 'i' then .signed_long_long (to_sll b.int_value)
            else .unsigned_long_long (to_ull b.int_value))) := by
    intro b hb c hc
    have hcb : ∀ rt : Requested, rt.is_integer = true →
        convert rt [] b = .ok (integer_cast rt b.int_value, []) := by
      intro rt hrt
      unfold convert
      rw [hrt, hb]
      rfl
    rw [format_strict_plain_integer render (b :: rest) c hc]
    rcases integer_letter_cases hc with e | e | e | e | e | e <;> subst e
    · exact congrArg some (render_nth_arg_of_get render _ _ 0 _ _ []
        (hcb .signed_long_long rfl))
    · exact congrArg some (render_nth_arg_of_get render _ _ 0 _ _ []
        (hcb .signed_long_long rfl))
    · exact congrArg some (render_nth_arg_of_get render _ _ 0 _ _ []
        (hcb .unsigned_long_long rfl))
    · exact congrArg some (render_nth_arg_of_get render _ _ 0 _ _ []
        (hcb .unsigned_long_long rfl))
    · exact congrArg some (render_nth_arg_of_get render _ _ 0 _ _ []
        (hcb .unsigned_long_long rfl))
    · exact congrArg some (render_nth_arg_of_get render _ _ 0 _ _ []
        (hcb .unsigned_long_long rfl))
  refine ⟨?_, ?_, ?_, hconv, hall a ha, rfl, rfl, rfl, hchar, rfl, rfl⟩
  · intro c hc
    have hc1 : c ∈ ['d', 'i', 'o', 'u', 'x', 'X'] := by
      simp only [List.mem_cons, List.mem_singleton, List.mem_nil_iff, or_false] at hc ⊢
      tauto
    have h := hall (.sint n) rfl c hc1
    have hne : ¬ (c = 'd' ∨ c = 'i') := by
      simp only [List.mem_cons, List.mem_singleton, List.mem_nil_iff, or_false] at hc
      rcases hc with e | e | e | e <;> subst e <;> decide
    rw [if_neg hne] at h
    exact h
  · have h := to_ull_of_range hn.1 hn.2
    unfold to_ull at h
    exact h
  · intro c hc
    have hc1 : c ∈ ['d', 'i', 'o', 'u', 'x', 'X'] := by
      simp only [List.mem_cons, List.mem_singleton, List.mem_nil_iff, or_false] at hc ⊢
      tauto
    have h := hall (.uint u) rfl c hc1
    have hpos : c = 'd' ∨ c = 'i' := by
      simpa only [List.mem_cons, List.mem_singleton, List.mem_nil_iff, or_false] using hc
    rw [if_pos hpos] at h
    rw [h, ← to_sll_of_nat hu]
    rfl

/-- C17 at the smallest signed value, the largest unsigned value and the `char` of the byte
200. -/
theorem C17_integer_cast_witness :
    ((-9223372036854775808 ≤ (-9223372036854775808 : Int) ∧
        (-9223372036854775808 : Int) < 9223372036854775808) ∧
      18446744073709551615 < 18446744073709551616 ∧
      (Arg.character (Char.ofNat 200)).is_integer = true) ∧
    format_strict printf_backend ['%', 'u'] [.sint (-9223372036854775808)] =
      some (render_value printf_backend ['%', 'l', 'l', 'u']
        (.unsigned_long_long ((-9223372036854775808 : Int) % 18446744073709551616).toNat)) ∧
    format_strict printf_backend ['%', 'd'] [.character (Char.ofNat 200)] =
      some (.ok "-56".toList) :=
  ⟨⟨by decide, by decide, rfl⟩,
    (C17_integer_cast printf_backend (-9223372036854775808) 18446744073709551615
      (.character (Char.ofNat 200)) [] (by decide) (by decide) rfl).1 'u' (by decide),
    ((C17_integer_cast printf_backend (-9223372036854775808) 18446744073709551615
      (.character (Char.ofNat 200)) [] (by decide) (by decide) rfl).2.2.2.2.1 'd'
      (by decide)).trans rfl⟩

/-! ## The conversion `c` and boolean arguments -/

/-- The format `%c` asks for the first argument as an `int` and renders it with the
sub-format `%c`. -/
theorem format_strict_c (render : Backend) (args : List Arg) :
    format_strict render ['%', 'c'] args =
      some (render_nth_arg render .int_ ['%', 'c'] 0 args) :=
  format_strict_shape render args [] [] [] [] 'c' .int_ ['%', 'c'] (by simp) (by simp)
    rfl (Or.inl rfl) (by decide) rfl (by decide) (fun _ _ => rfl)

/-- C19: the format `%c` asks for its argument as an `int`: an integer or enumeration
argument is cast to `int` (the value wrapped into 32 bits) and handed to the rendering
primitive with the sub-format `%c`, and every other argument, a string of one character
included, fails with `UnsupportedConversion`.  A `char` is handed over with its sign-extended
value: the byte 200 as the `int` -56, which the reference rendering primitive prints as the
byte 200 again. -/
theorem C19_char_conversion (render : Backend) (a : Arg) (rest : List Arg) (t : List Char)
    (d : Double) (p v : Int) (addr : Nat) :
    format_strict render "%c".toList (a :: rest) =
      some (if a.is_integer || a.is_enum then
          render_value render ['%', 'c'] (.int_ (to_int a.int_value))
        else .error (.UnsupportedConversion a .int_)) ∧
    ((Arg.character 'x').is_integer = true ∧ (Arg.sint v).is_integer = true ∧
      (Arg.uint addr).is_integer = true ∧ (Arg.enumeration p).is_enum = true) ∧
    (format_strict render "%c".toList (.string t :: rest) =
        some (.error (.UnsupportedConversion (.string t) .int_)) ∧
      format_strict render "%c".toList (.string_view t :: rest) =
        some (.error (.UnsupportedConversion (.string_view t) .int_)) ∧
      format_strict render "%c".toList (.cstring addr t :: rest) =
        some (.error (.UnsupportedConversion (.cstring addr t) .int_)) ∧
      format_strict render "%c".toList (.translation t :: rest) =
        some (.error (.UnsupportedConversion (.translation t) .int_)) ∧
      format_strict render "%c".toList (.string_id t :: rest) =
        some (.error (.UnsupportedConversion (.string_id t) .int_)) ∧
      format_strict render "%c".toList (.floating d :: rest) =
        some (.error (.UnsupportedConversion (.floating d) .int_)) ∧
      format_strict render "%c".toList (.pointer addr :: rest) =
        some (.error (.UnsupportedConversion (.pointer addr) .int_))) ∧
    (-2147483648 ≤ to_int v ∧ to_int v < 2147483648 ∧ (to_int v - v) % 4294967296 = 0) ∧
    format_strict render "%c".toList [.string ['a']] =
      some (.error (.UnsupportedConversion (.string ['a']) .int_)) ∧
    string_format printf_backend "%c".toList [.sint 65] = some "A".toList ∧
    string_format printf_backend "%c".toList [.character 'A'] = some "A".toList ∧
    (Arg.character (Char.ofNat 200)).int_value = -56 ∧
    format_strict echo_backend "%c".toList [.character (Char.ofNat 200)] =
      some (.ok "<%c:-56>".toList) ∧
    string_format printf_backend "%c".toList [.character (Char.ofNat 200)] =
      some [Char.ofNat 200] := by
  have hgen : ∀ b : Arg, format_strict render ['%', 'c'] (b :: rest) =
      some (if b.is_integer || b.is_enum then
          render_value render ['%', 'c'] (.int_ (to_int b.int_value))
        else .error (.UnsupportedConversion b .int_)) := by
    intro b
    rw [format_strict_c render (b :: rest)]
    cases b <;> rfl
  refine ⟨hgen a, ⟨rfl, rfl, rfl, rfl⟩, ⟨hgen _, hgen _, hgen _, hgen _, hgen _, hgen _, hgen _⟩,
    ?_, rfl, rfl, rfl, by decide, rfl, rfl⟩
  unfold to_int
  omega

/-- C20: `bool` is excluded by `is_numeric`, and so by `is_integer`, and it fails the
`static_assert` of the catch-all `convert`; no overload of `convert` takes a boolean argument,
for any requested type, so every conversion letter applied to a boolean fails with
`UnsupportedConversion` and nothing is rendered. -/
theorem C20_boolean_unsupported (render : Backend) (b : Bool) (rest : List Arg) :
    (Arg.boolean b).is_numeric = false ∧ (Arg.boolean b).is_integer = false ∧
    (Arg.boolean b).printable = false ∧
    (∀ (rt : Requested) (temp_buffer : List Char),
      convert rt temp_buffer (.boolean b) = .error (.UnsupportedConversion (.boolean b) rt)) ∧
    (∀ c ∈ conversion_letters, ∃ rt : Requested,
      format_strict render ['%', c] (.boolean b :: rest) =
        some (.error (.UnsupportedConversion (.boolean b) rt))) ∧
    format_strict printf_backend "%d".toList [.boolean true] =
      some (.error (.UnsupportedConversion (.boolean true) .signed_long_long)) ∧
    format_strict printf_backend "%d".toList [.boolean true] ≠ some (.ok "1".toList) ∧
    format_strict printf_backend "%s".toList [.boolean false] =
      some (.error (.UnsupportedConversion (.boolean false) .string_view_)) := by
  refine ⟨rfl, rfl, rfl, ?_, ?_, rfl, by decide, rfl⟩
  · intro rt temp_buffer
    cases rt <;> rfl
  · intro c hc
    unfold conversion_letters at hc
    simp only [List.mem_cons, List.mem_singleton, List.mem_nil_iff, or_false] at hc
    rcases hc with e | e | e | e | e | e | e | e | e | e | e | e | e | e | e | e | e <;>
      subst e <;> exact ⟨_, rfl⟩

/-! ## The pair `%%` -/

theorem length_le_literal_format (pieces : List (Option Char)) :
    pieces.length ≤ (literal_format pieces).length := by
  induction pieces with
  | nil => exact Nat.le_refl _
  | cons p pieces ih =>
    cases p with
    | none => simp only [literal_format, List.length_cons]; omega
    | some c => simp only [literal_format, List.length_cons]; omega

namespace string_formatter

/-- The loop over a run of plain characters and `%%` pairs: one iteration per piece, the text
goes to the output, and nothing else of the formatter changes. -/
theorem parse_loop_pieces (render : Backend) (args : List Arg) (pieces : List (Option Char))
    (hp : ∀ p ∈ pieces, p ≠ some '%' ∧ p ≠ some NUL) (r : List Char) (fuel : Nat)
    (fmt : List Char) (cf : List Char) (ai : Int) (tb : List Char) :
    ∀ (i : Nat) (out : List Char), fmt.drop i = literal_format pieces ++ r →
      parse_loop render args (fuel + pieces.length) ⟨fmt, i, out, cf, ai, tb⟩ =
        parse_loop render args fuel
          ⟨fmt, i + (literal_format pieces).length, out ++ literal_output pieces, cf, ai,
            tb⟩ := by
  induction pieces with
  | nil =>
    intro i out _
    simp [literal_format, literal_output]
  | cons p pieces ih =>
    intro i out h
    have hp1 : ∀ p ∈ pieces, p ≠ some '%' ∧ p ≠ some NUL :=
      fun p hc => hp p (List.mem_cons_of_mem _ hc)
    cases p with
    | none =>
      have h1 : fmt.drop i = '%' :: '%' :: (literal_format pieces ++ r) := h
      have e : i + 1 + 1 + (literal_format pieces).length =
          i + (literal_format (none :: pieces)).length := by
        simp only [literal_format, List.length_cons]
        omega
      have eo : out ++ ['%'] ++ literal_output pieces =
          out ++ literal_output (none :: pieces) := by
        simp [literal_output]
      rw [List.length_cons, ← Nat.add_assoc,
        parse_loop_mk_percent_percent render args _ _ h1,
        ih hp1 _ _ (drop_succ_of_drop (drop_succ_of_drop h1)), e, eo]
    | some c =>
      have h1 : fmt.drop i = c :: (literal_format pieces ++ r) := h
      have hc : c ≠ '%' ∧ c ≠ NUL :=
        ⟨fun e => (hp (some c) (List.mem_cons_self _ _)).1 (congrArg some e),
          fun e => (hp (some c) (List.mem_cons_self _ _)).2 (congrArg some e)⟩
      have e : i + 1 + (literal_format pieces).length =
          i + (literal_format (some c :: pieces)).length := by
        simp only [literal_format, List.length_cons]
        omega
      have eo : out ++ [c] ++ literal_output pieces =
          out ++ literal_output (some c :: pieces) := by
        simp [literal_output]
      rw [List.length_cons, ← Nat.add_assoc,
        parse_loop_mk_char render args _ c _ h1 hc,
        ih hp1 _ _ (drop_succ_of_drop h1), e, eo]

/-- The whole parse of a format of plain characters and `%%` pairs. -/
theorem parse_pieces (render : Backend) (args : List Arg) (pieces : List (Option Char))
    (hp : ∀ p ∈ pieces, p ≠ some '%' ∧ p ≠ some NUL) :
    parse render args ⟨literal_format pieces, 0, [], [], 0, []⟩ =
      some (.ok ⟨literal_format pieces, (literal_format pieces).length,
        literal_output pieces, [], 0, []⟩) := by
  have hle := length_le_literal_format pieces
  have hfuel : (literal_format pieces).length + 1 =
      ((literal_format pieces).length - pieces.length) + 1 + pieces.length := by omega
  have h := parse_loop_pieces render args pieces hp []
    (((literal_format pieces).length - pieces.length) + 1) (literal_format pieces) [] 0 []
    0 [] (by simp)
  unfold parse
  dsimp only
  rw [hfuel, h, parse_loop_mk_end render args _ (by simp)]
  simp

end string_formatter

/-- A format of plain characters and `%%` pairs gives its text with one `%` per pair. -/
theorem format_strict_pieces (render : Backend) (args : List Arg)
    (pieces : List (Option Char)) (hp : ∀ p ∈ pieces, p ≠ some '%' ∧ p ≠ some NUL) :
    format_strict render (literal_format pieces) args = some (.ok (literal_output pieces)) := by
  unfold format_strict
  rw [string_formatter.parse_pieces render args pieces hp]
  rfl

/-- C18 as stated fails: the format `a`, null character, `%%` is built from characters other
than `%` and one `%%` pair, and the output is only `a`. -/
theorem C18_counterexample_embedded_nul :
    literal_format [some 'a', some NUL, none] = ['a', NUL, '%', '%'] ∧
    (∀ p ∈ [some 'a', some NUL, none], p ≠ some '%') ∧
    literal_output [some 'a', some NUL, none] = ['a', NUL, '%'] ∧
    format_strict printf_backend (literal_format [some 'a', some NUL, none]) [] =
      some (.ok ['a']) ∧
    format_strict printf_backend (literal_format [some 'a', some NUL, none]) [] ≠
      some (.ok (literal_output [some 'a', some NUL, none])) := by
  decide

/-- C18, as the code has it: a format built only from `%%` pairs and characters other than `%`
and the null character is parsed without failure for every argument list; the output is the
format with each `%%` replaced by one `%`, and the sequential argument counter is 0 at the
end. -/
theorem C18_percent_percent_literal (render : Backend) (args : List Arg)
    (pieces : List (Option Char)) (hp : ∀ p ∈ pieces, p ≠ some '%' ∧ p ≠ some NUL) :
    format_strict render (literal_format pieces) args = some (.ok (literal_output pieces)) ∧
    format_strict render (literal_format pieces) [] = some (.ok (literal_output pieces)) ∧
    (∃ sf : string_formatter,
      string_formatter.parse render args ⟨literal_format pieces, 0, [], [], 0, []⟩ =
        some (.ok sf) ∧
      sf.current_argument_index = 0 ∧ sf.output = literal_output pieces ∧
      sf.current_index_in_format = (literal_format pieces).length) ∧
    format_strict render "100%% sure".toList args = some (.ok "100% sure".toList) :=
  ⟨format_strict_pieces render args pieces hp, format_strict_pieces render [] pieces hp,
    ⟨_, string_formatter.parse_pieces render args pieces hp, rfl, rfl, rfl⟩,
    format_strict_pieces render args
      [some '1', some '0', some '0', none, some ' ', some 's', some 'u', some 'r', some 'e']
      (by decide)⟩

/-- C18 at the format `50%% off` with one unused argument. -/
theorem C18_percent_percent_literal_witness :
    (∀ p ∈ [some '5', some '0', none, some ' ', some 'o', some 'f', some 'f'],
      p ≠ some '%' ∧ p ≠ some NUL) ∧
    format_strict printf_backend "50%% off".toList [.sint 1] = some (.ok "50% off".toList) :=
  ⟨by decide,
    (C18_percent_percent_literal printf_backend [.sint 1]
      [some '5', some '0', none, some ' ', some 'o', some 'f', some 'f'] (by decide)).1⟩

/-! ## Digits after `%`: argument index or width -/

namespace string_formatter

end string_formatter

namespace string_formatter

theorem same_of_mk (fmt : List Char) (i : Nat) (out cf : List Char) (ai : Int)
    (tb1 tb2 : List Char) :
    same_but_temp_buffer ⟨fmt, i, out, cf, ai, tb1⟩ ⟨fmt, i, out, cf, ai, tb2⟩ :=
  ⟨rfl, rfl, rfl, rfl, rfl⟩

theorem same_with_current_format {a b : string_formatter} (h : same_but_temp_buffer a b)
    (x : List Char) :
    same_but_temp_buffer { a with current_format := x } { b with current_format := x } :=
  ⟨h.1, h.2.1, h.2.2.1, rfl, h.2.2.2.2⟩

theorem same_with_current_argument_index {a b : string_formatter}
    (h : same_but_temp_buffer a b) (x : Int) :
    same_but_temp_buffer { a with current_argument_index := x }
      { b with current_argument_index := x } :=
  ⟨h.1, h.2.1, h.2.2.1, h.2.2.2.1, rfl⟩

theorem same_with_temp_buffer {a b : string_formatter} (h : same_but_temp_buffer a b)
    (x y : List Char) :
    same_but_temp_buffer { a with temp_buffer := x } { b with temp_buffer := y } :=
  ⟨h.1, h.2.1, h.2.2.1, h.2.2.2.1, h.2.2.2.2⟩

theorem same_get_current_input {a b : string_formatter} (h : same_but_temp_buffer a b) :
    a.get_current_input = b.get_current_input := by
  unfold get_current_input
  rw [h.1, h.2.1]

theorem same_consume_next_input {a b : string_formatter} (h : same_but_temp_buffer a b) :
    a.consume_next_input.1 = b.consume_next_input.1 ∧
      same_but_temp_buffer a.consume_next_input.2 b.consume_next_input.2 := by
  have hg := same_get_current_input h
  unfold consume_next_input
  rw [h.1, h.2.1, hg]
  split
  · exact ⟨rfl, rfl, rfl, h.2.2.1, h.2.2.2.1, h.2.2.2.2⟩
  · exact ⟨rfl, h⟩

theorem same_consume_next_input_if (c : Char) {a b : string_formatter}
    (h : same_but_temp_buffer a b) :
    (consume_next_input_if c a).1 = (consume_next_input_if c b).1 ∧
      same_but_temp_buffer (consume_next_input_if c a).2 (consume_next_input_if c b).2 := by
  unfold consume_next_input_if
  rw [same_get_current_input h]
  split
  · exact ⟨rfl, (same_consume_next_input h).2⟩
  · exact ⟨rfl, h⟩

theorem same_has_digit {a b : string_formatter} (h : same_but_temp_buffer a b) :
    a.has_digit = b.has_digit := by
  unfold has_digit
  rw [same_get_current_input h]

theorem same_fuel {a b : string_formatter} (h : same_but_temp_buffer a b) :
    a.format.length - a.current_index_in_format =
      b.format.length - b.current_index_in_format := by
  rw [h.1, h.2.1]

theorem same_parse_integer_loop (fuel : Nat) :
    ∀ (result : Nat) {a b : string_formatter}, same_but_temp_buffer a b →
      (parse_integer_loop fuel result a).1 = (parse_integer_loop fuel result b).1 ∧
        same_but_temp_buffer (parse_integer_loop fuel result a).2
          (parse_integer_loop fuel result b).2 := by
  induction fuel with
  | zero => exact fun _ _ _ h => ⟨rfl, h⟩
  | succ fuel ih =>
    intro result a b h
    unfold parse_integer_loop
    rw [same_has_digit h, (same_consume_next_input h).1]
    split
    · exact ih _ (same_consume_next_input h).2
    · exact ⟨rfl, h⟩

theorem same_parse_integer {a b : string_formatter} (h : same_but_temp_buffer a b) :
    a.parse_integer.1 = b.parse_integer.1 ∧
      same_but_temp_buffer a.parse_integer.2 b.parse_integer.2 := by
  unfold parse_integer
  rw [same_fuel h]
  refine ⟨?_, (same_parse_integer_loop _ 0 h).2⟩
  show ((parse_integer_loop _ 0 a).1 : Int) = ((parse_integer_loop _ 0 b).1 : Int)
  rw [(same_parse_integer_loop _ 0 h).1]

theorem same_read_flags_loop (fuel : Nat) :
    ∀ {a b : string_formatter}, same_but_temp_buffer a b →
      same_but_temp_buffer (read_flags_loop fuel a) (read_flags_loop fuel b) := by
  induction fuel with
  | zero => exact fun h => h
  | succ fuel ih =>
    intro a b h
    unfold read_flags_loop
    rw [same_get_current_input h, (same_consume_next_input h).1, h.2.2.2.1]
    split
    · exact ih (same_with_current_format (same_consume_next_input h).2 _)
    · exact h

theorem same_read_flags {a b : string_formatter} (h : same_but_temp_buffer a b) :
    same_but_temp_buffer a.read_flags b.read_flags := by
  unfold read_flags
  rw [same_fuel h]
  exact same_read_flags_loop _ h

theorem same_forward_digits_loop (fuel : Nat) :
    ∀ {a b : string_formatter}, same_but_temp_buffer a b →
      same_but_temp_buffer (forward_digits_loop fuel a) (forward_digits_loop fuel b) := by
  induction fuel with
  | zero => exact fun h => h
  | succ fuel ih =>
    intro a b h
    unfold forward_digits_loop
    rw [same_has_digit h, (same_consume_next_input h).1, h.2.2.2.1]
    split
    · exact ih (same_with_current_format (same_consume_next_input h).2 _)
    · exact h

end string_formatter

namespace string_formatter

theorem same_read_argument_index {a b : string_formatter} (h : same_but_temp_buffer a b) :
    (read_argument_index a).1 = (read_argument_index b).1 ∧
      same_but_temp_buffer (read_argument_index a).2 (read_argument_index b).2 := by
  have hp := same_parse_integer h
  have hc := same_consume_next_input_if '$' hp.2
  unfold read_argument_index
  rw [same_has_digit h, hc.1, hp.1]
  split
  · split
    · exact ⟨rfl, hc.2⟩
    · exact ⟨rfl, h⟩
  · exact ⟨rfl, h⟩

theorem same_read_number_or_argument_index {a b : string_formatter}
    (h : same_but_temp_buffer a b) :
    (read_number_or_argument_index a).1 = (read_number_or_argument_index b).1 ∧
      same_but_temp_buffer (read_number_or_argument_index a).2
        (read_number_or_argument_index b).2 := by
  have hs := same_consume_next_input_if '*' h
  have hr := same_read_argument_index hs.2
  unfold read_number_or_argument_index
  rw [hs.1, same_fuel h]
  split
  · rcases hra : read_argument_index (consume_next_input_if '*' a).2 with ⟨o1, s1⟩
    rcases hrb : read_argument_index (consume_next_input_if '*' b).2 with ⟨o2, s2⟩
    rw [hra, hrb] at hr
    obtain ⟨ho, hs2⟩ := hr
    have ho1 : o1 = o2 := ho
    subst ho1
    cases o1 with
    | some index => exact ⟨rfl, hs2⟩
    | none =>
      refine ⟨congrArg some hs2.2.2.2.2, hs2.1, hs2.2.1, hs2.2.2.1, hs2.2.2.2.1, ?_⟩
      exact congrArg (fun x : Int => x + 1) hs2.2.2.2.2
  · exact ⟨rfl, same_forward_digits_loop _ h⟩

theorem same_read_width {a b : string_formatter} (h : same_but_temp_buffer a b) :
    (read_width a).1 = (read_width b).1 ∧
      same_but_temp_buffer (read_width a).2 (read_width b).2 :=
  same_read_number_or_argument_index h

theorem same_read_precision {a b : string_formatter} (h : same_but_temp_buffer a b) :
    (read_precision a).1 = (read_precision b).1 ∧
      same_but_temp_buffer (read_precision a).2 (read_precision b).2 := by
  have hs := same_consume_next_input_if '.' h
  unfold read_precision
  rw [hs.1, h.2.2.2.1]
  split
  · exact same_read_number_or_argument_index (same_with_current_format hs.2 _)
  · exact ⟨rfl, h⟩

theorem same_add_long_long_length_modifier {a b : string_formatter}
    (h : same_but_temp_buffer a b) :
    same_but_temp_buffer a.add_long_long_length_modifier b.add_long_long_length_modifier := by
  unfold add_long_long_length_modifier
  rw [h.2.2.2.1]
  exact same_with_current_format h _

theorem same_discard_oct_hex_sign_flag {a b : string_formatter}
    (h : same_but_temp_buffer a b) :
    same_but_temp_buffer a.discard_oct_hex_sign_flag b.discard_oct_hex_sign_flag := by
  unfold discard_oct_hex_sign_flag
  rw [h.2.2.2.1]
  exact same_with_current_format h _

theorem same_skip_length_modifier {a b : string_formatter} (h : same_but_temp_buffer a b) :
    same_but_temp_buffer a.skip_length_modifier b.skip_length_modifier := by
  unfold skip_length_modifier
  rw [(same_consume_next_input_if 'l' h).1, (same_consume_next_input_if 'h' h).1,
    (same_consume_next_input_if 'z' h).1, (same_consume_next_input_if 't' h).1]
  split_ifs
  · exact (same_consume_next_input_if _ (same_consume_next_input_if _ h).2).2
  · exact (same_consume_next_input_if _ (same_consume_next_input_if _ h).2).2
  · exact (same_consume_next_input_if _ h).2
  · exact (same_consume_next_input_if _ h).2
  · exact h

end string_formatter

/-- The value that `convert` returns does not depend on the old content of `temp_buffer`. -/
theorem same_convert (rt : Requested) (a : Arg) (tb1 tb2 : List Char) :
    (∃ e, convert rt tb1 a = .error e ∧ convert rt tb2 a = .error e) ∨
      ∃ v t1 t2, convert rt tb1 a = .ok (v, t1) ∧ convert rt tb2 a = .ok (v, t2) := by
  cases rt <;> cases a <;> first
    | exact Or.inr ⟨_, _, _, rfl, rfl⟩
    | exact Or.inl ⟨_, rfl, rfl⟩

theorem same_get_nth_arg_as (rt : Requested) (k : Nat) (tb1 tb2 : List Char)
    (args : List Arg) :
    ∀ current_index : Nat,
      (∃ e, get_nth_arg_as rt tb1 current_index k args = .error e ∧
        get_nth_arg_as rt tb2 current_index k args = .error e) ∨
      ∃ v t1 t2, get_nth_arg_as rt tb1 current_index k args = .ok (v, t1) ∧
        get_nth_arg_as rt tb2 current_index k args = .ok (v, t2) := by
  induction args with
  | nil => exact fun _ => Or.inl ⟨_, rfl, rfl⟩
  | cons head args ih =>
    intro current_index
    unfold get_nth_arg_as
    split
    · exact ih _
    · exact same_convert rt head tb1 tb2

namespace string_formatter

theorem same_result_error (e : FormatError) : same_result (.error e) (.error e) :=
  rfl

theorem same_do_formating (render : Backend) (value : Value) {a b : string_formatter}
    (h : same_but_temp_buffer a b) :
    same_result (do_formating render value a) (do_formating render value b) := by
  unfold do_formating
  rw [h.2.2.2.1, h.2.2.1]
  cases render b.current_format value with
  | none => exact same_result_error _
  | some text => exact ⟨h.1, h.2.1, rfl, rfl, h.2.2.2.2⟩

theorem same_format_nth_arg (render : Backend) (rt : Requested) (index : Int)
    (args : List Arg) {a b : string_formatter} (h : same_but_temp_buffer a b) :
    same_result (format_nth_arg render rt index args a)
      (format_nth_arg render rt index args b) := by
  unfold format_nth_arg
  rcases same_get_nth_arg_as rt (to_unsigned index) a.temp_buffer b.temp_buffer args 0 with
    ⟨e, h1, h2⟩ | ⟨v, t1, t2, h1, h2⟩
  · rw [h1, h2]
    exact same_result_error e
  · rw [h1, h2]
    exact same_do_formating render v (same_with_temp_buffer h t1 t2)

theorem same_dispatch_conversion (render : Backend) (c : Char) (index : Int)
    (args : List Arg) {a b : string_formatter} (h : same_but_temp_buffer a b) :
    same_result (dispatch_conversion render c index args a)
      (dispatch_conversion render c index args b) := by
  unfold dispatch_conversion
  split_ifs
  · exact same_format_nth_arg render _ index args h
  · exact same_format_nth_arg render _ index args (same_add_long_long_length_modifier h)
  · exact same_format_nth_arg render _ index args
      (same_add_long_long_length_modifier (same_discard_oct_hex_sign_flag h))
  · exact same_format_nth_arg render _ index args (same_add_long_long_length_modifier h)
  · exact same_format_nth_arg render _ index args h
  · exact same_format_nth_arg render _ index args h
  · exact same_format_nth_arg render _ index args h
  · exact same_result_error _

theorem same_read_conversion (render : Backend) (index : Int) (args : List Arg)
    {a b : string_formatter} (h : same_but_temp_buffer a b) :
    same_result (read_conversion render index args a)
      (read_conversion render index args b) := by
  have hs := same_skip_length_modifier h
  have hc := same_consume_next_input hs
  unfold read_conversion
  rw [hc.1, hs.2.2.2.1]
  exact same_dispatch_conversion render _ index args (same_with_current_format hc.2 _)

theorem same_append_int_argument (args : List Arg) (o : Option Int)
    {a b : string_formatter} (h : same_but_temp_buffer a b) :
    same_result (append_int_argument (o, a) args) (append_int_argument (o, b) args) := by
  cases o with
  | none => exact h
  | some index =>
    unfold append_int_argument
    dsimp only
    rcases same_get_nth_arg_as .int_ (to_unsigned index) a.temp_buffer b.temp_buffer args 0
      with ⟨e, h1, h2⟩ | ⟨v, t1, t2, h1, h2⟩
    · rw [h1, h2]
      exact same_result_error e
    · rw [h1, h2, h.2.2.2.1]
      exact ⟨h.1, h.2.1, h.2.2.1, rfl, h.2.2.2.2⟩

theorem same_append_int_argument_pair (args : List Arg)
    (p q : Option Int × string_formatter) (h1 : p.1 = q.1)
    (h2 : same_but_temp_buffer p.2 q.2) :
    same_result (append_int_argument p args) (append_int_argument q args) := by
  obtain ⟨o1, a⟩ := p
  obtain ⟨o2, b⟩ := q
  have e : o1 = o2 := h1
  subst e
  exact same_append_int_argument args o1 h2

theorem same_read_value (render : Backend) (o : Option Int) (args : List Arg)
    {a b : string_formatter} (h : same_but_temp_buffer a b) :
    same_result (read_value render o args a) (read_value render o args b) := by
  cases o with
  | some index => exact same_read_conversion render index args h
  | none =>
    unfold read_value
    dsimp only
    rw [h.2.2.2.2]
    exact same_read_conversion render _ args (same_with_current_argument_index h _)

/-- One specifier: the result does not depend on the `current_format` and `temp_buffer` it
starts with. -/
theorem same_parse_specifier (render : Backend) (args : List Arg) (fmt : List Char) (i : Nat)
    (out : List Char) (ai : Int) (cf1 tb1 cf2 tb2 : List Char) :
    same_result (parse_specifier render args ⟨fmt, i, out, cf1, ai, tb1⟩)
      (parse_specifier render args ⟨fmt, i, out, cf2, ai, tb2⟩) := by
  have h0 : same_but_temp_buffer ⟨fmt, i, out, ['%'], ai, tb1⟩ ⟨fmt, i, out, ['%'], ai, tb2⟩ :=
    same_of_mk _ _ _ _ _ _ _
  have hi := same_read_argument_index h0
  have hw := same_read_width (same_read_flags hi.2)
  have hA := same_append_int_argument_pair args _ _ hw.1 hw.2
  rw [parse_specifier_mk, parse_specifier_mk, hi.1]
  rcases hra : append_int_argument
      (read_width (read_flags (read_argument_index ⟨fmt, i, out, ['%'], ai, tb1⟩).2)) args
    with e1 | s1 <;>
  rcases hrb : append_int_argument
      (read_width (read_flags (read_argument_index ⟨fmt, i, out, ['%'], ai, tb2⟩).2)) args
    with e2 | s2 <;>
  rw [hra, hrb] at hA
  · exact hA
  · exact hA.elim
  · exact hA.elim
  · have hp := same_read_precision hA
    have hB := same_append_int_argument_pair args _ _ hp.1 hp.2
    dsimp only
    rcases hrc : append_int_argument (read_precision s1) args with e3 | s3 <;>
    rcases hrd : append_int_argument (read_precision s2) args with e4 | s4 <;>
    rw [hrc, hrd] at hB
    · exact hB
    · exact hB.elim
    · exact hB.elim
    · exact same_read_value render _ args hB

end string_formatter

namespace string_formatter

theorem consume_next_input_mk_eq (fmt : List Char) (i : Nat) (out cf : List Char) (ai : Int)
    (tb : List Char) :
    consume_next_input ⟨fmt, i, out, cf, ai, tb⟩ =
      (if i < fmt.length then fmt.getD i NUL else NUL,
        ⟨fmt, if i < fmt.length then i + 1 else i, out, cf, ai, tb⟩) := by
  unfold consume_next_input get_current_input
  dsimp only
  split <;> rfl

theorem consume_next_input_if_mk_eq (c : Char) (fmt : List Char) (i : Nat) (out cf : List Char)
    (ai : Int) (tb : List Char) :
    consume_next_input_if c ⟨fmt, i, out, cf, ai, tb⟩ =
      (decide (c = fmt.getD i NUL),
        ⟨fmt, if c = fmt.getD i NUL then (if i < fmt.length then i + 1 else i) else i, out,
          cf, ai, tb⟩) := by
  unfold consume_next_input_if
  rw [consume_next_input_mk_eq]
  unfold get_current_input
  dsimp only
  by_cases h : c = fmt.getD i NUL
  · rw [if_pos h, if_pos h, decide_eq_true h]
  · rw [if_neg h, if_neg h, decide_eq_false h]

/-- The loop of `parse`: what the caller gets does not depend on the `current_format` and
`temp_buffer` the loop starts with. -/
theorem outcome_parse_loop (render : Backend) (args : List Arg) (fuel : Nat) :
    ∀ (fmt : List Char) (i : Nat) (out : List Char) (ai : Int) (cf1 tb1 cf2 tb2 : List Char),
      outcome (parse_loop render args fuel ⟨fmt, i, out, cf1, ai, tb1⟩) =
        outcome (parse_loop render args fuel ⟨fmt, i, out, cf2, ai, tb2⟩) := by
  induction fuel with
  | zero => exact fun _ _ _ _ _ _ _ _ => rfl
  | succ fuel ih =>
    intro fmt i out ai cf1 tb1 cf2 tb2
    rw [parse_loop_succ, parse_loop_succ, consume_next_input_mk_eq, consume_next_input_mk_eq]
    dsimp only
    by_cases hnul : (if i < fmt.length then fmt.getD i NUL else NUL) = NUL
    · rw [if_pos hnul, if_pos hnul]
      rfl
    · rw [if_neg hnul, if_neg hnul]
      by_cases hp : (if i < fmt.length then fmt.getD i NUL else NUL) ≠ '%'
      · rw [if_pos hp, if_pos hp]
        exact ih _ _ _ _ _ _ _ _
      · rw [if_neg hp, if_neg hp, consume_next_input_if_mk_eq, consume_next_input_if_mk_eq]
        dsimp only
        by_cases hpp : decide ('%' = fmt.getD (if i < fmt.length then i + 1 else i) NUL) = true
        · rw [if_pos hpp, if_pos hpp]
          exact ih _ _ _ _ _ _ _ _
        · rw [if_neg hpp, if_neg hpp]
          have hps := same_parse_specifier render args fmt (if i < fmt.length then i + 1 else i)
            out ai cf1 tb1 cf2 tb2
          rcases hra : parse_specifier render args
              ⟨fmt, if i < fmt.length then i + 1 else i, out, cf1, ai, tb1⟩ with e1 | s1 <;>
          rcases hrb : parse_specifier render args
              ⟨fmt, if i < fmt.length then i + 1 else i, out, cf2, ai, tb2⟩ with e2 | s2 <;>
          rw [hra, hrb] at hps
          · have e : e1 = e2 := hps
            rw [e]
          · exact hps.elim
          · exact hps.elim
          · obtain ⟨f1, i1, o1, c1, a1, t1⟩ := s1
            obtain ⟨f2, i2, o2, c2, a2, t2⟩ := s2
            obtain ⟨r1, r2, r3, r4, r5⟩ := hps
            have r1a : f1 = f2 := r1
            have r2a : i1 = i2 := r2
            have r3a : o1 = o2 := r3
            have r5a : a1 = a2 := r5
            subst r1a r2a r3a r5a
            exact ih _ _ _ _ _ _ _ _

/-- What the caller of `parse` gets depends on the format and the arguments only. -/
theorem outcome_parse (render : Backend) (args : List Arg) (sf : string_formatter) :
    outcome (parse render args sf) = format_strict render sf.format args := by
  unfold parse format_strict
  exact outcome_parse_loop render args _ _ _ _ _ _ _ _ _

end string_formatter

namespace string_formatter

theorem format_parse_loop (render : Backend) (args : List Arg) (fuel : Nat) :
    ∀ sf sf1 : string_formatter, parse_loop render args fuel sf = some (.ok sf1) →
      sf1.format = sf.format := by
  induction fuel with
  | zero =>
    intro sf sf1 h
    have h0 : parse_loop render args 0 sf = none := rfl
    rw [h0] at h
    exact Option.noConfusion h
  | succ fuel ih =>
    intro sf sf1 h
    rw [parse_loop_succ] at h
    have hc : sf.consume_next_input.2.format = sf.format := (advances_consume_next_input sf).1
    split_ifs at h with h1 h2 h3
    · simp only [Option.some.injEq, Except.ok.injEq] at h
      rw [← h]
      exact hc
    · rw [ih _ _ h]
      exact hc
    · rw [ih _ _ h]
      exact ((advances_consume_next_input_if '%' _).1).trans hc
    · split at h
      · exact absurd h (by simp)
      · next sf2 hs =>
        rw [ih _ _ h]
        exact ((advances_parse_specifier hs).1).trans hc

/-- A successful `parse` leaves the format as it was. -/
theorem format_parse (render : Backend) (args : List Arg) (sf sf1 : string_formatter)
    (h : parse render args sf = some (.ok sf1)) : sf1.format = sf.format := by
  unfold parse at h
  have h1 := format_parse_loop render args _ _ _ h
  exact h1

end string_formatter

/-- C15: what `parse` gives its caller, the output or the exception, depends on the format and
the arguments only: two formatters with the same format give the same result, whatever their
output, format cursor, argument counter, sub-format and temp buffer are, and the result is the
one of a fresh formatter; in particular a second `parse` on the formatter that an earlier
`parse`, with any arguments, has left behind gives the result of a fresh formatter. -/
theorem C15_repeated_calls_independent (render : Backend) (args : List Arg)
    (sf1 sf2 : string_formatter) (h : sf1.format = sf2.format) :
    outcome (string_formatter.parse render args sf1) =
      outcome (string_formatter.parse render args sf2) ∧
    outcome (string_formatter.parse render args sf1) = format_strict render sf1.format args ∧
    (∀ (args0 : List Arg) (sf3 : string_formatter),
      string_formatter.parse render args0 sf1 = some (.ok sf3) →
      outcome (string_formatter.parse render args sf3) =
        format_strict render sf1.format args) ∧
    (∃ r, string_formatter.parse render args sf1 = some r) := by
  refine ⟨?_, string_formatter.outcome_parse render args sf1, ?_,
    string_formatter.parse_terminates render args sf1⟩
  · rw [string_formatter.outcome_parse, string_formatter.outcome_parse, h]
  · intro args0 sf3 h3
    rw [string_formatter.outcome_parse, string_formatter.format_parse render args0 sf1 sf3 h3]

/-- C15 at a formatter with leftovers of an earlier call and a fresh one. -/
theorem C15_repeated_calls_independent_witness :
    (string_formatter.mk "%d and %s".toList 7 "junk".toList "%5".toList 3 "old".toList).format =
      (string_formatter.mk "%d and %s".toList 0 [] [] 0 []).format ∧
    outcome (string_formatter.parse printf_backend [.sint 1, .string ['x']]
        ⟨"%d and %s".toList, 7, "junk".toList, "%5".toList, 3, "old".toList⟩) =
      some (.ok "1 and x".toList) :=
  ⟨rfl,
    ((C15_repeated_calls_independent printf_backend [.sint 1, .string ['x']]
      ⟨"%d and %s".toList, 7, "junk".toList, "%5".toList, 3, "old".toList⟩
      ⟨"%d and %s".toList, 0, [], [], 0, []⟩ rfl).1).trans rfl⟩

/-! ## The conversion `p` -/

/-- The format `%p` asks for the first argument as a `void *` and renders it with the
sub-format `%p`. -/
theorem format_strict_p (render : Backend) (args : List Arg) :
    format_strict render ['%', 'p'] args =
      some (render_nth_arg render .void_ptr ['%', 'p'] 0 args) :=
  format_strict_shape render args [] [] [] [] 'p' .void_ptr ['%', 'p'] (by simp) (by simp)
    rfl (Or.inl rfl) (by decide) rfl (by decide) (fun _ _ => rfl)

/-- C21 as stated fails: a C string is a pointer, so `%p` accepts it and hands its address to
the rendering primitive; and it is accepted by `%s`, a letter other than `p`. -/
theorem C21_counterexample_cstring :
    (Arg.cstring 4096 ['a', 'b']).is_cstring = true ∧
    convert .void_ptr [] (.cstring 4096 ['a', 'b']) = .ok (.void_ptr 4096, []) ∧
    format_strict printf_backend "%p".toList [.cstring 4096 ['a', 'b']] =
      some (.ok "0x1000".toList) ∧
    format_strict printf_backend "%s".toList [.cstring 4096 ['a', 'b']] =
      some (.ok "ab".toList) := by
  decide

/-- C21, as the code has it: the conversion to `void *` succeeds exactly for the pointers,
the C strings among them, and passes the address through; `%p` on a `std::string`,
`std::string_view`, translation, string id, integer, floating point value or character fails
with `UnsupportedConversion`; a pointer that is no C string is rejected by every conversion
letter other than `p`, and a C string by every letter other than `p` and `s`. -/
theorem C21_pointer_conversion (render : Backend) (x : Arg) (rest : List Arg)
    (temp_buffer t : List Char) (n : Int) (u addr : Nat) (d : Double) (ch : Char) :
    convert .void_ptr temp_buffer x =
      (if x.is_pointer then .ok (.void_ptr x.address, temp_buffer)
        else .error (.UnsupportedConversion x .void_ptr)) ∧
    format_strict render "%p".toList (x :: rest) =
      some (if x.is_pointer then render_value render ['%', 'p'] (.void_ptr x.address)
        else .error (.UnsupportedConversion x .void_ptr)) ∧
    ((Arg.pointer addr).is_pointer = true ∧ (Arg.pointer addr).address = addr ∧
      (Arg.cstring addr t).is_pointer = true ∧ (Arg.cstring addr t).address = addr) ∧
    (format_strict render "%p".toList (.string t :: rest) =
        some (.error (.UnsupportedConversion (.string t) .void_ptr)) ∧
      format_strict render "%p".toList (.string_view t :: rest) =
        some (.error (.UnsupportedConversion (.string_view t) .void_ptr)) ∧
      format_strict render "%p".toList (.translation t :: rest) =
        some (.error (.UnsupportedConversion (.translation t) .void_ptr)) ∧
      format_strict render "%p".toList (.string_id t :: rest) =
        some (.error (.UnsupportedConversion (.string_id t) .void_ptr)) ∧
      format_strict render "%p".toList (.sint n :: rest) =
        some (.error (.UnsupportedConversion (.sint n) .void_ptr)) ∧
      format_strict render "%p".toList (.uint u :: rest) =
        some (.error (.UnsupportedConversion (.uint u) .void_ptr)) ∧
      format_strict render "%p".toList (.floating d :: rest) =
        some (.error (.UnsupportedConversion (.floating d) .void_ptr)) ∧
      format_strict render "%p".toList (.character ch :: rest) =
        some (.error (.UnsupportedConversion (.character ch) .void_ptr))) ∧
    (∀ c ∈ conversion_letters, c ≠ 'p' → ∃ rt : Requested,
      format_strict render ['%', c] (.pointer addr :: rest) =
        some (.error (.UnsupportedConversion (.pointer addr) rt))) ∧
    (∀ c ∈ conversion_letters, c ≠ 'p' → c ≠ 's' → ∃ rt : Requested,
      format_strict render ['%', c] (.cstring addr t :: rest) =
        some (.error (.UnsupportedConversion (.cstring addr t) rt))) := by
  have hgen : ∀ b : Arg, format_strict render ['%', 'p'] (b :: rest) =
      some (if b.is_pointer then render_value render ['%', 'p'] (.void_ptr b.address)
        else .error (.UnsupportedConversion b .void_ptr)) := by
    intro b
    rw [format_strict_p render (b :: rest)]
    cases b <;> rfl
  refine ⟨by cases x <;> rfl, hgen x, ⟨rfl, rfl, rfl, rfl⟩,
    ⟨hgen _, hgen _, hgen _, hgen _, hgen _, hgen _, hgen _, hgen _⟩, ?_, ?_⟩
  · intro c hc hp
    unfold conversion_letters at hc
    simp only [List.mem_cons, List.mem_singleton, List.mem_nil_iff, or_false] at hc
    rcases hc with e | e | e | e | e | e | e | e | e | e | e | e | e | e | e | e | e <;>
      subst e <;> first
        | exact absurd rfl hp
        | exact ⟨_, rfl⟩
  · intro c hc hp hs
    unfold conversion_letters at hc
    simp only [List.mem_cons, List.mem_singleton, List.mem_nil_iff, or_false] at hc
    rcases hc with e | e | e | e | e | e | e | e | e | e | e | e | e | e | e | e | e <;>
      subst e <;> first
        | exact absurd rfl hp
        | exact absurd rfl hs
        | exact ⟨_, rfl⟩

/-- C21 at a pointer with the address 4096. -/
theorem C21_pointer_conversion_witness :
    format_strict printf_backend "%p".toList [.pointer 4096] = some (.ok "0x1000".toList) ∧
    format_strict printf_backend "%d".toList [.pointer 4096] =
      some (.error (.UnsupportedConversion (.pointer 4096) .signed_long_long)) :=
  ⟨((C21_pointer_conversion printf_backend (.pointer 4096) [] [] [] 0 0 0 ⟨false, 0, 0⟩
      'a').2.1).trans rfl, rfl⟩

/-! ## Termination -/

namespace string_formatter

/-- One iteration of the loop of `parse` either returns or goes on with a formatter whose
cursor has moved forward, within the format. -/
theorem parse_loop_step (render : Backend) (args : List Arg) (sf : string_formatter) :
    (∃ r, ∀ fuel, parse_loop render args (fuel + 1) sf = some r) ∨
    (∃ sf2, advances sf sf2 ∧ sf.current_index_in_format < sf2.current_index_in_format ∧
      ∀ fuel, parse_loop render args (fuel + 1) sf = parse_loop render args fuel sf2) := by
  by_cases hlt : sf.current_index_in_format < sf.format.length
  · have hi : sf.consume_next_input.2.current_index_in_format =
        sf.current_index_in_format + 1 := by
      simp [consume_next_input, hlt]
    have key : ∀ sf2 : string_formatter, advances sf.consume_next_input.2 sf2 →
        advances sf sf2 ∧ sf.current_index_in_format < sf2.current_index_in_format := by
      intro sf2 hadv
      refine ⟨advances_trans (advances_consume_next_input sf) hadv, ?_⟩
      have := hadv.2.1
      rw [hi] at this
      omega
    by_cases h1 : sf.consume_next_input.1 = NUL
    · exact Or.inl ⟨_, fun fuel => by rw [parse_loop_succ, if_pos h1]⟩
    by_cases h2 : sf.consume_next_input.1 ≠ '%'
    · have hk := key { sf.consume_next_input.2 with
          output := sf.output ++ [sf.consume_next_input.1] }
        (advances_congr (advances_refl _) rfl rfl)
      exact Or.inr ⟨_, hk.1, hk.2,
        fun fuel => by rw [parse_loop_succ, if_neg h1, if_pos h2]⟩
    by_cases h3 : (consume_next_input_if '%' sf.consume_next_input.2).1 = true
    · have hk := key { (consume_next_input_if '%' sf.consume_next_input.2).2 with
          output := sf.output ++ ['%'] }
        (advances_congr (advances_consume_next_input_if '%' _) rfl rfl)
      exact Or.inr ⟨_, hk.1, hk.2,
        fun fuel => by rw [parse_loop_succ, if_neg h1, if_neg h2, if_pos h3]⟩
    cases h4 : parse_specifier render args sf.consume_next_input.2 with
    | error e =>
      exact Or.inl ⟨_, fun fuel => by rw [parse_loop_succ, if_neg h1, if_neg h2, if_neg h3, h4]⟩
    | ok sf2 =>
      exact Or.inr ⟨sf2, (key sf2 (advances_parse_specifier h4)).1,
        (key sf2 (advances_parse_specifier h4)).2,
        fun fuel => by rw [parse_loop_succ, if_neg h1, if_neg h2, if_neg h3, h4]⟩
  · have hc : sf.consume_next_input.1 = NUL := by
      simp [consume_next_input, hlt]
    exact Or.inl ⟨_, fun fuel => by rw [parse_loop_succ, if_pos hc]⟩

/-- The formatter that the loop of `parse` returns has the format it started with and a cursor
that has not moved back and is within the format. -/
theorem advances_parse_loop (render : Backend) (args : List Arg) (fuel : Nat) :
    ∀ sf sf1 : string_formatter, parse_loop render args fuel sf = some (.ok sf1) →
      advances sf sf1 := by
  induction fuel with
  | zero =>
    intro sf sf1 h
    have h0 : parse_loop render args 0 sf = none := rfl
    rw [h0] at h
    exact Option.noConfusion h
  | succ fuel ih =>
    intro sf sf1 h
    rw [parse_loop_succ] at h
    have hc := advances_consume_next_input sf
    split_ifs at h with h1 h2 h3
    · simp only [Option.some.injEq, Except.ok.injEq] at h
      rw [← h]
      exact hc
    · exact advances_trans hc (advances_congr_left (ih _ _ h) rfl rfl)
    · exact advances_trans hc (advances_trans (advances_consume_next_input_if '%' _)
        (advances_congr_left (ih _ _ h) rfl rfl))
    · split at h
      · exact absurd h (by simp)
      · next sf2 hs =>
        exact advances_trans hc (advances_trans (advances_parse_specifier hs) (ih _ _ h))

/-- After a successful `parse` the cursor is within the format. -/
theorem cursor_parse (render : Backend) (args : List Arg) (sf sf1 : string_formatter)
    (h : parse render args sf = some (.ok sf1)) :
    sf1.format = sf.format ∧ sf1.current_index_in_format ≤ sf1.format.length := by
  unfold parse at h
  have h1 := advances_parse_loop render args _ _ _ h
  obtain ⟨hf, _, hb⟩ := h1
  have hf1 : sf1.format = sf.format := hf
  refine ⟨hf1, ?_⟩
  rw [hf1]
  exact hb (Nat.zero_le _)

theorem get_current_input_of_le (sf : string_formatter)
    (h : sf.format.length ≤ sf.current_index_in_format) : sf.get_current_input = NUL :=
  get_current_input_of_drop_nil (List.drop_eq_nil_of_le h)

/-- With as much fuel as characters are left, `read_flags_loop` stops at a character that is
no flag. -/
theorem read_flags_loop_stops (fuel : Nat) :
    ∀ sf : string_formatter, sf.format.length - sf.current_index_in_format ≤ fuel →
      is_flag (read_flags_loop fuel sf).get_current_input = false := by
  induction fuel with
  | zero =>
    intro sf h
    have e : read_flags_loop 0 sf = sf := rfl
    rw [e, get_current_input_of_le sf (by omega)]
    rfl
  | succ fuel ih =>
    intro sf h
    unfold read_flags_loop
    split
    · next hf =>
      have hlt : sf.current_index_in_format < sf.format.length := by
        by_contra hge
        rw [get_current_input_of_le sf (by omega)] at hf
        exact absurd hf (by decide)
      apply ih
      simp only [consume_next_input, hlt, if_true]
      omega
    · next hf => simpa using hf

/-- With as much fuel as characters are left, `forward_digits_loop` stops at a character that
is no digit. -/
theorem forward_digits_loop_stops (fuel : Nat) :
    ∀ sf : string_formatter, sf.format.length - sf.current_index_in_format ≤ fuel →
      (forward_digits_loop fuel sf).has_digit = false := by
  induction fuel with
  | zero =>
    intro sf h
    have e : forward_digits_loop 0 sf = sf := rfl
    rw [e]
    unfold has_digit
    rw [get_current_input_of_le sf (by omega)]
    rfl
  | succ fuel ih =>
    intro sf h
    unfold forward_digits_loop
    split
    · next hf =>
      have hlt : sf.current_index_in_format < sf.format.length := by
        by_contra hge
        unfold has_digit at hf
        rw [get_current_input_of_le sf (by omega)] at hf
        exact absurd hf (by decide)
      apply ih
      simp only [consume_next_input, hlt, if_true]
      omega
    · next hf => simpa using hf

/-- With as much fuel as characters are left, `parse_integer_loop` stops at a character that
is no digit. -/
theorem parse_integer_loop_stops (fuel : Nat) :
    ∀ (result : Nat) (sf : string_formatter),
      sf.format.length - sf.current_index_in_format ≤ fuel →
      (parse_integer_loop fuel result sf).2.has_digit = false := by
  induction fuel with
  | zero =>
    intro result sf h
    have e : parse_integer_loop 0 result sf = (result, sf) := rfl
    rw [e]
    unfold has_digit
    rw [get_current_input_of_le sf (by omega)]
    rfl
  | succ fuel ih =>
    intro result sf h
    unfold parse_integer_loop
    split
    · next hf =>
      have hlt : sf.current_index_in_format < sf.format.length := by
        by_contra hge
        unfold has_digit at hf
        rw [get_current_input_of_le sf (by omega)] at hf
        exact absurd hf (by decide)
      apply ih
      simp only [consume_next_input, hlt, if_true]
      omega
    · next hf => simpa using hf

end string_formatter

/-- C22: `parse` returns on every format and every argument list.  One iteration of its loop
either returns or goes on with the cursor moved forward by at least one character; every
reader leaves the format as it is and the cursor where it was or further on, and within the
format when it was within; the loops of the readers end at a character they do not take, not
by lack of fuel; and after a successful `parse` the cursor is within the format. -/
theorem C22_termination (render : Backend) (args : List Arg) (sf : string_formatter) :
    (∃ r, string_formatter.parse render args sf = some r) ∧
    (∃ r, format_strict render sf.format args = some r) ∧
    ((∃ r, ∀ fuel, string_formatter.parse_loop render args (fuel + 1) sf = some r) ∨
      (∃ sf2, string_formatter.advances sf sf2 ∧
        sf.current_index_in_format < sf2.current_index_in_format ∧
        ∀ fuel, string_formatter.parse_loop render args (fuel + 1) sf =
          string_formatter.parse_loop render args fuel sf2)) ∧
    (string_formatter.advances sf sf.consume_next_input.2 ∧
      string_formatter.advances sf sf.parse_integer.2 ∧
      string_formatter.advances sf sf.read_argument_index.2 ∧
      string_formatter.advances sf sf.read_flags ∧
      string_formatter.advances sf sf.read_width.2 ∧
      string_formatter.advances sf sf.read_precision.2 ∧
      string_formatter.advances sf sf.skip_length_modifier ∧
      (∀ (index : Int) (sf1 : string_formatter),
        string_formatter.read_conversion render index args sf = .ok sf1 →
        string_formatter.advances sf sf1) ∧
      (∀ sf1 : string_formatter, string_formatter.parse_specifier render args sf = .ok sf1 →
        string_formatter.advances sf sf1)) ∧
    (string_formatter.is_flag sf.read_flags.get_current_input = false ∧
      sf.parse_integer.2.has_digit = false ∧
      (string_formatter.forward_digits_loop
        (sf.format.length - sf.current_index_in_format) sf).has_digit = false) ∧
    (∀ sf1 : string_formatter, string_formatter.parse render args sf = some (.ok sf1) →
      sf1.format = sf.format ∧ sf1.current_index_in_format ≤ sf1.format.length) := by
  refine ⟨string_formatter.parse_terminates render args sf, ?_,
    string_formatter.parse_loop_step render args sf,
    ⟨string_formatter.advances_consume_next_input sf,
      string_formatter.advances_parse_integer_loop _ 0 sf,
      string_formatter.advances_read_argument_index sf,
      string_formatter.advances_read_flags_loop _ sf,
      string_formatter.advances_read_number_or_argument_index sf,
      string_formatter.advances_read_precision sf,
      string_formatter.advances_skip_length_modifier sf,
      fun index sf1 h => string_formatter.advances_read_conversion h,
      fun sf1 h => string_formatter.advances_parse_specifier h⟩,
    ⟨string_formatter.read_flags_loop_stops _ sf (Nat.le_refl _),
      string_formatter.parse_integer_loop_stops _ 0 sf (Nat.le_refl _),
      string_formatter.forward_digits_loop_stops _ sf (Nat.le_refl _)⟩,
    fun sf1 h => string_formatter.cursor_parse render args sf sf1 h⟩
  obtain ⟨r, hr⟩ := string_formatter.parse_terminates render args ⟨sf.format, 0, [], [], 0, []⟩
  rw [← string_formatter.outcome_parse render args ⟨sf.format, 0, [], [], 0, []⟩, hr]
  cases r with
  | ok formatter => exact ⟨_, rfl⟩
  | error e => exact ⟨_, rfl⟩

/-- C22 at a format of three specifiers and a cursor in the middle of it. -/
theorem C22_termination_witness :
    (∃ r, string_formatter.parse printf_backend [.sint 1]
      ⟨"%5d %s%%".toList, 3, ['x'], ['%'], 2, []⟩ = some r) ∧
    string_formatter.advances ⟨"%5d %s%%".toList, 1, [], ['%'], 0, []⟩
      (string_formatter.read_width ⟨"%5d %s%%".toList, 1, [], ['%'], 0, []⟩).2 :=
  ⟨(C22_termination printf_backend [.sint 1] ⟨"%5d %s%%".toList, 3, ['x'], ['%'], 2, []⟩).1,
    (C22_termination printf_backend [.sint 1]
      ⟨"%5d %s%%".toList, 1, [], ['%'], 0, []⟩).2.2.2.1.2.2.2.2.1⟩

/-! ## The same input behind a literal prefix and in front of a null character -/

namespace string_formatter

theorem remaining_length (sf : string_formatter) :
    sf.remaining.length = sf.format.length - sf.current_index_in_format := by
  unfold remaining
  rw [List.length_drop]

theorem get_current_input_remaining (sf : string_formatter) :
    sf.get_current_input = sf.remaining.headD NUL :=
  get_current_input_eq_headD sf

theorem remaining_ne_nil_of_input {sf : string_formatter} (h : sf.get_current_input ≠ NUL) :
    sf.remaining ≠ [] := by
  intro e
  rw [get_current_input_remaining, e] at h
  exact h rfl

theorem output_consume_next_input (sf : string_formatter) :
    sf.consume_next_input.2.output = sf.output := by
  unfold consume_next_input
  split <;> rfl

theorem consume_next_input_fst (sf : string_formatter) :
    sf.consume_next_input.1 = sf.get_current_input := by
  unfold consume_next_input
  split
  · rfl
  · next h => exact (get_current_input_of_le sf (by omega)).symm

theorem remaining_consume_next_input (sf : string_formatter) :
    sf.consume_next_input.2.remaining = sf.remaining.tail := by
  cases h : sf.remaining with
  | nil =>
    have h1 : sf.format.drop sf.current_index_in_format = [] := h
    rw [consume_next_input_of_drop_nil h1]
    exact h
  | cons c r =>
    have h1 : sf.format.drop sf.current_index_in_format = c :: r := h
    rw [consume_next_input_of_drop h1]
    exact drop_succ_of_drop h1

theorem remaining_length_of_advances {sf1 sf2 : string_formatter} (h : advances sf1 sf2) :
    sf2.remaining.length ≤ sf1.remaining.length := by
  rw [remaining_length, remaining_length, h.1]
  have := h.2.1
  omega

theorem input_of_same_input {s t : List Char} (ht : t.headD NUL = NUL)
    {a b : string_formatter} (h : same_input s t a b) :
    a.get_current_input = b.get_current_input := by
  rw [get_current_input_remaining, get_current_input_remaining, h.1]
  cases b.remaining with
  | nil => exact ht
  | cons c r => rfl

theorem same_input_consume_next_input {s t : List Char} (ht : t.headD NUL = NUL)
    {a b : string_formatter} (h : same_input s t a b) :
    a.consume_next_input.1 = b.consume_next_input.1 ∧
      (b.remaining ≠ [] → same_input s t a.consume_next_input.2 b.consume_next_input.2) := by
  refine ⟨?_, fun hne => ?_⟩
  · rw [consume_next_input_fst, consume_next_input_fst, input_of_same_input ht h]
  · obtain ⟨c, r, hb⟩ := List.exists_cons_of_ne_nil hne
    have ha : a.remaining = c :: (r ++ t) := by rw [h.1, hb]; rfl
    have hb1 : b.format.drop b.current_index_in_format = c :: r := hb
    have ha1 : a.format.drop a.current_index_in_format = c :: (r ++ t) := ha
    refine ⟨?_, ?_, ?_, ?_, ?_⟩
    · rw [remaining_consume_next_input, remaining_consume_next_input, ha, hb]
      rfl
    · rw [output_consume_next_input, output_consume_next_input]
      exact h.2.1
    · rw [consume_next_input_of_drop ha1, consume_next_input_of_drop hb1]
      exact h.2.2.1
    · rw [consume_next_input_of_drop ha1, consume_next_input_of_drop hb1]
      exact h.2.2.2.1
    · rw [consume_next_input_of_drop ha1, consume_next_input_of_drop hb1]
      exact h.2.2.2.2

theorem same_input_consume_next_input_if {s t : List Char} (ht : t.headD NUL = NUL)
    (c : Char) (hc : c ≠ NUL) {a b : string_formatter} (h : same_input s t a b) :
    (consume_next_input_if c a).1 = (consume_next_input_if c b).1 ∧
      same_input s t (consume_next_input_if c a).2 (consume_next_input_if c b).2 := by
  unfold consume_next_input_if
  rw [input_of_same_input ht h]
  split
  · next hcb =>
    exact ⟨rfl, (same_input_consume_next_input ht h).2
      (remaining_ne_nil_of_input (fun e => hc (hcb.trans e)))⟩
  · exact ⟨rfl, h⟩

theorem same_input_has_digit {s t : List Char} (ht : t.headD NUL = NUL)
    {a b : string_formatter} (h : same_input s t a b) : a.has_digit = b.has_digit := by
  unfold has_digit
  rw [input_of_same_input ht h]

theorem same_input_with_current_format {s t : List Char} {a b : string_formatter}
    (h : same_input s t a b) (x : List Char) :
    same_input s t { a with current_format := x } { b with current_format := x } :=
  ⟨h.1, h.2.1, rfl, h.2.2.2.1, h.2.2.2.2⟩

theorem same_input_with_temp_buffer {s t : List Char} {a b : string_formatter}
    (h : same_input s t a b) (x : List Char) :
    same_input s t { a with temp_buffer := x } { b with temp_buffer := x } :=
  ⟨h.1, h.2.1, h.2.2.1, h.2.2.2.1, rfl⟩

theorem same_input_with_current_argument_index {s t : List Char} {a b : string_formatter}
    (h : same_input s t a b) (x : Int) :
    same_input s t { a with current_argument_index := x }
      { b with current_argument_index := x } :=
  ⟨h.1, h.2.1, h.2.2.1, rfl, h.2.2.2.2⟩

theorem remaining_length_consume_next_input {sf : string_formatter} (h : sf.remaining ≠ []) :
    sf.consume_next_input.2.remaining.length + 1 = sf.remaining.length := by
  rw [remaining_consume_next_input]
  obtain ⟨c, r, e⟩ := List.exists_cons_of_ne_nil h
  rw [e]
  rfl

end string_formatter

namespace string_formatter

theorem parse_integer_loop_succ (fuel result : Nat) (sf : string_formatter) :
    parse_integer_loop (fuel + 1) result sf =
      if sf.has_digit then
        parse_integer_loop fuel (result * 10 + digit_value sf.consume_next_input.1)
          sf.consume_next_input.2
      else (result, sf) :=
  rfl

theorem read_flags_loop_succ (fuel : Nat) (sf : string_formatter) :
    read_flags_loop (fuel + 1) sf =
      if is_flag sf.get_current_input then
        read_flags_loop fuel
          { sf.consume_next_input.2 with
            current_format := sf.current_format ++ [sf.consume_next_input.1] }
      else sf :=
  rfl

theorem forward_digits_loop_succ (fuel : Nat) (sf : string_formatter) :
    forward_digits_loop (fuel + 1) sf =
      if sf.has_digit then
        forward_digits_loop fuel
          { sf.consume_next_input.2 with
            current_format := sf.current_format ++ [sf.consume_next_input.1] }
      else sf :=
  rfl

theorem remaining_ne_nil_of_has_digit {sf : string_formatter} (h : sf.has_digit = true) :
    sf.remaining ≠ [] := by
  apply remaining_ne_nil_of_input
  intro e
  unfold has_digit at h
  rw [e] at h
  exact absurd h (by decide)

theorem remaining_ne_nil_of_is_flag {sf : string_formatter}
    (h : is_flag sf.get_current_input = true) : sf.remaining ≠ [] := by
  apply remaining_ne_nil_of_input
  intro e
  rw [e] at h
  exact absurd h (by decide)

theorem same_input_parse_integer_loop {s t : List Char} (ht : t.headD NUL = NUL)
    (fuelB : Nat) :
    ∀ (fuelA result : Nat) {a b : string_formatter}, same_input s t a b →
      b.remaining.length ≤ fuelB → b.remaining.length ≤ fuelA →
      (parse_integer_loop fuelA result a).1 = (parse_integer_loop fuelB result b).1 ∧
        same_input s t (parse_integer_loop fuelA result a).2
          (parse_integer_loop fuelB result b).2 := by
  induction fuelB with
  | zero =>
    intro fuelA result a b h hB _
    have hb0 : b.remaining = [] := List.length_eq_zero.mp (Nat.le_zero.mp hB)
    have hbd : is_digit ((b.format.drop b.current_index_in_format).headD NUL) = false := by
      have e : b.format.drop b.current_index_in_format = [] := hb0
      rw [e]
      rfl
    have had : is_digit ((a.format.drop a.current_index_in_format).headD NUL) = false := by
      rw [← get_current_input_eq_headD, input_of_same_input ht h, get_current_input_eq_headD]
      exact hbd
    rw [parse_integer_loop_of_not_digit _ _ a had, parse_integer_loop_of_not_digit _ _ b hbd]
    exact ⟨rfl, h⟩
  | succ fuelB ih =>
    intro fuelA result a b h hB hA
    by_cases hd : b.has_digit = true
    · have hne := remaining_ne_nil_of_has_digit hd
      have hlen := remaining_length_consume_next_input hne
      have hc := same_input_consume_next_input ht h
      cases fuelA with
      | zero =>
        exact absurd (List.length_eq_zero.mp (Nat.le_zero.mp hA)) hne
      | succ fuelA =>
        rw [parse_integer_loop_succ, parse_integer_loop_succ, same_input_has_digit ht h, hd,
          if_pos rfl, if_pos rfl, hc.1]
        exact ih fuelA _ (hc.2 hne) (by omega) (by omega)
    · have hbd : is_digit ((b.format.drop b.current_index_in_format).headD NUL) = false := by
        rw [← get_current_input_eq_headD]
        simpa [has_digit] using hd
      have had : is_digit ((a.format.drop a.current_index_in_format).headD NUL) = false := by
        rw [← get_current_input_eq_headD, input_of_same_input ht h,
          get_current_input_eq_headD]
        exact hbd
      rw [parse_integer_loop_of_not_digit _ _ a had, parse_integer_loop_of_not_digit _ _ b hbd]
      exact ⟨rfl, h⟩

theorem same_input_fuel {s t : List Char} {a b : string_formatter}
    (h : same_input s t a b) :
    b.remaining.length ≤ b.format.length - b.current_index_in_format ∧
      b.remaining.length ≤ a.format.length - a.current_index_in_format := by
  rw [← remaining_length, ← remaining_length, h.1, List.length_append]
  exact ⟨Nat.le_refl _, Nat.le_add_right _ _⟩

theorem same_input_parse_integer {s t : List Char} (ht : t.headD NUL = NUL)
    {a b : string_formatter} (h : same_input s t a b) :
    a.parse_integer.1 = b.parse_integer.1 ∧
      same_input s t a.parse_integer.2 b.parse_integer.2 := by
  have hl := same_input_parse_integer_loop ht
    (b.format.length - b.current_index_in_format)
    (a.format.length - a.current_index_in_format) 0 h (same_input_fuel h).1
    (same_input_fuel h).2
  refine ⟨?_, hl.2⟩
  show ((parse_integer_loop _ 0 a).1 : Int) = ((parse_integer_loop _ 0 b).1 : Int)
  rw [hl.1]

theorem same_input_read_flags_loop {s t : List Char} (ht : t.headD NUL = NUL)
    (fuelB : Nat) :
    ∀ (fuelA : Nat) {a b : string_formatter}, same_input s t a b →
      b.remaining.length ≤ fuelB → b.remaining.length ≤ fuelA →
      same_input s t (read_flags_loop fuelA a) (read_flags_loop fuelB b) := by
  induction fuelB with
  | zero =>
    intro fuelA a b h hB _
    have hb0 : b.remaining = [] := List.length_eq_zero.mp (Nat.le_zero.mp hB)
    have hbd : is_flag ((b.format.drop b.current_index_in_format).headD NUL) = false := by
      have e : b.format.drop b.current_index_in_format = [] := hb0
      rw [e]
      rfl
    have had : is_flag ((a.format.drop a.current_index_in_format).headD NUL) = false := by
      rw [← get_current_input_eq_headD, input_of_same_input ht h, get_current_input_eq_headD]
      exact hbd
    rw [read_flags_loop_of_not_flag _ a had, read_flags_loop_of_not_flag _ b hbd]
    exact h
  | succ fuelB ih =>
    intro fuelA a b h hB hA
    by_cases hd : is_flag b.get_current_input = true
    · have hne := remaining_ne_nil_of_is_flag hd
      have hlen := remaining_length_consume_next_input hne
      have hc := same_input_consume_next_input ht h
      cases fuelA with
      | zero =>
        exact absurd (List.length_eq_zero.mp (Nat.le_zero.mp hA)) hne
      | succ fuelA =>
        rw [read_flags_loop_succ, read_flags_loop_succ, input_of_same_input ht h, hd,
          if_pos rfl, if_pos rfl, hc.1, h.2.2.1]
        exact ih fuelA (same_input_with_current_format (hc.2 hne) _)
          (show b.consume_next_input.2.remaining.length ≤ fuelB by omega)
          (show b.consume_next_input.2.remaining.length ≤ fuelA by omega)
    · have hbd : is_flag ((b.format.drop b.current_index_in_format).headD NUL) = false := by
        rw [← get_current_input_eq_headD]
        simpa using hd
      have had : is_flag ((a.format.drop a.current_index_in_format).headD NUL) = false := by
        rw [← get_current_input_eq_headD, input_of_same_input ht h,
          get_current_input_eq_headD]
        exact hbd
      rw [read_flags_loop_of_not_flag _ a had, read_flags_loop_of_not_flag _ b hbd]
      exact h

end string_formatter

namespace string_formatter

theorem same_input_read_flags {s t : List Char} (ht : t.headD NUL = NUL)
    {a b : string_formatter} (h : same_input s t a b) :
    same_input s t a.read_flags b.read_flags :=
  same_input_read_flags_loop ht _ _ h (same_input_fuel h).1 (same_input_fuel h).2

theorem same_input_forward_digits_loop {s t : List Char} (ht : t.headD NUL = NUL)
    (fuelB : Nat) :
    ∀ (fuelA : Nat) {a b : string_formatter}, same_input s t a b →
      b.remaining.length ≤ fuelB → b.remaining.length ≤ fuelA →
      same_input s t (forward_digits_loop fuelA a) (forward_digits_loop fuelB b) := by
  induction fuelB with
  | zero =>
    intro fuelA a b h hB _
    have hb0 : b.remaining = [] := List.length_eq_zero.mp (Nat.le_zero.mp hB)
    have hbd : is_digit ((b.format.drop b.current_index_in_format).headD NUL) = false := by
      have e : b.format.drop b.current_index_in_format = [] := hb0
      rw [e]
      rfl
    have had : is_digit ((a.format.drop a.current_index_in_format).headD NUL) = false := by
      rw [← get_current_input_eq_headD, input_of_same_input ht h, get_current_input_eq_headD]
      exact hbd
    rw [forward_digits_loop_of_not_digit _ a had, forward_digits_loop_of_not_digit _ b hbd]
    exact h
  | succ fuelB ih =>
    intro fuelA a b h hB hA
    by_cases hd : b.has_digit = true
    · have hne := remaining_ne_nil_of_has_digit hd
      have hlen := remaining_length_consume_next_input hne
      have hc := same_input_consume_next_input ht h
      cases fuelA with
      | zero =>
        exact absurd (List.length_eq_zero.mp (Nat.le_zero.mp hA)) hne
      | succ fuelA =>
        rw [forward_digits_loop_succ, forward_digits_loop_succ, same_input_has_digit ht h, hd,
          if_pos rfl, if_pos rfl, hc.1, h.2.2.1]
        exact ih fuelA (same_input_with_current_format (hc.2 hne) _)
          (show b.consume_next_input.2.remaining.length ≤ fuelB by omega)
          (show b.consume_next_input.2.remaining.length ≤ fuelA by omega)
    · have hbd : is_digit ((b.format.drop b.current_index_in_format).headD NUL) = false := by
        rw [← get_current_input_eq_headD]
        simpa [has_digit] using hd
      have had : is_digit ((a.format.drop a.current_index_in_format).headD NUL) = false := by
        rw [← get_current_input_eq_headD, input_of_same_input ht h,
          get_current_input_eq_headD]
        exact hbd
      rw [forward_digits_loop_of_not_digit _ a had, forward_digits_loop_of_not_digit _ b hbd]
      exact h

theorem same_input_read_argument_index {s t : List Char} (ht : t.headD NUL = NUL)
    {a b : string_formatter} (h : same_input s t a b) :
    (read_argument_index a).1 = (read_argument_index b).1 ∧
      same_input s t (read_argument_index a).2 (read_argument_index b).2 := by
  have hp := same_input_parse_integer ht h
  have hc := same_input_consume_next_input_if ht '$' (by decide) hp.2
  unfold read_argument_index
  rw [same_input_has_digit ht h, hc.1, hp.1]
  split
  · split
    · exact ⟨rfl, hc.2⟩
    · exact ⟨rfl, h⟩
  · exact ⟨rfl, h⟩

theorem same_input_read_number_or_argument_index {s t : List Char}
    (ht : t.headD NUL = NUL) {a b : string_formatter} (h : same_input s t a b) :
    (read_number_or_argument_index a).1 = (read_number_or_argument_index b).1 ∧
      same_input s t (read_number_or_argument_index a).2
        (read_number_or_argument_index b).2 := by
  have hs := same_input_consume_next_input_if ht '*' (by decide) h
  have hr := same_input_read_argument_index ht hs.2
  unfold read_number_or_argument_index
  rw [hs.1]
  split
  · rcases hra : read_argument_index (consume_next_input_if '*' a).2 with ⟨o1, s1⟩
    rcases hrb : read_argument_index (consume_next_input_if '*' b).2 with ⟨o2, s2⟩
    rw [hra, hrb] at hr
    obtain ⟨ho, hs2⟩ := hr
    have ho1 : o1 = o2 := ho
    subst ho1
    cases o1 with
    | some index => exact ⟨rfl, hs2⟩
    | none =>
      refine ⟨congrArg some hs2.2.2.2.1, hs2.1, hs2.2.1, hs2.2.2.1, ?_, hs2.2.2.2.2⟩
      exact congrArg (fun x : Int => x + 1) hs2.2.2.2.1
  · exact ⟨rfl, same_input_forward_digits_loop ht _ _ h (same_input_fuel h).1
      (same_input_fuel h).2⟩

theorem same_input_read_width {s t : List Char} (ht : t.headD NUL = NUL)
    {a b : string_formatter} (h : same_input s t a b) :
    (read_width a).1 = (read_width b).1 ∧
      same_input s t (read_width a).2 (read_width b).2 :=
  same_input_read_number_or_argument_index ht h

theorem same_input_read_precision {s t : List Char} (ht : t.headD NUL = NUL)
    {a b : string_formatter} (h : same_input s t a b) :
    (read_precision a).1 = (read_precision b).1 ∧
      same_input s t (read_precision a).2 (read_precision b).2 := by
  have hs := same_input_consume_next_input_if ht '.' (by decide) h
  unfold read_precision
  rw [hs.1, h.2.2.1]
  split
  · exact same_input_read_number_or_argument_index ht (same_input_with_current_format hs.2 _)
  · exact ⟨rfl, h⟩

theorem same_input_add_long_long_length_modifier {s t : List Char} {a b : string_formatter}
    (h : same_input s t a b) :
    same_input s t a.add_long_long_length_modifier b.add_long_long_length_modifier := by
  unfold add_long_long_length_modifier
  rw [h.2.2.1]
  exact same_input_with_current_format h _

theorem same_input_discard_oct_hex_sign_flag {s t : List Char} {a b : string_formatter}
    (h : same_input s t a b) :
    same_input s t a.discard_oct_hex_sign_flag b.discard_oct_hex_sign_flag := by
  unfold discard_oct_hex_sign_flag
  rw [h.2.2.1]
  exact same_input_with_current_format h _

theorem same_input_skip_length_modifier {s t : List Char} (ht : t.headD NUL = NUL)
    {a b : string_formatter} (h : same_input s t a b) :
    same_input s t a.skip_length_modifier b.skip_length_modifier := by
  have cl := fun {x y : string_formatter} (hxy : same_input s t x y) =>
    same_input_consume_next_input_if ht 'l' (by decide) hxy
  have ch := fun {x y : string_formatter} (hxy : same_input s t x y) =>
    same_input_consume_next_input_if ht 'h' (by decide) hxy
  have cz := same_input_consume_next_input_if ht 'z' (by decide) h
  have ct := same_input_consume_next_input_if ht 't' (by decide) h
  unfold skip_length_modifier
  rw [(cl h).1, (ch h).1, cz.1, ct.1]
  split_ifs
  · exact (cl (cl h).2).2
  · exact (ch (ch h).2).2
  · exact cz.2
  · exact ct.2
  · exact h

end string_formatter

namespace string_formatter

theorem same_input_result_error (s t : List Char) (e : FormatError) :
    same_input_result s t (.error e) (.error e) :=
  rfl

theorem same_input_do_formating {s t : List Char} (render : Backend) (value : Value)
    {a b : string_formatter} (h : same_input s t a b) :
    same_input_result s t (do_formating render value a) (do_formating render value b) := by
  unfold do_formating
  rw [h.2.2.1, h.2.1]
  cases render b.current_format value with
  | none => exact same_input_result_error s t _
  | some text =>
    exact ⟨h.1, (List.append_assoc s b.output text), rfl, h.2.2.2.1, h.2.2.2.2⟩

theorem same_input_format_nth_arg {s t : List Char} (render : Backend) (rt : Requested)
    (index : Int) (args : List Arg) {a b : string_formatter} (h : same_input s t a b) :
    same_input_result s t (format_nth_arg render rt index args a)
      (format_nth_arg render rt index args b) := by
  unfold format_nth_arg
  rw [h.2.2.2.2]
  cases get_nth_arg_as rt b.temp_buffer 0 (to_unsigned index) args with
  | error e => exact same_input_result_error s t e
  | ok p => exact same_input_do_formating render p.1 (same_input_with_temp_buffer h p.2)

theorem same_input_dispatch_conversion {s t : List Char} (render : Backend) (c : Char)
    (index : Int) (args : List Arg) {a b : string_formatter} (h : same_input s t a b) :
    same_input_result s t (dispatch_conversion render c index args a)
      (dispatch_conversion render c index args b) := by
  unfold dispatch_conversion
  split_ifs
  · exact same_input_format_nth_arg render _ index args h
  · exact same_input_format_nth_arg render _ index args
      (same_input_add_long_long_length_modifier h)
  · exact same_input_format_nth_arg render _ index args
      (same_input_add_long_long_length_modifier (same_input_discard_oct_hex_sign_flag h))
  · exact same_input_format_nth_arg render _ index args
      (same_input_add_long_long_length_modifier h)
  · exact same_input_format_nth_arg render _ index args h
  · exact same_input_format_nth_arg render _ index args h
  · exact same_input_format_nth_arg render _ index args h
  · exact same_input_result_error s t _

theorem same_input_read_conversion {s t : List Char} (ht : t.headD NUL = NUL)
    (render : Backend) (index : Int) (args : List Arg) {a b : string_formatter}
    (h : same_input s t a b) :
    same_input_result s t (read_conversion render index args a)
      (read_conversion render index args b) := by
  have hs := same_input_skip_length_modifier ht h
  have hc := same_input_consume_next_input ht hs
  unfold read_conversion
  rw [hc.1, hs.2.2.1]
  by_cases hnul : b.skip_length_modifier.consume_next_input.1 = NUL
  · rw [hnul, dispatch_conversion_invalid render NUL (by decide),
      dispatch_conversion_invalid render NUL (by decide)]
    exact same_input_result_error s t _
  · have hne : b.skip_length_modifier.remaining ≠ [] :=
      remaining_ne_nil_of_input (by rw [← consume_next_input_fst]; exact hnul)
    exact same_input_dispatch_conversion render _ index args
      (same_input_with_current_format (hc.2 hne) _)

theorem same_input_append_int_argument {s t : List Char} (args : List Arg) (o : Option Int)
    {a b : string_formatter} (h : same_input s t a b) :
    same_input_result s t (append_int_argument (o, a) args)
      (append_int_argument (o, b) args) := by
  cases o with
  | none => exact h
  | some index =>
    unfold append_int_argument
    dsimp only
    rw [h.2.2.2.2, h.2.2.1]
    cases get_nth_arg_as .int_ b.temp_buffer 0 (to_unsigned index) args with
    | error e => exact same_input_result_error s t e
    | ok p => exact ⟨h.1, h.2.1, rfl, h.2.2.2.1, rfl⟩

theorem same_input_append_int_argument_pair {s t : List Char} (args : List Arg)
    (p q : Option Int × string_formatter) (h1 : p.1 = q.1)
    (h2 : same_input s t p.2 q.2) :
    same_input_result s t (append_int_argument p args) (append_int_argument q args) := by
  obtain ⟨o1, a⟩ := p
  obtain ⟨o2, b⟩ := q
  have e : o1 = o2 := h1
  subst e
  exact same_input_append_int_argument args o1 h2

theorem same_input_read_value {s t : List Char} (ht : t.headD NUL = NUL)
    (render : Backend) (o : Option Int) (args : List Arg) {a b : string_formatter}
    (h : same_input s t a b) :
    same_input_result s t (read_value render o args a) (read_value render o args b) := by
  cases o with
  | some index => exact same_input_read_conversion ht render index args h
  | none =>
    unfold read_value
    dsimp only
    rw [h.2.2.2.1]
    exact same_input_read_conversion ht render _ args
      (same_input_with_current_argument_index h _)

/-- One specifier on the same input: the same exception, or formatters that are related
again. -/
theorem same_input_parse_specifier {s t : List Char} (ht : t.headD NUL = NUL)
    (render : Backend) (args : List Arg) {a b : string_formatter} (h : same_input s t a b) :
    same_input_result s t (parse_specifier render args a) (parse_specifier render args b) := by
  have h0 : same_input s t { a with current_format := ['%'] }
      { b with current_format := ['%'] } := same_input_with_current_format h _
  have hi := same_input_read_argument_index ht h0
  have hw := same_input_read_width ht (same_input_read_flags ht hi.2)
  have hA := same_input_append_int_argument_pair args _ _ hw.1 hw.2
  unfold parse_specifier
  dsimp only
  rw [hi.1]
  rcases hra : append_int_argument
      (read_width (read_flags (read_argument_index { a with current_format := ['%'] }).2))
      args with e1 | s1 <;>
  rcases hrb : append_int_argument
      (read_width (read_flags (read_argument_index { b with current_format := ['%'] }).2))
      args with e2 | s2 <;>
  rw [hra, hrb] at hA
  · exact hA
  · exact hA.elim
  · exact hA.elim
  · have hp := same_input_read_precision ht hA
    have hB := same_input_append_int_argument_pair args _ _ hp.1 hp.2
    dsimp only
    rcases hrc : append_int_argument (read_precision s1) args with e3 | s3 <;>
    rcases hrd : append_int_argument (read_precision s2) args with e4 | s4 <;>
    rw [hrc, hrd] at hB
    · exact hB
    · exact hB.elim
    · exact hB.elim
    · exact same_input_read_value ht render _ args hB

end string_formatter

namespace string_formatter

/-- The loop of `parse` on the same input: the same result, with the text `s` in front of the
output. -/
theorem same_input_parse_loop {s t : List Char} (ht : t.headD NUL = NUL) (render : Backend)
    (args : List Arg) (fuelB : Nat) :
    ∀ (fuelA : Nat) {a b : string_formatter}, same_input s t a b →
      b.remaining.length < fuelB → a.remaining.length < fuelA →
      outcome (parse_loop render args fuelA a) =
        with_prefix s (outcome (parse_loop render args fuelB b)) := by
  induction fuelB with
  | zero => exact fun _ _ _ _ hB _ => absurd hB (Nat.not_lt_zero _)
  | succ fuelB ih =>
    intro fuelA a b h hB hA
    cases fuelA with
    | zero => exact absurd hA (Nat.not_lt_zero _)
    | succ fuelA =>
      have hc := same_input_consume_next_input ht h
      rw [parse_loop_succ, parse_loop_succ, hc.1]
      by_cases h1 : b.consume_next_input.1 = NUL
      · rw [if_pos h1, if_pos h1]
        show some (Except.ok a.consume_next_input.2.output) =
          some (Except.ok (s ++ b.consume_next_input.2.output))
        rw [output_consume_next_input, output_consume_next_input, h.2.1]
      · rw [if_neg h1, if_neg h1]
        have hne : b.remaining ≠ [] :=
          remaining_ne_nil_of_input (by rw [← consume_next_input_fst]; exact h1)
        have hane : a.remaining ≠ [] := by
          rw [h.1]
          exact fun e => hne (List.append_eq_nil.mp e).1
        have hG := hc.2 hne
        have hlb := remaining_length_consume_next_input hne
        have hla := remaining_length_consume_next_input hane
        by_cases h2 : b.consume_next_input.1 ≠ '%'
        · rw [if_pos h2, if_pos h2]
          refine ih fuelA ⟨hG.1, ?_, hG.2.2.1, hG.2.2.2.1, hG.2.2.2.2⟩
            (show b.consume_next_input.2.remaining.length < fuelB by omega)
            (show a.consume_next_input.2.remaining.length < fuelA by omega)
          show a.output ++ [b.consume_next_input.1] = s ++ (b.output ++ [b.consume_next_input.1])
          rw [h.2.1, List.append_assoc]
        · rw [if_neg h2, if_neg h2]
          have hp := same_input_consume_next_input_if ht '%' (by decide) hG
          have hpb := remaining_length_of_advances
            (advances_consume_next_input_if '%' b.consume_next_input.2)
          have hpa := remaining_length_of_advances
            (advances_consume_next_input_if '%' a.consume_next_input.2)
          rw [hp.1]
          by_cases h3 : (consume_next_input_if '%' b.consume_next_input.2).1 = true
          · rw [if_pos h3, if_pos h3]
            refine ih fuelA ⟨hp.2.1, ?_, hp.2.2.2.1, hp.2.2.2.2.1, hp.2.2.2.2.2⟩
              (show (consume_next_input_if '%' b.consume_next_input.2).2.remaining.length <
                fuelB by omega)
              (show (consume_next_input_if '%' a.consume_next_input.2).2.remaining.length <
                fuelA by omega)
            show a.output ++ ['%'] = s ++ (b.output ++ ['%'])
            rw [h.2.1, List.append_assoc]
          · rw [if_neg h3, if_neg h3]
            have hps := same_input_parse_specifier ht render args hG
            rcases hra : parse_specifier render args a.consume_next_input.2 with e1 | s1 <;>
            rcases hrb : parse_specifier render args b.consume_next_input.2 with e2 | s2 <;>
            rw [hra, hrb] at hps
            · have e : e1 = e2 := hps
              rw [e]
              rfl
            · exact hps.elim
            · exact hps.elim
            · have hsb := remaining_length_of_advances (advances_parse_specifier hrb)
              have hsa := remaining_length_of_advances (advances_parse_specifier hra)
              exact ih fuelA hps (by omega) (by omega)

theorem with_prefix_nil (r : Option (Except FormatError (List Char))) :
    with_prefix [] r = r := by
  cases r with
  | none => rfl
  | some x =>
    cases x with
    | error e => rfl
    | ok text => rfl

end string_formatter

/-- Literal text in front of a format goes to the front of the output, and the rest of the
format is handled as without it. -/
theorem format_strict_literal_prefix (render : Backend) (s f : List Char) (args : List Arg)
    (hs : ∀ c ∈ s, c ≠ '%' ∧ c ≠ NUL) :
    format_strict render (s ++ f) args = with_prefix s (format_strict render f args) := by
  have hG : same_input s [] ⟨s ++ f, s.length, s, [], 0, []⟩ ⟨f, 0, [], [], 0, []⟩ :=
    ⟨by simp [string_formatter.remaining], by simp, rfl, rfl, rfl⟩
  have ht : ([] : List Char).headD NUL = NUL := rfl
  have h := string_formatter.same_input_parse_loop ht render args (f.length + 1)
    (f.length + 1) hG (by simp [string_formatter.remaining])
    (by simp [string_formatter.remaining])
  have e1 : format_strict render (s ++ f) args =
      outcome (string_formatter.parse render args ⟨s ++ f, 0, [], [], 0, []⟩) := rfl
  rw [e1, string_formatter.parse_after_literal render args s f hs, h]
  rfl

/-- A null character in the format ends it: what follows has no part in the result. -/
theorem format_strict_nul_cut (render : Backend) (a b : List Char) (args : List Arg) :
    format_strict render (a ++ NUL :: b) args = format_strict render a args := by
  have hG : same_input [] (NUL :: b) ⟨a ++ NUL :: b, 0, [], [], 0, []⟩ ⟨a, 0, [], [], 0, []⟩ :=
    ⟨by simp [string_formatter.remaining], rfl, rfl, rfl, rfl⟩
  have ht : (NUL :: b).headD NUL = NUL := rfl
  have h := string_formatter.same_input_parse_loop ht render args (a.length + 1)
    ((a ++ NUL :: b).length + 1) hG (by simp [string_formatter.remaining])
    (by simp [string_formatter.remaining])
  rw [string_formatter.with_prefix_nil] at h
  exact h

/-- C23: literal text `s`, without `%` and without the null character, in front of a format
`f`: the result of `format_strict` on `s ++ f` is the result on `f` with `s` in front of the
output, and the same exception when `f` fails, for every argument list. -/
theorem C23_prefix_homomorphism (render : Backend) (s f : List Char) (args : List Arg)
    (hpercent : '%' ∉ s) (hnul : NUL ∉ s) :
    format_strict render (s ++ f) args = with_prefix s (format_strict render f args) ∧
    (∀ text : List Char, format_strict render f args = some (.ok text) →
      format_strict render (s ++ f) args = some (.ok (s ++ text))) ∧
    (∀ e : FormatError, format_strict render f args = some (.error e) →
      format_strict render (s ++ f) args = some (.error e)) ∧
    (∃ r, format_strict render (s ++ f) args = some r) := by
  have hs : ∀ c ∈ s, c ≠ '%' ∧ c ≠ NUL :=
    fun c hc => ⟨fun e => hpercent (e ▸ hc), fun e => hnul (e ▸ hc)⟩
  have h := format_strict_literal_prefix render s f args hs
  refine ⟨h, fun text ht => ?_, fun e he => ?_, ?_⟩
  · rw [h, ht]
    rfl
  · rw [h, he]
    rfl
  · obtain ⟨r, hr⟩ := string_formatter.parse_terminates render args
      ⟨s ++ f, 0, [], [], 0, []⟩
    have e1 : format_strict render (s ++ f) args =
        outcome (string_formatter.parse render args ⟨s ++ f, 0, [], [], 0, []⟩) := rfl
    rw [e1, hr]
    cases r with
    | ok formatter => exact ⟨_, rfl⟩
    | error e => exact ⟨_, rfl⟩

/-- C23 at the prefix `n = ` and the formats `%d` and `%s %s`. -/
theorem C23_prefix_homomorphism_witness :
    ('%' ∉ "n = ".toList ∧ NUL ∉ "n = ".toList) ∧
    format_strict printf_backend "n = %d".toList [.sint 3] = some (.ok "n = 3".toList) ∧
    format_strict printf_backend "n = %s %s".toList [.sint 3] =
      some (.error (.IndexOutOfRange 1 1)) :=
  ⟨⟨by decide, by decide⟩,
    (C23_prefix_homomorphism printf_backend "n = ".toList "%d".toList [.sint 3] (by decide)
      (by decide)).2.1 "3".toList rfl,
    (C23_prefix_homomorphism printf_backend "n = ".toList "%s %s".toList [.sint 3] (by decide)
      (by decide)).2.2.1 (.IndexOutOfRange 1 1) rfl⟩

/-- C24: a null character in the format ends it.  When `format_strict` succeeds on `a`, it
succeeds on `a`, null character, `b` with the same output, for every `b` and every argument
list; the two results are the same also when `a` fails; and the loop of `parse` returns at a
null character with the output as it is. -/
theorem C24_embedded_nul (render : Backend) (a b : List Char) (args : List Arg)
    (text : List Char) (h : format_strict render a args = some (.ok text)) :
    format_strict render (a ++ [NUL] ++ b) args = some (.ok text) ∧
    format_strict render (a ++ [NUL] ++ b) args = format_strict render a args ∧
    (∀ (fuel : Nat) (fmt : List Char) (i : Nat) (r out cf tb : List Char) (ai : Int),
      fmt.drop i = NUL :: r →
      string_formatter.parse_loop render args (fuel + 1) ⟨fmt, i, out, cf, ai, tb⟩ =
        some (.ok ⟨fmt, i + 1, out, cf, ai, tb⟩)) := by
  have e : a ++ [NUL] ++ b = a ++ NUL :: b := by simp
  refine ⟨?_, ?_, ?_⟩
  · rw [e, format_strict_nul_cut render a b args, h]
  · rw [e, format_strict_nul_cut render a b args]
  · intro fuel fmt i r out cf tb ai hd
    rw [string_formatter.parse_loop_succ, string_formatter.consume_next_input_mk hd]
    dsimp only
    rw [if_pos rfl]

/-- C24 at the format `x=%d`, null character, `%s%q`. -/
theorem C24_embedded_nul_witness :
    format_strict printf_backend "x=%d".toList [.sint 7] = some (.ok "x=7".toList) ∧
    format_strict printf_backend ("x=%d".toList ++ [NUL] ++ "%s%q".toList) [.sint 7] =
      some (.ok "x=7".toList) :=
  ⟨rfl, (C24_embedded_nul printf_backend "x=%d".toList "%s%q".toList [.sint 7] "x=7".toList
    rfl).1⟩

end cata
